import Mathlib

/-!
Verification development for the dependency-aware computation graph of the
medical-photo-enhancer repository.

The definitions below are a shallow embedding of
`src/node_editor/core/node_graph.py` (classes `Node` and `NodeGraph`),
`src/node_editor/main_app/worker.py` (`GraphExecutionWorker`),
`src/node_editor/main_app/batch_worker.py` (`BatchProcessingWorker`) and
`src/node_editor/core/workflow_manager.py` (`WorkflowManager.save_workflow`).

Python nodes are mutable objects holding direct references to each other; the
embedding represents the graph as an association list from numeric identifiers
to node records (Python `uuid` identifiers are modelled as sequentially issued
naturals), and every mutating method becomes a function threading the whole
graph state.  `Node.process` is a polymorphic method supplied by node
subclasses; it is modelled as an oracle argument
`proc : PNode → List (Option Artifact) → Except Unit (Option Artifact)`
where `Except.error` models a raised exception and `Except.ok none` models a
normal return of Python `None`.
-/

/-- Artifacts (in-memory images) are opaque to the engine; they are modelled
as naturals, which the engine only ever compares against `none`/`some`. -/
abbrev Artifact := Nat

/-- Parameter values stored in a node's parameter dictionary. -/
inductive PValue where
  | int (n : Int)
  | str (s : String)
  | bool (b : Bool)
deriving DecidableEq, Repr

/-- Parameter descriptor: the dict `{'type': ..., 'value': ..., 'range': ...,
'step': ...}` used by the node classes in `src/node_editor/nodes`. -/
structure Param where
  ptype : String
  value : PValue
  range : Option (Int × Int) := none
  step : Option Int := none
deriving DecidableEq, Repr

/-- State of one `Node` object (`node_graph.py` lines 3-11): name, ordered
input/output adjacency (ids of the referenced node objects), parameter dict
(association list, insertion ordered like a Python dict), cache and dirty
flag.  Fresh nodes start dirty with an empty cache. -/
structure PNode where
  name : String
  inputs : List Nat
  outputs : List Nat
  parameters : List (String × Param)
  cached_data : Option Artifact
  is_dirty : Bool
deriving DecidableEq, Repr

/-- The `NodeGraph.nodes` dict (insertion ordered) plus the counter used to
mint fresh identifiers (modelling `uuid.uuid4()` freshness). -/
structure Graph where
  nodes : List (Nat × PNode)
  nextId : Nat
deriving DecidableEq, Repr

def Graph.lookup (g : Graph) (id : Nat) : Option PNode :=
  (g.nodes.find? (fun p => p.1 == id)).map (fun p => p.2)

def Graph.update (g : Graph) (id : Nat) (n : PNode) : Graph :=
  { g with nodes := g.nodes.map (fun p => if p.1 == id then (id, n) else p) }

/-- Node construction (`Node.__init__`, lines 4-11). -/
def mkNode (name : String) (params : List (String × Param)) : PNode :=
  { name := name, inputs := [], outputs := [], parameters := params,
    cached_data := none, is_dirty := true }

/-- `NodeGraph.add_node` (lines 77-80): construct the node and insert it under
a fresh identifier; returns the new id. -/
def Graph.add_node (g : Graph) (name : String) (params : List (String × Param)) :
    Graph × Nat :=
  ({ nodes := g.nodes ++ [(g.nextId, mkNode name params)], nextId := g.nextId + 1 },
   g.nextId)

/-- `Node.set_dirty` (lines 29-36), fuel-indexed.  The Python recursion
terminates because a node that already has the requested flag returns early;
`fuel` bounds the recursion depth, and every caller passes
`g.nodes.length + 1`, which is shown sufficient below (each recursive level
flips one clean node to dirty first). -/
def setDirtyAux
    (fuel : Nat) (g : Graph) (id : Nat) (d : Bool) : Graph :=
  match fuel with
  | 0 => g
  | fuel + 1 =>
    match g.lookup id with
    | none => g
    | some n =>
      if n.is_dirty = d then g
      else
        if d then
          let g1 := g.update id { n with is_dirty := d, cached_data := none }
          n.outputs.foldl (fun acc o => setDirtyAux fuel acc o true) g1
        else g.update id { n with is_dirty := d }

/-- Public entry point for `Node.set_dirty`, with always-sufficient fuel. -/
def Graph.set_dirty (g : Graph) (id : Nat) (d : Bool) : Graph :=
  setDirtyAux (g.nodes.length + 1) g id d

/-- `Node.add_input` (lines 13-17) for the node `inId`, adding `outId` as an
upstream input: guarded append to both adjacency lists, then `set_dirty()`. -/
def Graph.add_input (g : Graph) (inId outId : Nat) : Graph :=
  match g.lookup inId with
  | none => g
  | some inn =>
    if outId ∈ inn.inputs then g
    else
      let g1 := g.update inId { inn with inputs := inn.inputs ++ [outId] }
      let g2 :=
        match g1.lookup outId with
        | some on2 => g1.update outId { on2 with outputs := on2.outputs ++ [inId] }
        | none => g1
      g2.set_dirty inId true

/-- `Node.remove_input` (lines 19-23): guarded removal from both adjacency
lists then `set_dirty()`.  Python `list.remove` deletes the first occurrence;
the inner `node.outputs.remove(self)` can only miss in states violating the
doubly-linked invariant (never reachable), where it is modelled as a no-op. -/
def Graph.remove_input (g : Graph) (inId outId : Nat) : Graph :=
  match g.lookup inId with
  | none => g
  | some inn =>
    if outId ∈ inn.inputs then
      let g1 := g.update inId { inn with inputs := inn.inputs.erase outId }
      let g2 :=
        match g1.lookup outId with
        | some on2 => g1.update outId { on2 with outputs := on2.outputs.erase inId }
        | none => g1
      g2.set_dirty inId true
    else g

/-- `NodeGraph.connect` (lines 85-96).  Returns the Python boolean result plus
the updated graph.  The guard is literally `input_node in output_node.outputs`. -/
def Graph.connect (g : Graph) (outId inId : Nat) : Bool × Graph :=
  match g.lookup outId, g.lookup inId with
  | some outn, some _ =>
    if inId ∈ outn.outputs then (false, g)
    else (true, g.add_input inId outId)
  | _, _ => (false, g)

/-- `NodeGraph.disconnect` (lines 98-102). -/
def Graph.disconnect (g : Graph) (outId inId : Nat) : Graph :=
  match g.lookup outId, g.lookup inId with
  | some _, some _ => g.remove_input inId outId
  | _, _ => g

/-- `Node.get_parameter` (lines 38-39). -/
def PNode.get_parameter (n : PNode) (name : String) : Option PValue :=
  (n.parameters.find? (fun p => p.1 == name)).map (fun p => p.2.value)

/-- `Node.set_parameter` (lines 41-47) lifted to the graph.  The boolean is
`false` when the `KeyError` is raised (unknown parameter name or unknown
node); the graph is unchanged in that case since the raise precedes any
mutation. -/
def Graph.set_parameter (g : Graph) (id : Nat) (name : String) (v : PValue) :
    Bool × Graph :=
  match g.lookup id with
  | none => (false, g)
  | some n =>
    match n.parameters.find? (fun p => p.1 == name) with
    | some pr =>
      if pr.2.value = v then (true, g)
      else
        let newParams := n.parameters.map
          (fun q => if q.1 == name then (q.1, { q.2 with value := v }) else q)
        let g1 := g.update id { n with parameters := newParams }
        (true, g1.set_dirty id true)
    | none => (false, g)

/-- The `process` oracle: `Except.error` models a raised exception,
`Except.ok` a normal return (possibly of `None`). -/
abbrev ProcFn := PNode → List (Option Artifact) → Except Unit (Option Artifact)

/-- `Node.execute` (lines 52-70), fuel-indexed (the Python recursion is over
the mutable ancestor structure; its depth is bounded on the acyclic graphs it
is actually run on, and the statements below quantify over all fuels).
Returns the Python return value, the updated graph, and the trace of node ids
whose `process` method was invoked. -/
def executeAux (proc : ProcFn) (fuel : Nat) (g : Graph) (id : Nat) :
    Option Artifact × Graph × List Nat :=
  match fuel with
  | 0 => (none, g, [])
  | fuel + 1 =>
    match g.lookup id with
    | none => (none, g, [])
    | some n =>
      if n.is_dirty = false ∧ n.cached_data.isSome = true then (n.cached_data, g, [])
      else
        let r := n.inputs.foldl
          (fun (acc : List (Option Artifact) × Graph × List Nat) pid =>
            let e := executeAux proc fuel acc.2.1 pid
            (acc.1 ++ [e.1], e.2.1, acc.2.2 ++ e.2.2))
          ([], g, [])
        let inputData := r.1
        let g1 := r.2.1
        let tr := r.2.2
        if (inputData.any (fun d => d.isNone)) = true ∧ n.name ≠ "Input" then
          (none, g1, tr)
        else
          match g1.lookup id with
          | none => (none, g1, tr)
          | some n1 =>
            match proc n1 inputData with
            | Except.error _ =>
              (none, g1.update id { n1 with cached_data := none }, tr ++ [id])
            | Except.ok v =>
              let g2 := g1.update id { n1 with cached_data := v }
              (v, g2.set_dirty id false, tr ++ [id])

/-- `NodeGraph.execute_graph` (lines 104-109). -/
def Graph.execute_graph (g : Graph) (proc : ProcFn) (fuel : Nat) (endId : Nat) :
    Option Artifact × Graph × List Nat :=
  match g.lookup endId with
  | none => (none, g, [])
  | some _ => executeAux proc fuel g endId

/-- The empty graph (`NodeGraph.__init__`). -/
def Graph.empty : Graph := { nodes := [], nextId := 0 }

/-! ### Basic lookup/update lemmas -/

theorem find?_map_update_self (l : List (Nat × PNode)) (id : Nat) (m : PNode) :
    (l.map (fun p => if p.1 == id then (id, m) else p)).find? (fun p => p.1 == id) =
      (l.find? (fun p => p.1 == id)).map (fun _ => (id, m)) := by
  induction l with
  | nil => rfl
  | cons p ps ih =>
    rw [List.map_cons]
    by_cases hp : p.1 = id
    · have hb : (p.1 == id) = true := beq_iff_eq.mpr hp
      rw [if_pos hb, List.find?_cons_of_pos ps hb,
        List.find?_cons_of_pos (ps.map (fun p => if p.1 == id then (id, m) else p))
          (show (((id, m) : Nat × PNode).1 == id) = true by simp)]
      rfl
    · have hb : (p.1 == id) = false := beq_eq_false_iff_ne.mpr hp
      rw [if_neg (by simp [hb]),
        List.find?_cons_of_neg (ps.map (fun p => if p.1 == id then (id, m) else p))
          (by simp [hb]),
        List.find?_cons_of_neg ps (by simp [hb]), ih]

theorem find?_map_update_ne (l : List (Nat × PNode)) (id x : Nat) (m : PNode)
    (h : x ≠ id) :
    (l.map (fun p => if p.1 == id then (id, m) else p)).find? (fun p => p.1 == x) =
      l.find? (fun p => p.1 == x) := by
  induction l with
  | nil => rfl
  | cons p ps ih =>
    rw [List.map_cons]
    by_cases hp : p.1 = id
    · have hb : (p.1 == id) = true := beq_iff_eq.mpr hp
      have hx2 : (p.1 == x) = false :=
        beq_eq_false_iff_ne.mpr (by rw [hp]; exact Ne.symm h)
      rw [if_pos hb,
        List.find?_cons_of_neg (ps.map (fun p => if p.1 == id then (id, m) else p))
          (show ¬ (((id, m) : Nat × PNode).1 == x) = true by simp [Ne.symm h]),
        List.find?_cons_of_neg ps (by simp [hx2]), ih]
    · have hb : (p.1 == id) = false := beq_eq_false_iff_ne.mpr hp
      rw [if_neg (by simp [hb])]
      by_cases hx : p.1 = x
      · have hxb : (p.1 == x) = true := beq_iff_eq.mpr hx
        rw [List.find?_cons_of_pos (ps.map (fun p => if p.1 == id then (id, m) else p)) hxb,
          List.find?_cons_of_pos ps hxb]
      · have hxb : (p.1 == x) = false := beq_eq_false_iff_ne.mpr hx
        rw [List.find?_cons_of_neg (ps.map (fun p => if p.1 == id then (id, m) else p))
            (by simp [hxb]),
          List.find?_cons_of_neg ps (by simp [hxb]), ih]

theorem lookup_update_self {g : Graph} {id : Nat} {n : PNode} (m : PNode)
    (h : g.lookup id = some n) : (g.update id m).lookup id = some m := by
  unfold Graph.lookup Graph.update at *
  simp only [find?_map_update_self]
  rcases hf : g.nodes.find? (fun p => p.1 == id) with _ | q
  · rw [hf] at h; simp at h
  · rw [hf]; rfl

theorem lookup_update_ne {g : Graph} {id x : Nat} (m : PNode)
    (h : x ≠ id) : (g.update id m).lookup x = g.lookup x := by
  unfold Graph.lookup Graph.update
  simp only [find?_map_update_ne _ _ _ _ h]

theorem update_of_lookup_none {g : Graph} {id : Nat} (m : PNode)
    (h : g.lookup id = none) : g.update id m = g := by
  unfold Graph.lookup at h
  have hfind : g.nodes.find? (fun p => p.1 == id) = none := by
    rcases hf : g.nodes.find? (fun p => p.1 == id) with _ | q
    · exact hf
    · rw [hf] at h; simp at h
  rw [List.find?_eq_none] at hfind
  unfold Graph.update
  have hmap : ∀ l : List (Nat × PNode), (∀ x ∈ l, ¬(x.1 == id) = true) →
      l.map (fun p => if p.1 == id then (id, m) else p) = l := by
    intro l hl
    induction l with
    | nil => rfl
    | cons p ps ih =>
      rw [List.map_cons, if_neg (hl p (by simp)), ih (fun q hq => hl q (by simp [hq]))]
  rw [hmap g.nodes hfind]

theorem lookup_update {g : Graph} {id : Nat} (m : PNode) (x : Nat) :
    (g.update id m).lookup x =
      if x = id ∧ (g.lookup id).isSome = true then some m else g.lookup x := by
  by_cases hx : x = id
  · subst hx
    rcases hl : g.lookup x with _ | n
    · rw [update_of_lookup_none m hl, hl]; simp [hl]
    · rw [lookup_update_self m hl]; simp [hl]
  · rw [lookup_update_ne m hx]; simp [hx]

theorem setDirtyAux_succ (fuel : Nat) (g : Graph) (id : Nat) (d : Bool) :
    setDirtyAux (fuel + 1) g id d =
      match g.lookup id with
      | none => g
      | some n =>
        if n.is_dirty = d then g
        else
          if d then
            (n.outputs.foldl (fun acc o => setDirtyAux fuel acc o true)
              (g.update id { n with is_dirty := d, cached_data := none }))
          else g.update id { n with is_dirty := d } := by
  rw [setDirtyAux]

theorem set_dirty_false_spec {g : Graph} {id : Nat} {n : PNode}
    (h : g.lookup id = some n) :
    g.set_dirty id false =
      if n.is_dirty = false then g
      else g.update id { n with is_dirty := false } := by
  unfold Graph.set_dirty
  rw [setDirtyAux_succ, h]
  by_cases hd : n.is_dirty = false
  · simp [hd]
  · simp [hd]

theorem executeAux_succ (proc : ProcFn) (fuel : Nat) (g : Graph) (id : Nat) :
    executeAux proc (fuel + 1) g id =
      match g.lookup id with
      | none => (none, g, [])
      | some n =>
        if n.is_dirty = false ∧ n.cached_data.isSome = true then (n.cached_data, g, [])
        else
          let r := n.inputs.foldl
            (fun (acc : List (Option Artifact) × Graph × List Nat) pid =>
              let e := executeAux proc fuel acc.2.1 pid
              (acc.1 ++ [e.1], e.2.1, acc.2.2 ++ e.2.2))
            ([], g, [])
          if (r.1.any (fun d => d.isNone)) = true ∧ n.name ≠ "Input" then
            (none, r.2.1, r.2.2)
          else
            match r.2.1.lookup id with
            | none => (none, r.2.1, r.2.2)
            | some n1 =>
              match proc n1 r.1 with
              | Except.error _ =>
                (none, r.2.1.update id { n1 with cached_data := none }, r.2.2 ++ [id])
              | Except.ok v =>
                let g2 := r.2.1.update id { n1 with cached_data := v }
                (v, g2.set_dirty id false, r.2.2 ++ [id]) := by
  rw [executeAux]

theorem executeAux_some_clean {proc : ProcFn} {fuel : Nat} {g : Graph} {t : Nat}
    {a : Artifact} {g' : Graph} {tr : List Nat}
    (h : executeAux proc fuel g t = (some a, g', tr)) :
    ∃ n', g'.lookup t = some n' ∧ n'.is_dirty = false ∧ n'.cached_data = some a := by
  match fuel with
  | 0 =>
    rw [executeAux] at h
    exact absurd (congrArg Prod.fst h) (by simp)
  | fuel + 1 =>
    rw [executeAux_succ] at h
    rcases hl : g.lookup t with _ | n
    · simp only [hl] at h
      exact absurd (congrArg Prod.fst h) (by simp)
    · simp only [hl] at h
      by_cases hc : n.is_dirty = false ∧ n.cached_data.isSome = true
      · rw [if_pos hc] at h
        simp only [Prod.mk.injEq] at h
        exact ⟨n, by rw [← h.2.1, hl], hc.1, h.1⟩
      · rw [if_neg hc] at h
        by_cases hskip : ((n.inputs.foldl
            (fun (acc : List (Option Artifact) × Graph × List Nat) pid =>
              let e := executeAux proc fuel acc.2.1 pid
              (acc.1 ++ [e.1], e.2.1, acc.2.2 ++ e.2.2))
            ([], g, [])).1.any (fun d => d.isNone)) = true ∧ n.name ≠ "Input"
        · rw [if_pos hskip] at h
          exact absurd (congrArg Prod.fst h) (by simp)
        · rw [if_neg hskip] at h
          rcases hl1 : (n.inputs.foldl
              (fun (acc : List (Option Artifact) × Graph × List Nat) pid =>
                let e := executeAux proc fuel acc.2.1 pid
                (acc.1 ++ [e.1], e.2.1, acc.2.2 ++ e.2.2))
              ([], g, [])).2.1.lookup t with _ | n1
          · simp only [hl1] at h
            exact absurd (congrArg Prod.fst h) (by simp)
          · simp only [hl1] at h
            rcases hp : proc n1 (n.inputs.foldl
                (fun (acc : List (Option Artifact) × Graph × List Nat) pid =>
                  let e := executeAux proc fuel acc.2.1 pid
                  (acc.1 ++ [e.1], e.2.1, acc.2.2 ++ e.2.2))
                ([], g, [])).1 with e | v
            · simp only [hp] at h
              exact absurd (congrArg Prod.fst h) (by simp)
            · simp only [hp] at h
              simp only [Prod.mk.injEq] at h
              obtain ⟨hv, hg', htr⟩ := h
              subst hv
              have hup : ((n.inputs.foldl
                  (fun (acc : List (Option Artifact) × Graph × List Nat) pid =>
                    let e := executeAux proc fuel acc.2.1 pid
                    (acc.1 ++ [e.1], e.2.1, acc.2.2 ++ e.2.2))
                  ([], g, [])).2.1.update t { n1 with cached_data := some a }).lookup t =
                  some { n1 with cached_data := some a } :=
                lookup_update_self _ hl1
              rw [set_dirty_false_spec hup] at hg'
              by_cases hd1 : ({ n1 with cached_data := some a } : PNode).is_dirty = false
              · rw [if_pos hd1] at hg'
                refine ⟨{ n1 with cached_data := some a }, ?_, hd1, rfl⟩
                rw [← hg']; exact hup
              · rw [if_neg hd1] at hg'
                refine ⟨{ n1 with cached_data := some a, is_dirty := false }, ?_, rfl, rfl⟩
                rw [← hg']
                exact lookup_update_self _ hup

/-- C2: re-running `execute(target)` after a run that returned a non-empty
artifact, with no intervening mutation, returns the identical cached artifact
with no further state change and without invoking any node's `process` (the
invocation trace of the second run is empty): `Node.execute` lines 52-54
short-circuit on a clean node with a present cache. -/
theorem execute_memoizes {proc : ProcFn} {fuel : Nat} {g : Graph} {t : Nat}
    {a : Artifact} {g' : Graph} {tr : List Nat}
    (h : executeAux proc fuel g t = (some a, g', tr)) :
    ∀ fuel2 : Nat, executeAux proc (fuel2 + 1) g' t = (some a, g', []) := by
  obtain ⟨n', hl, hd, hc⟩ := executeAux_some_clean h
  intro fuel2
  rw [executeAux_succ]
  simp only [hl]
  rw [if_pos ⟨hd, by rw [hc]; rfl⟩, hc]

/-- Witness for `execute_memoizes` at a concrete one-node graph whose process
returns artifact 5. -/
theorem execute_memoizes_witness :
    executeAux (fun _ _ => Except.ok (some 5)) 3
        ((executeAux (fun _ _ => Except.ok (some 5)) 1 (Graph.empty.add_node "T" []).1 0).2.1) 0 =
      (some 5, (executeAux (fun _ _ => Except.ok (some 5)) 1 (Graph.empty.add_node "T" []).1 0).2.1, []) := by
  have h : executeAux (fun _ _ => Except.ok (some 5)) 1 (Graph.empty.add_node "T" []).1 0 =
      (some 5, (executeAux (fun _ _ => Except.ok (some 5)) 1 (Graph.empty.add_node "T" []).1 0).2.1,
        (executeAux (fun _ _ => Except.ok (some 5)) 1 (Graph.empty.add_node "T" []).1 0).2.2) := by
    decide
  exact execute_memoizes h 2

/-! ### The dirty-marking theory for `Node.set_dirty(True)` -/

/-- Effect of marking one node dirty (lines 32-34: flag set, cache cleared). -/
def markNode (n : PNode) : PNode := { n with is_dirty := true, cached_data := none }

/-- Structural content of a node, untouched by dirty propagation. -/
def PNode.core (n : PNode) : String × List Nat × List Nat × List (String × Param) :=
  (n.name, n.inputs, n.outputs, n.parameters)

def dirtyIn (g : Graph) (x : Nat) : Prop :=
  ∃ n, g.lookup x = some n ∧ n.is_dirty = true

def cleanCount (g : Graph) : Nat :=
  (g.nodes.filter (fun p => p.2.is_dirty == false)).length

def NodupKeys (g : Graph) : Prop := (g.nodes.map (fun p => p.1)).Nodup

def keysOf (g : Graph) : List Nat := g.nodes.map (fun p => p.1)

/-- Entry-wise effect of one `set_dirty(True)` call on the node table. -/
def NodeMark (p q : Nat × PNode) : Prop :=
  q.1 = p.1 ∧ (q.2 = p.2 ∨ (p.2.is_dirty = false ∧ q.2 = markNode p.2))

/-- Relation between a graph and any graph produced from it by dirty marking:
same ids in the same order, each node either untouched or marked. -/
def MarkRel (g g' : Graph) : Prop :=
  g'.nextId = g.nextId ∧ List.Forall₂ NodeMark g.nodes g'.nodes

theorem markRel_refl (g : Graph) : MarkRel g g :=
  ⟨rfl, List.forall₂_same.mpr (fun p _ => ⟨rfl, Or.inl rfl⟩)⟩

theorem nodeMark_trans {p q s : Nat × PNode} (h1 : NodeMark p q) (h2 : NodeMark q s) :
    NodeMark p s := by
  obtain ⟨hk1, hv1⟩ := h1
  obtain ⟨hk2, hv2⟩ := h2
  refine ⟨hk2.trans hk1, ?_⟩
  rcases hv1 with h | ⟨hc, hm⟩
  · rw [h] at hv2; exact hv2
  · rcases hv2 with h | ⟨hc2, _⟩
    · rw [h, hm]; exact Or.inr ⟨hc, rfl⟩
    · rw [hm] at hc2; simp [markNode] at hc2

theorem forall2_nodeMark_trans : ∀ {l1 l2 l3 : List (Nat × PNode)},
    List.Forall₂ NodeMark l1 l2 → List.Forall₂ NodeMark l2 l3 →
      List.Forall₂ NodeMark l1 l3 := by
  intro l1 l2 l3 h1 h2
  induction h1 generalizing l3 with
  | nil => cases h2; exact List.Forall₂.nil
  | cons hpq htail ih =>
    cases h2 with
    | cons hqs h2tail => exact List.Forall₂.cons (nodeMark_trans hpq hqs) (ih h2tail)

theorem markRel_trans {g1 g2 g3 : Graph} (h1 : MarkRel g1 g2) (h2 : MarkRel g2 g3) :
    MarkRel g1 g3 :=
  ⟨h2.1.trans h1.1, forall2_nodeMark_trans h1.2 h2.2⟩

theorem forall2_find? {l1 l2 : List (Nat × PNode)} (h : List.Forall₂ NodeMark l1 l2)
    (x : Nat) :
    (l1.find? (fun p => p.1 == x) = none ∧ l2.find? (fun p => p.1 == x) = none) ∨
    (∃ m m', l1.find? (fun p => p.1 == x) = some (x, m) ∧
      l2.find? (fun p => p.1 == x) = some (x, m') ∧
      (m' = m ∨ (m.is_dirty = false ∧ m' = markNode m))) := by
  induction h with
  | nil => exact Or.inl ⟨rfl, rfl⟩
  | cons hpq htail ih =>
    rename_i p q l1' l2'
    obtain ⟨pk, pv⟩ := p
    obtain ⟨qk, qv⟩ := q
    obtain ⟨hkeq, hval⟩ := hpq
    simp only at hkeq
    by_cases hk : pk = x
    · right
      refine ⟨pv, qv, ?_, ?_, by simpa using hval⟩
      · rw [List.find?_cons_of_pos _ (by simp [hk]), hk]
      · rw [List.find?_cons_of_pos _ (by simp [hkeq, hk]), hkeq, hk]
    · rw [List.find?_cons_of_neg _ (by simpa using hk),
        List.find?_cons_of_neg _ (by simp [hkeq, hk])]
      exact ih

theorem markRel_lookup {g g' : Graph} (h : MarkRel g g') (x : Nat) :
    (g.lookup x = none ∧ g'.lookup x = none) ∨
    (∃ m m', g.lookup x = some m ∧ g'.lookup x = some m' ∧
      (m' = m ∨ (m.is_dirty = false ∧ m' = markNode m))) := by
  rcases forall2_find? h.2 x with ⟨h1, h2⟩ | ⟨m, m', h1, h2, h3⟩
  · exact Or.inl ⟨by unfold Graph.lookup; rw [h1]; rfl,
      by unfold Graph.lookup; rw [h2]; rfl⟩
  · exact Or.inr ⟨m, m', by unfold Graph.lookup; rw [h1]; rfl,
      by unfold Graph.lookup; rw [h2]; rfl, h3⟩

theorem markRel_dirty_mono {g g' : Graph} (h : MarkRel g g') {x : Nat}
    (hd : dirtyIn g x) : dirtyIn g' x := by
  obtain ⟨n, hl, hdn⟩ := hd
  rcases markRel_lookup h x with ⟨h1, _⟩ | ⟨m, m', h1, h2, h3⟩
  · rw [h1] at hl; cases hl
  · rw [h1] at hl
    cases hl
    rcases h3 with h3 | ⟨hc, h3⟩
    · exact ⟨m', h2, h3 ▸ hdn⟩
    · rw [hdn] at hc; cases hc

theorem markRel_core {g g' : Graph} (h : MarkRel g g') (x : Nat) :
    (g'.lookup x).map PNode.core = (g.lookup x).map PNode.core := by
  rcases markRel_lookup h x with ⟨h1, h2⟩ | ⟨m, m', h1, h2, h3⟩
  · rw [h1, h2]
  · rw [h1, h2]
    rcases h3 with h3 | ⟨_, h3⟩ <;> rw [h3] <;> rfl

theorem markRel_clean_identical {g g' : Graph} (h : MarkRel g g') {x : Nat} {m' : PNode}
    (hl : g'.lookup x = some m') (hc : m'.is_dirty = false) : g.lookup x = some m' := by
  rcases markRel_lookup h x with ⟨_, h2⟩ | ⟨m, m2, h1, h2, h3⟩
  · rw [h2] at hl; cases hl
  · rw [h2] at hl
    cases hl
    rcases h3 with h3 | ⟨_, h3⟩
    · rw [h3]; exact h1
    · rw [h3] at hc; simp [markNode] at hc

theorem forall2_cleanCount {l1 l2 : List (Nat × PNode)}
    (h : List.Forall₂ NodeMark l1 l2) :
    (l2.filter (fun p => p.2.is_dirty == false)).length ≤
      (l1.filter (fun p => p.2.is_dirty == false)).length := by
  induction h with
  | nil => exact Nat.le_refl _
  | cons hpq htail ih =>
    rename_i p q l1' l2'
    rcases hpq.2 with hv | ⟨hc, hv⟩
    · by_cases hd : p.2.is_dirty = false
      · rw [List.filter_cons_of_pos (by rw [hv]; simpa using hd),
          List.filter_cons_of_pos (by simpa using hd)]
        simpa using ih
      · rw [List.filter_cons_of_neg (by rw [hv]; simpa using hd),
          List.filter_cons_of_neg (by simpa using hd)]
        exact ih
    · rw [List.filter_cons_of_neg (by rw [hv]; simp [markNode]),
        List.filter_cons_of_pos (by simpa using hc)]
      exact Nat.le_succ_of_le ih

theorem markRel_cleanCount {g g' : Graph} (h : MarkRel g g') :
    cleanCount g' ≤ cleanCount g :=
  forall2_cleanCount h.2

theorem forall2_keys {l1 l2 : List (Nat × PNode)} (h : List.Forall₂ NodeMark l1 l2) :
    l2.map (fun p => p.1) = l1.map (fun p => p.1) := by
  induction h with
  | nil => rfl
  | cons hpq htail ih => simp [hpq.1, ih]

theorem markRel_nodupKeys {g g' : Graph} (h : MarkRel g g') (hnd : NodupKeys g) :
    NodupKeys g' := by
  unfold NodupKeys at *
  rw [forall2_keys h.2]
  exact hnd

theorem markRel_keysOf {g g' : Graph} (h : MarkRel g g') : keysOf g' = keysOf g :=
  forall2_keys h.2

theorem map_update_id {l : List (Nat × PNode)} {r : Nat} (m : Nat × PNode)
    (h : ∀ x ∈ l, ¬ (x.1 == r) = true) :
    l.map (fun p => if p.1 == r then m else p) = l := by
  induction l with
  | nil => rfl
  | cons p ps ih =>
    rw [List.map_cons, if_neg (h p (by simp)), ih (fun q hq => h q (by simp [hq]))]

theorem lookup_mem {g : Graph} {r : Nat} {n : PNode} (h : g.lookup r = some n) :
    (r, n) ∈ g.nodes := by
  unfold Graph.lookup at h
  rcases hf : g.nodes.find? (fun p => p.1 == r) with _ | q
  · rw [hf] at h; cases h
  · rw [hf] at h
    have hq : q ∈ g.nodes := List.mem_of_find?_eq_some hf
    have hk := List.find?_some hf
    simp only [beq_iff_eq] at hk
    have hqe : q = (r, n) := by
      obtain ⟨qk, qv⟩ := q
      simp only at hk h
      simp at h
      simp [hk, h]
    exact hqe ▸ hq

theorem forall2_update_mark : ∀ {l : List (Nat × PNode)} {r : Nat} {n : PNode},
    (l.map (fun p => p.1)).Nodup → (r, n) ∈ l → n.is_dirty = false →
    List.Forall₂ NodeMark l (l.map (fun p => if p.1 == r then (r, markNode n) else p)) := by
  intro l
  induction l with
  | nil => intro r n _ hmem _; cases hmem
  | cons p ps ih =>
    intro r n hnd hmem hc
    rw [List.map_cons] at hnd
    have hnd1 : p.1 ∉ ps.map (fun p => p.1) := (List.nodup_cons.mp hnd).1
    have hnd2 : (ps.map (fun p => p.1)).Nodup := (List.nodup_cons.mp hnd).2
    rw [List.map_cons]
    by_cases hp : p.1 = r
    · have hpn : p = (r, n) := by
        rcases List.mem_cons.mp hmem with hmem1 | hmem1
        · exact hmem1.symm
        · exfalso
          apply hnd1
          rw [hp]
          exact List.mem_map.mpr ⟨(r, n), hmem1, rfl⟩
      subst hpn
      refine List.Forall₂.cons ?_ ?_
      · rw [if_pos (by simp)]
        exact ⟨rfl, Or.inr ⟨hc, rfl⟩⟩
      · have hnotail : ∀ x ∈ ps, ¬ (x.1 == r) = true := by
          intro x hx hxr
          apply hnd1
          show r ∈ ps.map (fun p => p.1)
          rw [← beq_iff_eq.mp hxr]
          exact List.mem_map.mpr ⟨x, hx, rfl⟩
        rw [map_update_id _ hnotail]
        exact List.forall₂_same.mpr (fun q _ => ⟨rfl, Or.inl rfl⟩)
    · refine List.Forall₂.cons ?_ ?_
      · rw [if_neg (by simpa using hp)]
        exact ⟨rfl, Or.inl rfl⟩
      · have hmem' : (r, n) ∈ ps := by
          rcases List.mem_cons.mp hmem with hmem1 | hmem1
          · exact absurd (congrArg Prod.fst hmem1).symm hp
          · exact hmem1
        exact ih hnd2 hmem' hc

theorem markRel_update_mark {g : Graph} {r : Nat} {n : PNode}
    (hnd : NodupKeys g) (h : g.lookup r = some n) (hc : n.is_dirty = false) :
    MarkRel g (g.update r (markNode n)) :=
  ⟨rfl, forall2_update_mark hnd (lookup_mem h) hc⟩

theorem cleanCount_le_length (g : Graph) : cleanCount g ≤ g.nodes.length :=
  List.length_filter_le _ _

theorem cleanCount_pos {g : Graph} {r : Nat} {n : PNode}
    (h : g.lookup r = some n) (hc : n.is_dirty = false) : 1 ≤ cleanCount g := by
  have hmem : (r, n) ∈ g.nodes.filter (fun p => p.2.is_dirty == false) :=
    List.mem_filter.mpr ⟨lookup_mem h, by simpa using hc⟩
  have := List.length_pos.mpr (List.ne_nil_of_mem hmem)
  unfold cleanCount
  omega

theorem filter_update_mark_lt : ∀ {l : List (Nat × PNode)} {r : Nat} {n : PNode},
    (l.map (fun p => p.1)).Nodup → (r, n) ∈ l → n.is_dirty = false →
    ((l.map (fun p => if p.1 == r then (r, markNode n) else p)).filter
        (fun p => p.2.is_dirty == false)).length <
      (l.filter (fun p => p.2.is_dirty == false)).length := by
  intro l
  induction l with
  | nil => intro r n _ hmem _; cases hmem
  | cons p ps ih =>
    intro r n hnd hmem hc
    rw [List.map_cons, List.nodup_cons] at hnd
    rw [List.map_cons]
    by_cases hp : p.1 = r
    · have hpn : p = (r, n) := by
        rcases List.mem_cons.mp hmem with hmem1 | hmem1
        · exact hmem1.symm
        · exact absurd (by rw [hp]; exact List.mem_map.mpr ⟨(r, n), hmem1, rfl⟩) hnd.1
      subst hpn
      have hnotail : ∀ x ∈ ps, ¬ (x.1 == r) = true := by
        intro x hx hxr
        apply hnd.1
        show r ∈ ps.map (fun p => p.1)
        rw [← beq_iff_eq.mp hxr]
        exact List.mem_map.mpr ⟨x, hx, rfl⟩
      rw [if_pos (by simp), map_update_id _ hnotail,
        List.filter_cons_of_neg (by simp [markNode]),
        List.filter_cons_of_pos (by simpa using hc)]
      simp
    · rw [if_neg (by simpa using hp)]
      have hmem' : (r, n) ∈ ps := by
        rcases List.mem_cons.mp hmem with hmem1 | hmem1
        · exact absurd (congrArg Prod.fst hmem1).symm hp
        · exact hmem1
      have := ih hnd.2 hmem' hc
      by_cases hd : p.2.is_dirty = false
      · rw [List.filter_cons_of_pos (by simpa using hd),
          List.filter_cons_of_pos (by simpa using hd)]
        simpa using this
      · rw [List.filter_cons_of_neg (by simpa using hd),
          List.filter_cons_of_neg (by simpa using hd)]
        exact this

theorem cleanCount_update_mark {g : Graph} {r : Nat} {n : PNode}
    (hnd : NodupKeys g) (h : g.lookup r = some n) (hc : n.is_dirty = false) :
    cleanCount (g.update r (markNode n)) < cleanCount g :=
  filter_update_mark_lt hnd (lookup_mem h) hc

/-- Folding `set_dirty(True)` over a list of node ids (the loop in lines
35-36 of `node_graph.py`). -/
def foldSD (fuel : Nat) (g : Graph) (roots : List Nat) : Graph :=
  roots.foldl (fun acc o => setDirtyAux fuel acc o true) g

theorem foldSD_nil (fuel : Nat) (g : Graph) : foldSD fuel g [] = g := rfl

theorem foldSD_cons (fuel : Nat) (g : Graph) (r : Nat) (rest : List Nat) :
    foldSD fuel g (r :: rest) = foldSD fuel (setDirtyAux fuel g r true) rest := rfl

theorem setDirtyAux_succ_true (fuel : Nat) (g : Graph) (id : Nat) :
    setDirtyAux (fuel + 1) g id true =
      match g.lookup id with
      | none => g
      | some n =>
        if n.is_dirty = true then g
        else foldSD fuel (g.update id (markNode n)) n.outputs := by
  rw [setDirtyAux_succ]
  rcases hl : g.lookup id with _ | n
  · rfl
  · simp only []
    by_cases hd : n.is_dirty = true
    · rw [if_pos hd, if_pos hd]
    · rw [if_neg hd, if_neg hd]
      simp [foldSD, markNode]

theorem markRel_setDirty : ∀ (fuel : Nat) (g : Graph) (r : Nat), NodupKeys g →
    MarkRel g (setDirtyAux fuel g r true) := by
  intro fuel
  induction fuel with
  | zero => intro g r _; exact markRel_refl g
  | succ fuel ih =>
    intro g r hnd
    have hfold : ∀ (roots : List Nat) (h : Graph), NodupKeys h →
        MarkRel h (foldSD fuel h roots) := by
      intro roots
      induction roots with
      | nil => intro h _; exact markRel_refl h
      | cons o os iho =>
        intro h hh
        rw [foldSD_cons]
        have h1 := ih h o hh
        exact markRel_trans h1 (iho (setDirtyAux fuel h o true) (markRel_nodupKeys h1 hh))
    rw [setDirtyAux_succ_true]
    rcases hl : g.lookup r with _ | n
    · exact markRel_refl g
    · simp only []
      by_cases hd : n.is_dirty = true
      · rw [if_pos hd]; exact markRel_refl g
      · rw [if_neg hd]
        have hc : n.is_dirty = false := by
          cases hni : n.is_dirty
          · rfl
          · exact absurd hni hd
        have h1 := markRel_update_mark hnd hl hc
        exact markRel_trans h1
          (hfold n.outputs _ (markRel_nodupKeys h1 hnd))

theorem markRel_foldSD : ∀ (roots : List Nat) (fuel : Nat) (g : Graph), NodupKeys g →
    MarkRel g (foldSD fuel g roots) := by
  intro roots
  induction roots with
  | nil => intro fuel g _; exact markRel_refl g
  | cons o os iho =>
    intro fuel g hnd
    rw [foldSD_cons]
    have h1 := markRel_setDirty fuel g o hnd
    exact markRel_trans h1 (iho fuel _ (markRel_nodupKeys h1 hnd))

theorem markRel_graph_set_dirty_true (g : Graph) (r : Nat) (hnd : NodupKeys g) :
    MarkRel g (g.set_dirty r true) :=
  markRel_setDirty _ g r hnd

/-- Clean reachability: a path along output edges all of whose nodes
(endpoints included) are clean.  These are exactly the nodes that one
`set_dirty(True)` call newly marks, since the recursion stops at any node
that is already dirty. -/
inductive CR (g : Graph) : Nat → Nat → Prop
  | refl (x : Nat) (n : PNode) (hl : g.lookup x = some n)
      (hc : n.is_dirty = false) : CR g x x
  | step (x y z : Nat) (n : PNode) (hl : g.lookup x = some n)
      (hc : n.is_dirty = false) (hy : y ∈ n.outputs) (hz : CR g y z) : CR g x z

theorem CR_start_clean {g : Graph} {x b : Nat} (h : CR g x b) :
    ∃ n, g.lookup x = some n ∧ n.is_dirty = false := by
  cases h with
  | refl x n hl hc => exact ⟨n, hl, hc⟩
  | step x y z n hl hc hy hz => exact ⟨n, hl, hc⟩

theorem CR_end_clean {g : Graph} {x b : Nat} (h : CR g x b) :
    ∃ n, g.lookup b = some n ∧ n.is_dirty = false := by
  induction h with
  | refl x n hl hc => exact ⟨n, hl, hc⟩
  | step x y z n hl hc hy hz ih => exact ih

theorem CR_concat {g : Graph} {x y z : Nat} (h1 : CR g x y) (h2 : CR g y z) :
    CR g x z := by
  induction h1 with
  | refl a n hl hc => exact h2
  | step a b c n hl hc hb hc2 ih => exact CR.step a b z n hl hc hb (ih h2)

theorem CR_transfer_to_cleaner {g h : Graph} (hm : MarkRel g h) :
    ∀ {x b : Nat}, CR h x b → CR g x b := by
  intro x b hcr
  induction hcr with
  | refl a n hl hc => exact CR.refl a n (markRel_clean_identical hm hl hc) hc
  | step a b c n hl hc hb hz ih =>
    exact CR.step a b c n (markRel_clean_identical hm hl hc) hc hb ih

theorem CR_degrade {g h : Graph} (hm : MarkRel g h) :
    ∀ {x b : Nat}, CR g x b →
      CR h x b ∨ ∃ y, dirtyIn h y ∧ ¬ dirtyIn g y ∧ CR g y b := by
  intro x b hcr
  induction hcr with
  | refl a n hl hc =>
    by_cases hd : dirtyIn h a
    · refine Or.inr ⟨a, hd, ?_, CR.refl a n hl hc⟩
      rintro ⟨m, hlm, hdm⟩
      rw [hl] at hlm; cases hlm; rw [hdm] at hc; cases hc
    · rcases markRel_lookup hm a with ⟨h1, _⟩ | ⟨m, m', h1, h2, _⟩
      · rw [h1] at hl; cases hl
      · have hc' : m'.is_dirty = false := by
          cases hmi : m'.is_dirty
          · rfl
          · exact absurd ⟨m', h2, hmi⟩ hd
        exact Or.inl (CR.refl a m' h2 hc')
  | step a b c n hl hc hb hz ih =>
    rcases ih with ih | ⟨y, hy1, hy2, hy3⟩
    · by_cases hd : dirtyIn h a
      · refine Or.inr ⟨a, hd, ?_, CR.step a b c n hl hc hb hz⟩
        rintro ⟨m, hlm, hdm⟩
        rw [hl] at hlm; cases hlm; rw [hdm] at hc; cases hc
      · rcases markRel_lookup hm a with ⟨h1, _⟩ | ⟨m, m', h1, h2, _⟩
        · rw [h1] at hl; cases hl
        · have hc' : m'.is_dirty = false := by
            cases hmi : m'.is_dirty
            · rfl
            · exact absurd ⟨m', h2, hmi⟩ hd
          have hmeq : g.lookup a = some m' := markRel_clean_identical hm h2 hc'
          rw [hl] at hmeq
          cases hmeq
          exact Or.inl (CR.step a b c n h2 hc' hb ih)
    · exact Or.inr ⟨y, hy1, hy2, hy3⟩

theorem CR_after_mark {g : Graph} {r : Nat} {n : PNode}
    (hl : g.lookup r = some n) (hc : n.is_dirty = false) :
    ∀ {x b : Nat}, CR g x b →
      CR (g.update r (markNode n)) x b ∨ b = r ∨
        ∃ o ∈ n.outputs, CR (g.update r (markNode n)) o b := by
  intro x b hcr
  induction hcr with
  | refl a m hla hca =>
    by_cases har : a = r
    · exact Or.inr (Or.inl har)
    · exact Or.inl (CR.refl a m (by rw [lookup_update_ne _ har]; exact hla) hca)
  | step a y c m hla hca hy hz ih =>
    rcases ih with ih | ih | ⟨o, ho, hcro⟩
    · by_cases har : a = r
      · subst har
        rw [hla] at hl
        cases hl
        exact Or.inr (Or.inr ⟨y, hy, ih⟩)
      · exact Or.inl (CR.step a y c m
          (by rw [lookup_update_ne _ har]; exact hla) hca hy ih)
    · exact Or.inr (Or.inl ih)
    · exact Or.inr (Or.inr ⟨o, ho, hcro⟩)

/-- Main characterization of the `set_dirty(True)` recursion (lines 29-36),
fuel-sufficient form: folding it over a list of roots marks exactly the
clean-reachable nodes — every node clean-reachable from a root ends dirty,
and a node clean-reachable from no root is untouched. -/
theorem foldSD_char : ∀ (K : Nat) (roots : List Nat) (fuel : Nat) (g : Graph),
    NodupKeys g → cleanCount g ≤ K → K + 1 ≤ fuel →
    (∀ r ∈ roots, ∀ b, CR g r b → dirtyIn (foldSD fuel g roots) b) ∧
    (∀ x, (∀ r ∈ roots, ¬ CR g r x) →
      (foldSD fuel g roots).lookup x = g.lookup x) := by
  intro K
  induction K with
  | zero =>
    intro roots
    induction roots with
    | nil =>
      intro fuel g _ _ _
      exact ⟨fun r hr => absurd hr (List.not_mem_nil r), fun x _ => rfl⟩
    | cons r rest ihR =>
      intro fuel g hnd hcc hfuel
      obtain ⟨f, rfl⟩ : ∃ f, fuel = f + 1 := ⟨fuel - 1, by omega⟩
      rw [foldSD_cons, setDirtyAux_succ_true]
      rcases hl : g.lookup r with _ | n
      · simp only []
        have hrec := ihR (f + 1) g hnd hcc hfuel
        refine ⟨?_, ?_⟩
        · intro r' hr' b hb
          rcases List.mem_cons.mp hr' with h1 | h1
          · subst h1
            obtain ⟨m, hm, _⟩ := CR_start_clean hb
            rw [hl] at hm; cases hm
          · exact hrec.1 r' h1 b hb
        · intro x hx
          exact hrec.2 x (fun r' h1 => hx r' (List.mem_cons_of_mem r h1))
      · simp only [hl]
        by_cases hd : n.is_dirty = true
        · rw [if_pos hd]
          have hrec := ihR (f + 1) g hnd hcc hfuel
          refine ⟨?_, ?_⟩
          · intro r' hr' b hb
            rcases List.mem_cons.mp hr' with h1 | h1
            · subst h1
              obtain ⟨m, hm, hmc⟩ := CR_start_clean hb
              rw [hl] at hm; cases hm; rw [hd] at hmc; cases hmc
            · exact hrec.1 r' h1 b hb
          · intro x hx
            exact hrec.2 x (fun r' h1 => hx r' (List.mem_cons_of_mem r h1))
        · have hc : n.is_dirty = false := by
            cases hni : n.is_dirty
            · rfl
            · exact absurd hni hd
          exact absurd hcc (by have := cleanCount_pos hl hc; omega)
  | succ K ihK =>
    intro roots
    induction roots with
    | nil =>
      intro fuel g _ _ _
      exact ⟨fun r hr => absurd hr (List.not_mem_nil r), fun x _ => rfl⟩
    | cons r rest ihR =>
      intro fuel g hnd hcc hfuel
      obtain ⟨f, rfl⟩ : ∃ f, fuel = f + 1 := ⟨fuel - 1, by omega⟩
      rw [foldSD_cons, setDirtyAux_succ_true]
      rcases hl : g.lookup r with _ | n
      · simp only []
        have hrec := ihR (f + 1) g hnd hcc hfuel
        refine ⟨?_, ?_⟩
        · intro r' hr' b hb
          rcases List.mem_cons.mp hr' with h1 | h1
          · subst h1
            obtain ⟨m, hm, _⟩ := CR_start_clean hb
            rw [hl] at hm; cases hm
          · exact hrec.1 r' h1 b hb
        · intro x hx
          exact hrec.2 x (fun r' h1 => hx r' (List.mem_cons_of_mem r h1))
      · simp only [hl]
        by_cases hd : n.is_dirty = true
        · rw [if_pos hd]
          have hrec := ihR (f + 1) g hnd hcc hfuel
          refine ⟨?_, ?_⟩
          · intro r' hr' b hb
            rcases List.mem_cons.mp hr' with h1 | h1
            · subst h1
              obtain ⟨m, hm, hmc⟩ := CR_start_clean hb
              rw [hl] at hm; cases hm; rw [hd] at hmc; cases hmc
            · exact hrec.1 r' h1 b hb
          · intro x hx
            exact hrec.2 x (fun r' h1 => hx r' (List.mem_cons_of_mem r h1))
        · have hc : n.is_dirty = false := by
            cases hni : n.is_dirty
            · rfl
            · exact absurd hni hd
          rw [if_neg hd]
          have hm0 : MarkRel g (g.update r (markNode n)) := markRel_update_mark hnd hl hc
          have hnd0 : NodupKeys (g.update r (markNode n)) := markRel_nodupKeys hm0 hnd
          have hccdec : cleanCount (g.update r (markNode n)) < cleanCount g :=
            cleanCount_update_mark hnd hl hc
          have Hsub := ihK n.outputs f (g.update r (markNode n)) hnd0 (by omega) (by omega)
          have hm1 : MarkRel (g.update r (markNode n))
              (foldSD f (g.update r (markNode n)) n.outputs) :=
            markRel_foldSD n.outputs f _ hnd0
          have hRmain : ∀ b, CR g r b →
              dirtyIn (foldSD f (g.update r (markNode n)) n.outputs) b := by
            intro b hb
            rcases CR_after_mark hl hc hb with hcase | hcase | ⟨o, ho, hcase⟩
            · obtain ⟨m, hm, hmc⟩ := CR_start_clean hcase
              rw [lookup_update_self (markNode n) hl] at hm
              cases hm
              simp [markNode] at hmc
            · subst hcase
              exact markRel_dirty_mono hm1
                ⟨markNode n, lookup_update_self (markNode n) hl, rfl⟩
            · exact Hsub.1 o ho b hcase
          have hRframe : ∀ x, ¬ CR g r x →
              (foldSD f (g.update r (markNode n)) n.outputs).lookup x = g.lookup x := by
            intro x hx
            have hxr : x ≠ r := by
              intro he; subst he; exact hx (CR.refl x n hl hc)
            have hnosub : ∀ o ∈ n.outputs, ¬ CR (g.update r (markNode n)) o x := by
              intro o ho hcontra
              exact hx (CR.step r o x n hl hc ho (CR_transfer_to_cleaner hm0 hcontra))
            rw [Hsub.2 x hnosub, lookup_update_ne _ hxr]
          have hmtot : MarkRel g (foldSD f (g.update r (markNode n)) n.outputs) :=
            markRel_trans hm0 hm1
          have hndmid : NodupKeys (foldSD f (g.update r (markNode n)) n.outputs) :=
            markRel_nodupKeys hmtot hnd
          have hccmid : cleanCount (foldSD f (g.update r (markNode n)) n.outputs) ≤ K + 1 :=
            le_trans (markRel_cleanCount hm1) (by omega)
          have Hrest := ihR (f + 1) (foldSD f (g.update r (markNode n)) n.outputs)
            hndmid hccmid hfuel
          have hmfin : MarkRel (foldSD f (g.update r (markNode n)) n.outputs)
              (foldSD (f + 1) (foldSD f (g.update r (markNode n)) n.outputs) rest) :=
            markRel_foldSD rest (f + 1) _ hndmid
          refine ⟨?_, ?_⟩
          · intro r' hr' b hb
            rcases List.mem_cons.mp hr' with h1 | h1
            · subst h1
              exact markRel_dirty_mono hmfin (hRmain b hb)
            · rcases CR_degrade hmtot hb with hb1 | ⟨y, hy1, hy2, hy3⟩
              · exact Hrest.1 r' h1 b hb1
              · have hcry : CR g r y := by
                  by_contra hno
                  apply hy2
                  obtain ⟨m, hm, hdm⟩ := hy1
                  exact ⟨m, by rw [← hRframe y hno]; exact hm, hdm⟩
                exact markRel_dirty_mono hmfin (hRmain b (CR_concat hcry hy3))
          · intro x hx
            have h1 : (foldSD f (g.update r (markNode n)) n.outputs).lookup x = g.lookup x :=
              hRframe x (hx r (List.mem_cons_self r rest))
            have h2 : ∀ r' ∈ rest, ¬ CR (foldSD f (g.update r (markNode n)) n.outputs) r' x := by
              intro r' hr' hcontra
              exact hx r' (List.mem_cons_of_mem r hr') (CR_transfer_to_cleaner hmtot hcontra)
            rw [Hrest.2 x h2, h1]

/-! ### Invariants -/

/-- One output edge `a → b` with both endpoints present. -/
def EdgeStep (g : Graph) (a b : Nat) : Prop :=
  ∃ n m, g.lookup a = some n ∧ b ∈ n.outputs ∧ g.lookup b = some m

/-- Transitive downstream reachability along output edges. -/
def ReachOut (g : Graph) : Nat → Nat → Prop := Relation.ReflTransGen (EdgeStep g)

/-- Claim C3's invariant: a dirty node has no cached artifact. -/
def INV3 (g : Graph) : Prop :=
  ∀ x n, g.lookup x = some n → n.is_dirty = true → n.cached_data = none

/-- Claim C10's invariant in one-step form: dirtiness is closed under
following an output edge. -/
def INVdirty (g : Graph) : Prop :=
  ∀ a b, dirtyIn g a → EdgeStep g a b → dirtyIn g b

theorem INVdirty_reach {g : Graph} (hinv : INVdirty g) {a b : Nat}
    (hd : dirtyIn g a) (hr : ReachOut g a b) : dirtyIn g b := by
  induction hr with
  | refl => exact hd
  | tail hstep hedge ih => exact hinv _ _ ih hedge

theorem markRel_INV3 {g g' : Graph} (hm : MarkRel g g') (h3 : INV3 g) : INV3 g' := by
  intro x n hl hd
  rcases markRel_lookup hm x with ⟨_, h2⟩ | ⟨m, m', h1, h2, h3'⟩
  · rw [h2] at hl; cases hl
  · rw [h2] at hl; cases hl
    rcases h3' with he | ⟨_, he⟩
    · exact he ▸ h3 x m h1 (he ▸ hd)
    · rw [he]; rfl

theorem markRel_edgeStep {g g' : Graph} (hm : MarkRel g g') (a b : Nat) :
    EdgeStep g' a b ↔ EdgeStep g a b := by
  have houts : ∀ x n', g'.lookup x = some n' → ∃ n, g.lookup x = some n ∧
      n.outputs = n'.outputs := by
    intro x n' hl
    rcases markRel_lookup hm x with ⟨_, h2⟩ | ⟨m, m', h1, h2, h3⟩
    · rw [h2] at hl; cases hl
    · rw [h2] at hl; cases hl
      rcases h3 with he | ⟨_, he⟩
      · exact ⟨m, h1, by rw [he]⟩
      · exact ⟨m, h1, by rw [he]; rfl⟩
  have houts' : ∀ x n, g.lookup x = some n → ∃ n', g'.lookup x = some n' ∧
      n'.outputs = n.outputs := by
    intro x n hl
    rcases markRel_lookup hm x with ⟨h1, _⟩ | ⟨m, m', h1, h2, h3⟩
    · rw [h1] at hl; cases hl
    · rw [h1] at hl; cases hl
      rcases h3 with he | ⟨_, he⟩
      · exact ⟨m', h2, by rw [he]⟩
      · exact ⟨m', h2, by rw [he]; rfl⟩
  constructor
  · rintro ⟨n, m, hln, hb, hlm⟩
    obtain ⟨n0, hn0, ho0⟩ := houts a n hln
    obtain ⟨m0, hm0, _⟩ := houts b m hlm
    exact ⟨n0, m0, hn0, ho0 ▸ hb, hm0⟩
  · rintro ⟨n, m, hln, hb, hlm⟩
    obtain ⟨n0, hn0, ho0⟩ := houts' a n hln
    obtain ⟨m0, hm0, _⟩ := houts' b m hlm
    exact ⟨n0, m0, hn0, ho0 ▸ hb, hm0⟩

theorem set_dirty_eq_foldSD (g : Graph) (r : Nat) :
    g.set_dirty r true = foldSD (g.nodes.length + 1) g [r] := rfl

/-- Every node clean-reachable from `r` is dirty after `set_dirty(True)`. -/
theorem set_dirty_marks {g : Graph} {r : Nat} (hnd : NodupKeys g) :
    ∀ b, CR g r b → dirtyIn (g.set_dirty r true) b := by
  intro b hb
  rw [set_dirty_eq_foldSD]
  exact (foldSD_char g.nodes.length [r] (g.nodes.length + 1) g hnd
    (cleanCount_le_length g) (Nat.le_refl _)).1 r (List.mem_cons_self r []) b hb

/-- A node not clean-reachable from `r` is untouched by `set_dirty(True)`. -/
theorem set_dirty_frame {g : Graph} {r : Nat} (hnd : NodupKeys g) :
    ∀ x, ¬ CR g r x → (g.set_dirty r true).lookup x = g.lookup x := by
  intro x hx
  rw [set_dirty_eq_foldSD]
  refine (foldSD_char g.nodes.length [r] (g.nodes.length + 1) g hnd
    (cleanCount_le_length g) (Nat.le_refl _)).2 x ?_
  intro r' hr'
  rcases List.mem_cons.mp hr' with h1 | h1
  · exact h1 ▸ hx
  · exact absurd h1 (List.not_mem_nil r')

theorem set_dirty_dirtyIn_iff {g : Graph} {r : Nat} (hnd : NodupKeys g) (b : Nat) :
    dirtyIn (g.set_dirty r true) b ↔ (dirtyIn g b ∨ CR g r b) := by
  constructor
  · intro hd
    by_cases hcr : CR g r b
    · exact Or.inr hcr
    · obtain ⟨m, hm, hdm⟩ := hd
      rw [set_dirty_frame hnd b hcr] at hm
      exact Or.inl ⟨m, hm, hdm⟩
  · rintro (hd | hcr)
    · exact markRel_dirty_mono (markRel_graph_set_dirty_true g r hnd) hd
    · exact set_dirty_marks hnd b hcr

/-- The single-step dirty-closure invariant survives `set_dirty(True)` when
every pre-existing violation is covered by clean-reachability from `r`. -/
theorem INVdirty_set_dirty {g : Graph} {r : Nat} (hnd : NodupKeys g)
    (hpre : ∀ a b, dirtyIn g a → EdgeStep g a b → dirtyIn g b ∨ CR g r b) :
    INVdirty (g.set_dirty r true) := by
  intro a b hda hedge
  have hm := markRel_graph_set_dirty_true g r hnd
  rw [markRel_edgeStep hm] at hedge
  rw [set_dirty_dirtyIn_iff hnd] at hda ⊢
  rcases hda with hda | hcr
  · exact hpre a b hda hedge
  · obtain ⟨n, m, hln, hb, hlm⟩ := hedge
    by_cases hdb : m.is_dirty = true
    · exact Or.inl ⟨m, hlm, hdb⟩
    · have hcb : m.is_dirty = false := by
        cases hmi : m.is_dirty
        · rfl
        · exact absurd hmi hdb
      refine Or.inr (CR_concat hcr ?_)
      obtain ⟨na, hlna, hcna⟩ := CR_end_clean hcr
      rw [hln] at hlna
      cases hlna
      exact CR.step a b b n hln hcna hb (CR.refl b m hlm hcb)

/-! ### Key-list preservation -/

theorem keysOf_update (g : Graph) (id : Nat) (m : PNode) :
    keysOf (g.update id m) = keysOf g := by
  unfold keysOf Graph.update
  simp only []
  induction g.nodes with
  | nil => rfl
  | cons p ps ih =>
    rw [List.map_cons, List.map_cons, List.map_cons]
    by_cases hp : p.1 = id
    · rw [if_pos (by simpa using hp)]
      simp only [List.map_cons] at ih
      rw [show ((id, m) : Nat × PNode).1 = p.1 from hp ▸ rfl]
      exact congrArg _ ih
    · rw [if_neg (by simpa using hp)]
      exact congrArg _ ih

theorem keysOf_setDirtyAux : ∀ (fuel : Nat) (g : Graph) (id : Nat) (d : Bool),
    keysOf (setDirtyAux fuel g id d) = keysOf g ∧
      (setDirtyAux fuel g id d).nextId = g.nextId := by
  intro fuel
  induction fuel with
  | zero => intro g id d; exact ⟨rfl, rfl⟩
  | succ fuel ih =>
    intro g id d
    rw [setDirtyAux_succ]
    rcases hl : g.lookup id with _ | n
    · exact ⟨rfl, rfl⟩
    · simp only []
      by_cases hd : n.is_dirty = d
      · rw [if_pos hd]; exact ⟨rfl, rfl⟩
      · rw [if_neg hd]
        by_cases hdt : d = true
        · subst hdt
          rw [if_pos rfl]
          have hfold : ∀ (roots : List Nat) (h : Graph),
              keysOf (roots.foldl (fun acc o => setDirtyAux fuel acc o true) h) = keysOf h ∧
              (roots.foldl (fun acc o => setDirtyAux fuel acc o true) h).nextId = h.nextId := by
            intro roots
            induction roots with
            | nil => intro h; exact ⟨rfl, rfl⟩
            | cons o os iho =>
              intro h
              rw [List.foldl_cons]
              obtain ⟨h1, h2⟩ := iho (setDirtyAux fuel h o true)
              obtain ⟨h3, h4⟩ := ih h o true
              exact ⟨h1.trans h3, h2.trans h4⟩
          obtain ⟨h1, h2⟩ := hfold n.outputs (g.update id { n with is_dirty := true, cached_data := none })
          exact ⟨h1.trans (keysOf_update _ _ _), h2⟩
        · rw [if_neg hdt]
          exact ⟨keysOf_update _ _ _, rfl⟩

/-- Structural well-formedness maintained by every public operation:
unique ids, ids below the fresh counter, adjacency lists referencing present
nodes, the doubly-linked edge representation kept in sync (counted with
multiplicity), and no duplicates in input lists (guard in `add_input`). -/
structure WF (g : Graph) : Prop where
  nodup : NodupKeys g
  keysLt : ∀ k ∈ keysOf g, k < g.nextId
  closedOut : ∀ x n, g.lookup x = some n → ∀ o ∈ n.outputs, (g.lookup o).isSome = true
  closedIn : ∀ x n, g.lookup x = some n → ∀ i ∈ n.inputs, (g.lookup i).isSome = true
  mirror : ∀ a na b nb, g.lookup a = some na → g.lookup b = some nb →
    List.count b na.outputs = List.count a nb.inputs
  nodupIn : ∀ x n, g.lookup x = some n → n.inputs.Nodup

theorem WF_empty : WF Graph.empty := by
  refine ⟨?_, ?_, ?_, ?_, ?_, ?_⟩
  · exact List.nodup_nil
  · intro k hk; cases hk
  · intro x n h; cases h
  · intro x n h; cases h
  · intro a na b nb h; cases h
  · intro x n h; cases h

theorem lookup_isSome_iff_mem_keys (g : Graph) (x : Nat) :
    (g.lookup x).isSome = true ↔ x ∈ keysOf g := by
  unfold Graph.lookup keysOf
  induction g.nodes with
  | nil => simp
  | cons p ps ih =>
    by_cases hp : p.1 = x
    · rw [List.find?_cons_of_pos _ (by simpa using hp)]
      simp [hp]
    · rw [List.find?_cons_of_neg _ (by simpa using hp)]
      simp only [List.map_cons, List.mem_cons]
      rw [← ih]
      constructor
      · intro h; exact Or.inr h
      · intro h
        rcases h with h | h
        · exact absurd h.symm hp
        · exact h

theorem lookup_add_node (g : Graph) (name : String) (params : List (String × Param))
    (hlt : ∀ p ∈ g.nodes, p.1 < g.nextId) (x : Nat) :
    ((g.add_node name params).1).lookup x =
      if x = g.nextId then some (mkNode name params) else g.lookup x := by
  unfold Graph.add_node Graph.lookup
  simp only [List.find?_append]
  by_cases hx : x = g.nextId
  · subst hx
    have hnone : g.nodes.find? (fun p => p.1 == g.nextId) = none := by
      rw [List.find?_eq_none]
      intro p hp hpx
      exact absurd (beq_iff_eq.mp hpx ▸ hlt p hp) (lt_irrefl g.nextId)
    rw [hnone]
    simp
  · rw [if_neg hx]
    rcases hf : g.nodes.find? (fun p => p.1 == x) with _ | q
    · rw [hf]
      have hs : (List.find? (fun (p : Nat × PNode) => p.1 == x)
          [(g.nextId, mkNode name params)]) = none := by
        simp only [List.find?]
        rw [show ((g.nextId == x) = false) from beq_eq_false_iff_ne.mpr (fun h => hx h.symm)]
      rw [hs]
      rfl
    · rw [hf]
      rfl

theorem WF.keysLt_pairs {g : Graph} (hwf : WF g) : ∀ p ∈ g.nodes, p.1 < g.nextId :=
  fun p hp => hwf.keysLt p.1 (List.mem_map.mpr ⟨p, hp, rfl⟩)

theorem markRel_WF {g g' : Graph} (hm : MarkRel g g') (hwf : WF g) : WF g' := by
  have hkeys : keysOf g' = keysOf g := forall2_keys hm.2
  have hpres : ∀ x, (g'.lookup x).isSome = true ↔ (g.lookup x).isSome = true := by
    intro x
    rw [lookup_isSome_iff_mem_keys, lookup_isSome_iff_mem_keys, hkeys]
  have hnode : ∀ x n', g'.lookup x = some n' → ∃ n, g.lookup x = some n ∧
      n.outputs = n'.outputs ∧ n.inputs = n'.inputs := by
    intro x n' hl
    rcases markRel_lookup hm x with ⟨_, h2⟩ | ⟨m, m', h1, h2, h3⟩
    · rw [h2] at hl; cases hl
    · rw [h2] at hl; cases hl
      rcases h3 with he | ⟨_, he⟩
      · exact ⟨m, h1, by rw [he], by rw [he]⟩
      · exact ⟨m, h1, by rw [he]; rfl, by rw [he]; rfl⟩
  refine ⟨markRel_nodupKeys hm hwf.nodup, ?_, ?_, ?_, ?_, ?_⟩
  · intro k hk
    rw [hkeys] at hk
    rw [hm.1]
    exact hwf.keysLt k hk
  · intro x n' hl o ho
    obtain ⟨n, h1, h2, _⟩ := hnode x n' hl
    rw [hpres o]
    exact hwf.closedOut x n h1 o (h2 ▸ ho)
  · intro x n' hl i hi
    obtain ⟨n, h1, _, h3⟩ := hnode x n' hl
    rw [hpres i]
    exact hwf.closedIn x n h1 i (h3 ▸ hi)
  · intro a na' b nb' hla hlb
    obtain ⟨na, h1, h2, _⟩ := hnode a na' hla
    obtain ⟨nb, h4, _, h6⟩ := hnode b nb' hlb
    rw [← h2, ← h6]
    exact hwf.mirror a na b nb h1 h4
  · intro x n' hl
    obtain ⟨n, h1, _, h3⟩ := hnode x n' hl
    rw [← h3]
    exact hwf.nodupIn x n h1

theorem lookup_present_ne_nextId {g : Graph} (hwf : WF g) {x : Nat}
    (h : (g.lookup x).isSome = true) : x ≠ g.nextId := by
  intro he
  have := hwf.keysLt x ((lookup_isSome_iff_mem_keys g x).mp h)
  omega

theorem add_node_preserves {g : Graph} (name : String) (params : List (String × Param))
    (hwf : WF g) (h3 : INV3 g) (hdi : INVdirty g) :
    WF (g.add_node name params).1 ∧ INV3 (g.add_node name params).1 ∧
      INVdirty (g.add_node name params).1 := by
  have hlook := lookup_add_node g name params hwf.keysLt_pairs
  have hkeys : keysOf (g.add_node name params).1 = keysOf g ++ [g.nextId] := by
    unfold keysOf Graph.add_node
    simp
  have hnotin : g.nextId ∉ keysOf g := by
    intro hmem
    exact absurd (hwf.keysLt g.nextId hmem) (lt_irrefl _)
  refine ⟨⟨?_, ?_, ?_, ?_, ?_, ?_⟩, ?_, ?_⟩
  · unfold NodupKeys
    show (keysOf (g.add_node name params).1).Nodup
    rw [hkeys, List.nodup_append]
    exact ⟨hwf.nodup, List.nodup_singleton _,
      fun x hx hy => hnotin ((List.mem_singleton.mp hy) ▸ hx)⟩
  · intro k hk
    rw [hkeys] at hk
    show k < g.nextId + 1
    rcases List.mem_append.mp hk with h | h
    · exact lt_trans (hwf.keysLt k h) (Nat.lt_succ_self _)
    · have := List.mem_singleton.mp h
      omega
  · intro x n hl o ho
    rw [hlook] at hl
    rw [hlook]
    by_cases hx : x = g.nextId
    · rw [if_pos hx] at hl
      cases hl
      cases ho
    · rw [if_neg hx] at hl
      by_cases hox : o = g.nextId
      · rw [if_pos hox]; rfl
      · rw [if_neg hox]
        exact hwf.closedOut x n hl o ho
  · intro x n hl i hi
    rw [hlook] at hl
    rw [hlook]
    by_cases hx : x = g.nextId
    · rw [if_pos hx] at hl
      cases hl
      cases hi
    · rw [if_neg hx] at hl
      by_cases hix : i = g.nextId
      · rw [if_pos hix]; rfl
      · rw [if_neg hix]
        exact hwf.closedIn x n hl i hi
  · intro a na b nb hla hlb
    rw [hlook] at hla hlb
    by_cases hax : a = g.nextId
    · rw [if_pos hax] at hla
      cases hla
      by_cases hbx : b = g.nextId
      · rw [if_pos hbx] at hlb
        cases hlb
        rfl
      · rw [if_neg hbx] at hlb
        show List.count b ([] : List Nat) = List.count a nb.inputs
        rw [List.count_nil]
        symm
        rw [List.count_eq_zero]
        intro hmem
        have := hwf.closedIn b nb hlb a hmem
        exact lookup_present_ne_nextId hwf this hax
    · rw [if_neg hax] at hla
      by_cases hbx : b = g.nextId
      · rw [if_pos hbx] at hlb
        cases hlb
        show List.count b na.outputs = List.count a ([] : List Nat)
        rw [List.count_nil, List.count_eq_zero]
        intro hmem
        have := hwf.closedOut a na hla b hmem
        exact lookup_present_ne_nextId hwf this hbx
      · rw [if_neg hbx] at hlb
        exact hwf.mirror a na b nb hla hlb
  · intro x n hl
    rw [hlook] at hl
    by_cases hx : x = g.nextId
    · rw [if_pos hx] at hl
      cases hl
      exact List.nodup_nil
    · rw [if_neg hx] at hl
      exact hwf.nodupIn x n hl
  · intro x n hl hd
    rw [hlook] at hl
    by_cases hx : x = g.nextId
    · rw [if_pos hx] at hl
      cases hl
      rfl
    · rw [if_neg hx] at hl
      exact h3 x n hl hd
  · intro a b hda hedge
    obtain ⟨n, m, hla, hb, hlm⟩ := hedge
    rw [hlook] at hla hlm
    by_cases hax : a = g.nextId
    · rw [if_pos hax] at hla
      cases hla
      cases hb
    · rw [if_neg hax] at hla
      have hbx : b ≠ g.nextId := by
        have := hwf.closedOut a n hla b hb
        exact lookup_present_ne_nextId hwf this
      rw [if_neg hbx] at hlm
      have hda' : dirtyIn g a := by
        obtain ⟨na, hna, hdna⟩ := hda
        rw [hlook, if_neg hax] at hna
        exact ⟨na, hna, hdna⟩
      have := hdi a b hda' ⟨n, m, hla, hb, hlm⟩
      obtain ⟨nb, hnb, hdnb⟩ := this
      exact ⟨nb, by rw [hlook, if_neg hbx]; exact hnb, hdnb⟩

/-- State after a successful `connect` (guard passed, `add_input` appended to
both adjacency lists), before the final `set_dirty()` call. -/
def connectMid (g : Graph) (A B : Nat) (bn : PNode) : Graph :=
  match (g.update B { bn with inputs := bn.inputs ++ [A] }).lookup A with
  | some on2 =>
    (g.update B { bn with inputs := bn.inputs ++ [A] }).update A
      { on2 with outputs := on2.outputs ++ [B] }
  | none => g.update B { bn with inputs := bn.inputs ++ [A] }

theorem connect_success_eq {g : Graph} {A B : Nat} {an bn : PNode}
    (hla : g.lookup A = some an) (hlb : g.lookup B = some bn)
    (hguard : B ∉ an.outputs) (hnoin : A ∉ bn.inputs) :
    g.connect A B = (true, (connectMid g A B bn).set_dirty B true) := by
  unfold Graph.connect Graph.add_input connectMid
  simp only [hla, hlb]
  rw [if_neg hguard, if_neg hnoin]

theorem connectMid_lookup {g : Graph} {A B : Nat} {an bn : PNode}
    (hla : g.lookup A = some an) (hlb : g.lookup B = some bn) (x : Nat) :
    (connectMid g A B bn).lookup x =
      (if A = B then
        (if x = A then
          some { bn with inputs := bn.inputs ++ [A], outputs := bn.outputs ++ [B] }
        else g.lookup x)
      else
        (if x = A then some { an with outputs := an.outputs ++ [B] }
        else if x = B then some { bn with inputs := bn.inputs ++ [A] }
        else g.lookup x)) := by
  unfold connectMid
  by_cases hab : A = B
  · rw [hab] at hla ⊢
    rw [if_pos rfl]
    have hbn : an = bn := Option.some.inj (hla.symm.trans hlb)
    subst hbn
    simp only [lookup_update_self ({ an with inputs := an.inputs ++ [B] } : PNode) hla]
    by_cases hx : x = B
    · rw [hx, if_pos rfl,
        lookup_update_self _
          (lookup_update_self ({ an with inputs := an.inputs ++ [B] } : PNode) hla)]
    · rw [if_neg hx, lookup_update_ne _ hx, lookup_update_ne _ hx]
  · rw [if_neg hab]
    have hlupd : (g.update B { bn with inputs := bn.inputs ++ [A] }).lookup A = some an := by
      rw [lookup_update_ne _ hab]
      exact hla
    simp only [hlupd]
    by_cases hx : x = A
    · subst hx
      rw [if_pos rfl, lookup_update_self _ hlupd]
    · rw [if_neg hx, lookup_update_ne _ hx]
      by_cases hxb : x = B
      · subst hxb
        rw [if_pos rfl, lookup_update_self _ hlb]
      · rw [if_neg hxb, lookup_update_ne _ hxb]

theorem connect_preserves {g : Graph} (A B : Nat)
    (hwf : WF g) (h3 : INV3 g) (hdi : INVdirty g) :
    WF (g.connect A B).2 ∧ INV3 (g.connect A B).2 ∧ INVdirty (g.connect A B).2 := by
  rcases hla : g.lookup A with _ | an
  · unfold Graph.connect
    rw [hla]
    exact ⟨hwf, h3, hdi⟩
  · rcases hlb : g.lookup B with _ | bn
    · unfold Graph.connect
      rw [hla, hlb]
      exact ⟨hwf, h3, hdi⟩
    · by_cases hguard : B ∈ an.outputs
      · unfold Graph.connect
        rw [hla, hlb]
        simp only [if_pos hguard]
        exact ⟨hwf, h3, hdi⟩
      · have hnoin : A ∉ bn.inputs := by
          intro hmem
          have hcount := hwf.mirror A an B bn hla hlb
          rw [List.count_eq_zero.mpr hguard] at hcount
          exact absurd (List.count_pos_iff_mem.mpr hmem) (by omega)
        rw [connect_success_eq hla hlb hguard hnoin]
        have hchar := fun x => connectMid_lookup hla hlb x
        have hkeysM : keysOf (connectMid g A B bn) = keysOf g := by
          unfold connectMid
          rcases hsc : (g.update B { bn with inputs := bn.inputs ++ [A] }).lookup A
            with _ | on2
          · simp only [hsc]
            exact keysOf_update _ _ _
          · simp only [hsc]
            exact (keysOf_update _ _ _).trans (keysOf_update _ _ _)
        have hnextM : (connectMid g A B bn).nextId = g.nextId := by
          unfold connectMid
          rcases hsc : (g.update B { bn with inputs := bn.inputs ++ [A] }).lookup A
            with _ | on2
          · simp only [hsc]; rfl
          · simp only [hsc]; rfl
        have hpresM : ∀ x, ((connectMid g A B bn).lookup x).isSome = (g.lookup x).isSome := by
          intro x
          rw [hchar x]
          by_cases hab : A = B
          · rw [if_pos hab]
            by_cases hx : x = A
            · rw [if_pos hx, hx, hla]; rfl
            · rw [if_neg hx]
          · rw [if_neg hab]
            by_cases hx : x = A
            · rw [if_pos hx, hx, hla]; rfl
            · rw [if_neg hx]
              by_cases hxb : x = B
              · rw [if_pos hxb, hxb, hlb]; rfl
              · rw [if_neg hxb]
        have hps : ∀ y, (g.lookup y).isSome = true →
            ((connectMid g A B bn).lookup y).isSome = true := by
          intro y hy; rw [hpresM y]; exact hy
        have hwfM : WF (connectMid g A B bn) := by
          refine ⟨?_, ?_, ?_, ?_, ?_, ?_⟩
          · unfold NodupKeys
            show (keysOf (connectMid g A B bn)).Nodup
            rw [hkeysM]; exact hwf.nodup
          · intro k hk
            rw [hkeysM] at hk
            rw [hnextM]
            exact hwf.keysLt k hk
          · intro x n hl o ho
            rw [hchar x] at hl
            by_cases hab : A = B
            · rw [if_pos hab] at hl
              by_cases hx : x = A
              · rw [if_pos hx] at hl
                cases hl
                rcases List.mem_append.mp ho with h | h
                · exact hps o (hwf.closedOut B bn hlb o h)
                · rw [List.mem_singleton.mp h]
                  exact hps B (by rw [hlb]; rfl)
              · rw [if_neg hx] at hl
                exact hps o (hwf.closedOut x n hl o ho)
            · rw [if_neg hab] at hl
              by_cases hx : x = A
              · rw [if_pos hx] at hl
                cases hl
                rcases List.mem_append.mp ho with h | h
                · exact hps o (hwf.closedOut A an hla o h)
                · rw [List.mem_singleton.mp h]
                  exact hps B (by rw [hlb]; rfl)
              · rw [if_neg hx] at hl
                by_cases hxb : x = B
                · rw [if_pos hxb] at hl
                  cases hl
                  exact hps o (hwf.closedOut B bn hlb o ho)
                · rw [if_neg hxb] at hl
                  exact hps o (hwf.closedOut x n hl o ho)
          · intro x n hl i hi
            rw [hchar x] at hl
            by_cases hab : A = B
            · rw [if_pos hab] at hl
              by_cases hx : x = A
              · rw [if_pos hx] at hl
                cases hl
                rcases List.mem_append.mp hi with h | h
                · exact hps i (hwf.closedIn B bn hlb i h)
                · rw [List.mem_singleton.mp h]
                  exact hps A (by rw [hla]; rfl)
              · rw [if_neg hx] at hl
                exact hps i (hwf.closedIn x n hl i hi)
            · rw [if_neg hab] at hl
              by_cases hx : x = A
              · rw [if_pos hx] at hl
                cases hl
                exact hps i (hwf.closedIn A an hla i hi)
              · rw [if_neg hx] at hl
                by_cases hxb : x = B
                · rw [if_pos hxb] at hl
                  cases hl
                  rcases List.mem_append.mp hi with h | h
                  · exact hps i (hwf.closedIn B bn hlb i h)
                  · rw [List.mem_singleton.mp h]
                    exact hps A (by rw [hla]; rfl)
                · rw [if_neg hxb] at hl
                  exact hps i (hwf.closedIn x n hl i hi)
          · intro a na b nb hlna hlnb
            rw [hchar a] at hlna
            rw [hchar b] at hlnb
            by_cases hab : A = B
            · have hlb' : g.lookup A = some bn := by rw [hab]; exact hlb
              rw [if_pos hab] at hlna hlnb
              by_cases ha : a = A
              · rw [if_pos ha] at hlna
                cases hlna
                by_cases hb : b = A
                · rw [if_pos hb] at hlnb
                  cases hlnb
                  rw [ha, hb]
                  show List.count A (bn.outputs ++ [B]) = List.count A (bn.inputs ++ [A])
                  rw [List.count_append, List.count_append,
                    List.count_singleton', List.count_singleton']
                  rw [if_pos hab.symm, if_pos rfl]
                  have := hwf.mirror A bn A bn hlb' hlb'
                  omega
                · rw [if_neg hb] at hlnb
                  rw [ha]
                  show List.count b (bn.outputs ++ [B]) = List.count A nb.inputs
                  rw [List.count_append, List.count_singleton']
                  rw [if_neg (fun h : B = b => hb (h.symm.trans hab.symm))]
                  have := hwf.mirror A bn b nb hlb' hlnb
                  omega
              · rw [if_neg ha] at hlna
                by_cases hb : b = A
                · rw [if_pos hb] at hlnb
                  cases hlnb
                  rw [hb]
                  show List.count A na.outputs = List.count a (bn.inputs ++ [A])
                  rw [List.count_append, List.count_singleton']
                  rw [if_neg (fun h : A = a => ha h.symm)]
                  have := hwf.mirror a na A bn hlna hlb'
                  omega
                · rw [if_neg hb] at hlnb
                  exact hwf.mirror a na b nb hlna hlnb
            · rw [if_neg hab] at hlna hlnb
              by_cases ha : a = A
              · rw [if_pos ha] at hlna
                cases hlna
                by_cases hb : b = A
                · rw [if_pos hb] at hlnb
                  cases hlnb
                  rw [ha, hb]
                  show List.count A (an.outputs ++ [B]) = List.count A an.inputs
                  rw [List.count_append, List.count_singleton']
                  rw [if_neg (fun h : B = A => hab h.symm)]
                  have := hwf.mirror A an A an hla hla
                  omega
                · rw [if_neg hb] at hlnb
                  by_cases hbb : b = B
                  · rw [if_pos hbb] at hlnb
                    cases hlnb
                    rw [ha, hbb]
                    show List.count B (an.outputs ++ [B]) = List.count A (bn.inputs ++ [A])
                    rw [List.count_append, List.count_append,
                      List.count_singleton', List.count_singleton']
                    rw [if_pos rfl, if_pos rfl]
                    have := hwf.mirror A an B bn hla hlb
                    omega
                  · rw [if_neg hbb] at hlnb
                    rw [ha]
                    show List.count b (an.outputs ++ [B]) = List.count A nb.inputs
                    rw [List.count_append, List.count_singleton']
                    rw [if_neg (fun h : B = b => hbb h.symm)]
                    have := hwf.mirror A an b nb hla hlnb
                    omega
              · rw [if_neg ha] at hlna
                by_cases hax : a = B
                · rw [if_pos hax] at hlna
                  cases hlna
                  by_cases hb : b = A
                  · rw [if_pos hb] at hlnb
                    cases hlnb
                    rw [hax, hb]
                    show List.count A bn.outputs = List.count B an.inputs
                    exact hwf.mirror B bn A an hlb hla
                  · rw [if_neg hb] at hlnb
                    by_cases hbb : b = B
                    · rw [if_pos hbb] at hlnb
                      cases hlnb
                      rw [hax, hbb]
                      show List.count B bn.outputs = List.count B (bn.inputs ++ [A])
                      rw [List.count_append, List.count_singleton']
                      rw [if_neg (fun h : A = B => hab h)]
                      have := hwf.mirror B bn B bn hlb hlb
                      omega
                    · rw [if_neg hbb] at hlnb
                      rw [hax]
                      show List.count b bn.outputs = List.count B nb.inputs
                      exact hwf.mirror B bn b nb hlb hlnb
                · rw [if_neg hax] at hlna
                  by_cases hb : b = A
                  · rw [if_pos hb] at hlnb
                    cases hlnb
                    rw [hb]
                    show List.count A na.outputs = List.count a an.inputs
                    exact hwf.mirror a na A an hlna hla
                  · rw [if_neg hb] at hlnb
                    by_cases hbb : b = B
                    · rw [if_pos hbb] at hlnb
                      cases hlnb
                      rw [hbb]
                      show List.count B na.outputs = List.count a (bn.inputs ++ [A])
                      rw [List.count_append, List.count_singleton']
                      rw [if_neg (fun h : A = a => ha h.symm)]
                      have := hwf.mirror a na B bn hlna hlb
                      omega
                    · rw [if_neg hbb] at hlnb
                      exact hwf.mirror a na b nb hlna hlnb
          · intro x n hl
            rw [hchar x] at hl
            by_cases hab : A = B
            · rw [if_pos hab] at hl
              by_cases hx : x = A
              · rw [if_pos hx] at hl
                cases hl
                show (bn.inputs ++ [A]).Nodup
                rw [List.nodup_append]
                exact ⟨hwf.nodupIn B bn hlb, List.nodup_singleton _,
                  fun y hy hz => hnoin ((List.mem_singleton.mp hz) ▸ hy)⟩
              · rw [if_neg hx] at hl
                exact hwf.nodupIn x n hl
            · rw [if_neg hab] at hl
              by_cases hx : x = A
              · rw [if_pos hx] at hl
                cases hl
                exact hwf.nodupIn A an hla
              · rw [if_neg hx] at hl
                by_cases hxb : x = B
                · rw [if_pos hxb] at hl
                  cases hl
                  show (bn.inputs ++ [A]).Nodup
                  rw [List.nodup_append]
                  exact ⟨hwf.nodupIn B bn hlb, List.nodup_singleton _,
                    fun y hy hz => hnoin ((List.mem_singleton.mp hz) ▸ hy)⟩
                · rw [if_neg hxb] at hl
                  exact hwf.nodupIn x n hl
        have h3M : INV3 (connectMid g A B bn) := by
          intro x n hl hd
          rw [hchar x] at hl
          by_cases hab : A = B
          · rw [if_pos hab] at hl
            by_cases hx : x = A
            · rw [if_pos hx] at hl
              cases hl
              exact h3 B bn hlb hd
            · rw [if_neg hx] at hl
              exact h3 x n hl hd
          · rw [if_neg hab] at hl
            by_cases hx : x = A
            · rw [if_pos hx] at hl
              cases hl
              exact h3 A an hla hd
            · rw [if_neg hx] at hl
              by_cases hxb : x = B
              · rw [if_pos hxb] at hl
                cases hl
                exact h3 B bn hlb hd
              · rw [if_neg hxb] at hl
                exact h3 x n hl hd
        have hdirtyeq : ∀ x, dirtyIn (connectMid g A B bn) x ↔ dirtyIn g x := by
          intro x
          unfold dirtyIn
          rw [hchar x]
          by_cases hab : A = B
          · rw [if_pos hab]
            by_cases hx : x = A
            · rw [if_pos hx, hx, hla]
              have hanbn : an = bn := by
                have hlb' : g.lookup A = some bn := by rw [hab]; exact hlb
                exact Option.some.inj (hla.symm.trans hlb')
              constructor
              · rintro ⟨m, hm, hdm⟩
                cases hm
                exact ⟨an, rfl, hanbn ▸ hdm⟩
              · rintro ⟨m, hm, hdm⟩
                cases hm
                exact ⟨_, rfl, by show bn.is_dirty = true; rw [← hanbn]; exact hdm⟩
            · rw [if_neg hx]
          · rw [if_neg hab]
            by_cases hx : x = A
            · rw [if_pos hx, hx, hla]
              constructor
              · rintro ⟨m, hm, hdm⟩
                cases hm
                exact ⟨an, rfl, hdm⟩
              · rintro ⟨m, hm, hdm⟩
                cases hm
                exact ⟨_, rfl, hdm⟩
            · rw [if_neg hx]
              by_cases hxb : x = B
              · rw [if_pos hxb, hxb, hlb]
                constructor
                · rintro ⟨m, hm, hdm⟩
                  cases hm
                  exact ⟨bn, rfl, hdm⟩
                · rintro ⟨m, hm, hdm⟩
                  cases hm
                  exact ⟨_, rfl, hdm⟩
              · rw [if_neg hxb]
        have hpre : ∀ a b, dirtyIn (connectMid g A B bn) a →
            EdgeStep (connectMid g A B bn) a b →
            dirtyIn (connectMid g A B bn) b ∨ CR (connectMid g A B bn) B b := by
          intro a b hda hedge
          obtain ⟨n, m, hlna, hbm, hlm⟩ := hedge
          by_cases hbB : b = B
          · by_cases hdb : dirtyIn (connectMid g A B bn) b
            · exact Or.inl hdb
            · have hclean : m.is_dirty = false := by
                cases hmi : m.is_dirty
                · rfl
                · exact absurd ⟨m, hlm, hmi⟩ hdb
              rw [hbB] at hlm
              refine Or.inr ?_
              rw [hbB]
              exact CR.refl B m hlm hclean
          · left
            have hlmg : (g.lookup b).isSome = true := by
              rw [← hpresM b, hlm]; rfl
            obtain ⟨mg, hmg⟩ := Option.isSome_iff_exists.mp hlmg
            have hedge' : EdgeStep g a b := by
              rw [hchar a] at hlna
              by_cases hab : A = B
              · rw [if_pos hab] at hlna
                by_cases hx : a = A
                · rw [if_pos hx] at hlna
                  cases hlna
                  have hbo : b ∈ bn.outputs := by
                    rcases List.mem_append.mp hbm with h | h
                    · exact h
                    · exact absurd (List.mem_singleton.mp h) hbB
                  refine ⟨bn, mg, ?_, hbo, hmg⟩
                  rw [hx, hab]; exact hlb
                · rw [if_neg hx] at hlna
                  exact ⟨n, mg, hlna, hbm, hmg⟩
              · rw [if_neg hab] at hlna
                by_cases hx : a = A
                · rw [if_pos hx] at hlna
                  cases hlna
                  have hbo : b ∈ an.outputs := by
                    rcases List.mem_append.mp hbm with h | h
                    · exact h
                    · exact absurd (List.mem_singleton.mp h) hbB
                  refine ⟨an, mg, ?_, hbo, hmg⟩
                  rw [hx]; exact hla
                · rw [if_neg hx] at hlna
                  by_cases hxb : a = B
                  · rw [if_pos hxb] at hlna
                    cases hlna
                    refine ⟨bn, mg, ?_, hbm, hmg⟩
                    rw [hxb]; exact hlb
                  · rw [if_neg hxb] at hlna
                    exact ⟨n, mg, hlna, hbm, hmg⟩
            have hda' : dirtyIn g a := (hdirtyeq a).mp hda
            exact (hdirtyeq b).mpr (hdi a b hda' hedge')
        have hndM : NodupKeys (connectMid g A B bn) := hwfM.nodup
        exact ⟨markRel_WF (markRel_graph_set_dirty_true _ B hndM) hwfM,
          markRel_INV3 (markRel_graph_set_dirty_true _ B hndM) h3M,
          INVdirty_set_dirty hndM hpre⟩

/-- State after `remove_input` erased the edge from both adjacency lists
(lines 19-23), before the final `set_dirty()` call. -/
def disconnectMid (g : Graph) (A B : Nat) (bn : PNode) : Graph :=
  match (g.update B { bn with inputs := bn.inputs.erase A }).lookup A with
  | some on2 =>
    (g.update B { bn with inputs := bn.inputs.erase A }).update A
      { on2 with outputs := on2.outputs.erase B }
  | none => g.update B { bn with inputs := bn.inputs.erase A }

theorem disconnect_present_eq {g : Graph} {A B : Nat} {an bn : PNode}
    (hla : g.lookup A = some an) (hlb : g.lookup B = some bn)
    (hmem : A ∈ bn.inputs) :
    g.disconnect A B = (disconnectMid g A B bn).set_dirty B true := by
  unfold Graph.disconnect Graph.remove_input disconnectMid
  simp only [hla, hlb]
  rw [if_pos hmem]

theorem disconnectMid_lookup {g : Graph} {A B : Nat} {an bn : PNode}
    (hla : g.lookup A = some an) (hlb : g.lookup B = some bn) (x : Nat) :
    (disconnectMid g A B bn).lookup x =
      (if A = B then
        (if x = A then
          some { bn with inputs := bn.inputs.erase A, outputs := bn.outputs.erase B }
        else g.lookup x)
      else
        (if x = A then some { an with outputs := an.outputs.erase B }
        else if x = B then some { bn with inputs := bn.inputs.erase A }
        else g.lookup x)) := by
  unfold disconnectMid
  by_cases hab : A = B
  · rw [hab] at hla ⊢
    rw [if_pos rfl]
    have hbn : an = bn := Option.some.inj (hla.symm.trans hlb)
    subst hbn
    simp only [lookup_update_self ({ an with inputs := an.inputs.erase B } : PNode) hla]
    by_cases hx : x = B
    · rw [hx, if_pos rfl,
        lookup_update_self _
          (lookup_update_self ({ an with inputs := an.inputs.erase B } : PNode) hla)]
    · rw [if_neg hx, lookup_update_ne _ hx, lookup_update_ne _ hx]
  · rw [if_neg hab]
    have hlupd : (g.update B { bn with inputs := bn.inputs.erase A }).lookup A = some an := by
      rw [lookup_update_ne _ hab]
      exact hla
    simp only [hlupd]
    by_cases hx : x = A
    · rw [if_pos hx]
      rw [hx]
      rw [lookup_update_self _ hlupd]
    · rw [if_neg hx, lookup_update_ne _ hx]
      by_cases hxb : x = B
      · rw [if_pos hxb, hxb, lookup_update_self _ hlb]
      · rw [if_neg hxb, lookup_update_ne _ hxb]

theorem disconnect_preserves {g : Graph} (A B : Nat)
    (hwf : WF g) (h3 : INV3 g) (hdi : INVdirty g) :
    WF (g.disconnect A B) ∧ INV3 (g.disconnect A B) ∧ INVdirty (g.disconnect A B) := by
  rcases hla : g.lookup A with _ | an
  · unfold Graph.disconnect
    rw [hla]
    exact ⟨hwf, h3, hdi⟩
  · rcases hlb : g.lookup B with _ | bn
    · unfold Graph.disconnect
      rw [hla, hlb]
      exact ⟨hwf, h3, hdi⟩
    · by_cases hmem : A ∈ bn.inputs
      · rw [disconnect_present_eq hla hlb hmem]
        have hchar := fun x => disconnectMid_lookup hla hlb x
        have hkeysM : keysOf (disconnectMid g A B bn) = keysOf g := by
          unfold disconnectMid
          rcases hsc : (g.update B { bn with inputs := bn.inputs.erase A }).lookup A
            with _ | on2
          · simp only [hsc]
            exact keysOf_update _ _ _
          · simp only [hsc]
            exact (keysOf_update _ _ _).trans (keysOf_update _ _ _)
        have hnextM : (disconnectMid g A B bn).nextId = g.nextId := by
          unfold disconnectMid
          rcases hsc : (g.update B { bn with inputs := bn.inputs.erase A }).lookup A
            with _ | on2
          · simp only [hsc]; rfl
          · simp only [hsc]; rfl
        have hpresM : ∀ x, ((disconnectMid g A B bn).lookup x).isSome = (g.lookup x).isSome := by
          intro x
          rw [hchar x]
          by_cases hab : A = B
          · rw [if_pos hab]
            by_cases hx : x = A
            · rw [if_pos hx, hx, hla]; rfl
            · rw [if_neg hx]
          · rw [if_neg hab]
            by_cases hx : x = A
            · rw [if_pos hx, hx, hla]; rfl
            · rw [if_neg hx]
              by_cases hxb : x = B
              · rw [if_pos hxb, hxb, hlb]; rfl
              · rw [if_neg hxb]
        have hps : ∀ y, (g.lookup y).isSome = true →
            ((disconnectMid g A B bn).lookup y).isSome = true := by
          intro y hy; rw [hpresM y]; exact hy
        have hwfM : WF (disconnectMid g A B bn) := by
          refine ⟨?_, ?_, ?_, ?_, ?_, ?_⟩
          · unfold NodupKeys
            show (keysOf (disconnectMid g A B bn)).Nodup
            rw [hkeysM]; exact hwf.nodup
          · intro k hk
            rw [hkeysM] at hk
            rw [hnextM]
            exact hwf.keysLt k hk
          · intro x n hl o ho
            rw [hchar x] at hl
            by_cases hab : A = B
            · rw [if_pos hab] at hl
              by_cases hx : x = A
              · rw [if_pos hx] at hl
                cases hl
                exact hps o (hwf.closedOut B bn hlb o (List.mem_of_mem_erase ho))
              · rw [if_neg hx] at hl
                exact hps o (hwf.closedOut x n hl o ho)
            · rw [if_neg hab] at hl
              by_cases hx : x = A
              · rw [if_pos hx] at hl
                cases hl
                exact hps o (hwf.closedOut A an hla o (List.mem_of_mem_erase ho))
              · rw [if_neg hx] at hl
                by_cases hxb : x = B
                · rw [if_pos hxb] at hl
                  cases hl
                  exact hps o (hwf.closedOut B bn hlb o ho)
                · rw [if_neg hxb] at hl
                  exact hps o (hwf.closedOut x n hl o ho)
          · intro x n hl i hi
            rw [hchar x] at hl
            by_cases hab : A = B
            · rw [if_pos hab] at hl
              by_cases hx : x = A
              · rw [if_pos hx] at hl
                cases hl
                exact hps i (hwf.closedIn B bn hlb i (List.mem_of_mem_erase hi))
              · rw [if_neg hx] at hl
                exact hps i (hwf.closedIn x n hl i hi)
            · rw [if_neg hab] at hl
              by_cases hx : x = A
              · rw [if_pos hx] at hl
                cases hl
                exact hps i (hwf.closedIn A an hla i hi)
              · rw [if_neg hx] at hl
                by_cases hxb : x = B
                · rw [if_pos hxb] at hl
                  cases hl
                  exact hps i (hwf.closedIn B bn hlb i (List.mem_of_mem_erase hi))
                · rw [if_neg hxb] at hl
                  exact hps i (hwf.closedIn x n hl i hi)
          · intro a na b nb hlna hlnb
            rw [hchar a] at hlna
            rw [hchar b] at hlnb
            by_cases hab : A = B
            · have hlb' : g.lookup A = some bn := by rw [hab]; exact hlb
              rw [if_pos hab] at hlna hlnb
              by_cases ha : a = A
              · rw [if_pos ha] at hlna
                cases hlna
                by_cases hb : b = A
                · rw [if_pos hb] at hlnb
                  cases hlnb
                  rw [ha, hb]
                  show List.count A (bn.outputs.erase B) = List.count A (bn.inputs.erase A)
                  rw [show (B : Nat) = A from hab.symm, List.count_erase_self,
                    List.count_erase_self]
                  have := hwf.mirror A bn A bn hlb' hlb'
                  omega
                · rw [if_neg hb] at hlnb
                  rw [ha]
                  show List.count b (bn.outputs.erase B) = List.count A nb.inputs
                  rw [List.count_erase_of_ne (fun h : b = B => hb (h.trans hab.symm))]
                  exact hwf.mirror A bn b nb hlb' hlnb
              · rw [if_neg ha] at hlna
                by_cases hb : b = A
                · rw [if_pos hb] at hlnb
                  cases hlnb
                  rw [hb]
                  show List.count A na.outputs = List.count a (bn.inputs.erase A)
                  rw [List.count_erase_of_ne (fun h : a = A => ha h)]
                  exact hwf.mirror a na A bn hlna hlb'
                · rw [if_neg hb] at hlnb
                  exact hwf.mirror a na b nb hlna hlnb
            · rw [if_neg hab] at hlna hlnb
              by_cases ha : a = A
              · rw [if_pos ha] at hlna
                cases hlna
                by_cases hb : b = A
                · rw [if_pos hb] at hlnb
                  cases hlnb
                  rw [ha, hb]
                  show List.count A (an.outputs.erase B) = List.count A an.inputs
                  rw [List.count_erase_of_ne (fun h : A = B => hab h)]
                  exact hwf.mirror A an A an hla hla
                · rw [if_neg hb] at hlnb
                  by_cases hbb : b = B
                  · rw [if_pos hbb] at hlnb
                    cases hlnb
                    rw [ha, hbb]
                    show List.count B (an.outputs.erase B) = List.count A (bn.inputs.erase A)
                    rw [List.count_erase_self, List.count_erase_self]
                    have := hwf.mirror A an B bn hla hlb
                    omega
                  · rw [if_neg hbb] at hlnb
                    rw [ha]
                    show List.count b (an.outputs.erase B) = List.count A nb.inputs
                    rw [List.count_erase_of_ne (fun h : b = B => hbb h)]
                    exact hwf.mirror A an b nb hla hlnb
              · rw [if_neg ha] at hlna
                by_cases hax : a = B
                · rw [if_pos hax] at hlna
                  cases hlna
                  by_cases hb : b = A
                  · rw [if_pos hb] at hlnb
                    cases hlnb
                    rw [hax, hb]
                    show List.count A bn.outputs = List.count B an.inputs
                    exact hwf.mirror B bn A an hlb hla
                  · rw [if_neg hb] at hlnb
                    by_cases hbb : b = B
                    · rw [if_pos hbb] at hlnb
                      cases hlnb
                      rw [hax, hbb]
                      show List.count B bn.outputs = List.count B (bn.inputs.erase A)
                      rw [List.count_erase_of_ne (fun h : B = A => hab h.symm)]
                      exact hwf.mirror B bn B bn hlb hlb
                    · rw [if_neg hbb] at hlnb
                      rw [hax]
                      show List.count b bn.outputs = List.count B nb.inputs
                      exact hwf.mirror B bn b nb hlb hlnb
                · rw [if_neg hax] at hlna
                  by_cases hb : b = A
                  · rw [if_pos hb] at hlnb
                    cases hlnb
                    rw [hb]
                    show List.count A na.outputs = List.count a an.inputs
                    exact hwf.mirror a na A an hlna hla
                  · rw [if_neg hb] at hlnb
                    by_cases hbb : b = B
                    · rw [if_pos hbb] at hlnb
                      cases hlnb
                      rw [hbb]
                      show List.count B na.outputs = List.count a (bn.inputs.erase A)
                      rw [List.count_erase_of_ne (fun h : a = A => ha h)]
                      exact hwf.mirror a na B bn hlna hlb
                    · rw [if_neg hbb] at hlnb
                      exact hwf.mirror a na b nb hlna hlnb
          · intro x n hl
            rw [hchar x] at hl
            by_cases hab : A = B
            · rw [if_pos hab] at hl
              by_cases hx : x = A
              · rw [if_pos hx] at hl
                cases hl
                exact List.Nodup.erase _ (hwf.nodupIn B bn hlb)
              · rw [if_neg hx] at hl
                exact hwf.nodupIn x n hl
            · rw [if_neg hab] at hl
              by_cases hx : x = A
              · rw [if_pos hx] at hl
                cases hl
                exact hwf.nodupIn A an hla
              · rw [if_neg hx] at hl
                by_cases hxb : x = B
                · rw [if_pos hxb] at hl
                  cases hl
                  exact List.Nodup.erase _ (hwf.nodupIn B bn hlb)
                · rw [if_neg hxb] at hl
                  exact hwf.nodupIn x n hl
        have h3M : INV3 (disconnectMid g A B bn) := by
          intro x n hl hd
          rw [hchar x] at hl
          by_cases hab : A = B
          · rw [if_pos hab] at hl
            by_cases hx : x = A
            · rw [if_pos hx] at hl
              cases hl
              exact h3 B bn hlb hd
            · rw [if_neg hx] at hl
              exact h3 x n hl hd
          · rw [if_neg hab] at hl
            by_cases hx : x = A
            · rw [if_pos hx] at hl
              cases hl
              exact h3 A an hla hd
            · rw [if_neg hx] at hl
              by_cases hxb : x = B
              · rw [if_pos hxb] at hl
                cases hl
                exact h3 B bn hlb hd
              · rw [if_neg hxb] at hl
                exact h3 x n hl hd
        have hdirtyeq : ∀ x, dirtyIn (disconnectMid g A B bn) x ↔ dirtyIn g x := by
          intro x
          unfold dirtyIn
          rw [hchar x]
          by_cases hab : A = B
          · rw [if_pos hab]
            by_cases hx : x = A
            · have hlb' : g.lookup A = some bn := by rw [hab]; exact hlb
              rw [if_pos hx, hx, hlb']
              constructor
              · rintro ⟨m, hm, hdm⟩
                cases hm
                exact ⟨bn, rfl, hdm⟩
              · rintro ⟨m, hm, hdm⟩
                cases hm
                exact ⟨_, rfl, hdm⟩
            · rw [if_neg hx]
          · rw [if_neg hab]
            by_cases hx : x = A
            · rw [if_pos hx, hx, hla]
              constructor
              · rintro ⟨m, hm, hdm⟩
                cases hm
                exact ⟨an, rfl, hdm⟩
              · rintro ⟨m, hm, hdm⟩
                cases hm
                exact ⟨_, rfl, hdm⟩
            · rw [if_neg hx]
              by_cases hxb : x = B
              · rw [if_pos hxb, hxb, hlb]
                constructor
                · rintro ⟨m, hm, hdm⟩
                  cases hm
                  exact ⟨bn, rfl, hdm⟩
                · rintro ⟨m, hm, hdm⟩
                  cases hm
                  exact ⟨_, rfl, hdm⟩
              · rw [if_neg hxb]
        have hpre : ∀ a b, dirtyIn (disconnectMid g A B bn) a →
            EdgeStep (disconnectMid g A B bn) a b →
            dirtyIn (disconnectMid g A B bn) b ∨ CR (disconnectMid g A B bn) B b := by
          intro a b hda hedge
          obtain ⟨n, m, hlna, hbm, hlm⟩ := hedge
          left
          have hlmg : (g.lookup b).isSome = true := by
            rw [← hpresM b, hlm]; rfl
          obtain ⟨mg, hmg⟩ := Option.isSome_iff_exists.mp hlmg
          have hedge' : EdgeStep g a b := by
            rw [hchar a] at hlna
            by_cases hab : A = B
            · rw [if_pos hab] at hlna
              by_cases hx : a = A
              · rw [if_pos hx] at hlna
                cases hlna
                refine ⟨bn, mg, ?_, List.mem_of_mem_erase hbm, hmg⟩
                rw [hx, hab]; exact hlb
              · rw [if_neg hx] at hlna
                exact ⟨n, mg, hlna, hbm, hmg⟩
            · rw [if_neg hab] at hlna
              by_cases hx : a = A
              · rw [if_pos hx] at hlna
                cases hlna
                refine ⟨an, mg, ?_, List.mem_of_mem_erase hbm, hmg⟩
                rw [hx]; exact hla
              · rw [if_neg hx] at hlna
                by_cases hxb : a = B
                · rw [if_pos hxb] at hlna
                  cases hlna
                  refine ⟨bn, mg, ?_, hbm, hmg⟩
                  rw [hxb]; exact hlb
                · rw [if_neg hxb] at hlna
                  exact ⟨n, mg, hlna, hbm, hmg⟩
          have hda' : dirtyIn g a := (hdirtyeq a).mp hda
          exact (hdirtyeq b).mpr (hdi a b hda' hedge')
        have hndM : NodupKeys (disconnectMid g A B bn) := hwfM.nodup
        exact ⟨markRel_WF (markRel_graph_set_dirty_true _ B hndM) hwfM,
          markRel_INV3 (markRel_graph_set_dirty_true _ B hndM) h3M,
          INVdirty_set_dirty hndM hpre⟩
      · unfold Graph.disconnect Graph.remove_input
        simp only [hla, hlb]
        rw [if_neg hmem]
        exact ⟨hwf, h3, hdi⟩

theorem set_parameter_preserves {g : Graph} (id : Nat) (name : String) (v : PValue)
    (hwf : WF g) (h3 : INV3 g) (hdi : INVdirty g) :
    WF (g.set_parameter id name v).2 ∧ INV3 (g.set_parameter id name v).2 ∧
      INVdirty (g.set_parameter id name v).2 := by
  unfold Graph.set_parameter
  rcases hl : g.lookup id with _ | n
  · simp only [hl]
    exact ⟨hwf, h3, hdi⟩
  · simp only [hl]
    rcases hf : n.parameters.find? (fun p => p.1 == name) with _ | pr
    · simp only [hf]
      exact ⟨hwf, h3, hdi⟩
    · simp only [hf]
      by_cases hv : pr.2.value = v
      · rw [if_pos hv]
        exact ⟨hwf, h3, hdi⟩
      · rw [if_neg hv]
        simp only []
        set newParams := n.parameters.map
          (fun q => if q.1 == name then (q.1, { q.2 with value := v }) else q) with hnp
        have hchar : ∀ x, (g.update id { n with parameters := newParams }).lookup x =
            if x = id then some { n with parameters := newParams } else g.lookup x := by
          intro x
          by_cases hx : x = id
          · rw [if_pos hx, hx]
            exact lookup_update_self _ hl
          · rw [if_neg hx]
            exact lookup_update_ne _ hx
        have hkeysM : keysOf (g.update id { n with parameters := newParams }) = keysOf g :=
          keysOf_update _ _ _
        have hpresM : ∀ x, ((g.update id { n with parameters := newParams }).lookup x).isSome
            = (g.lookup x).isSome := by
          intro x
          rw [hchar x]
          by_cases hx : x = id
          · rw [if_pos hx, hx, hl]; rfl
          · rw [if_neg hx]
        have hwfM : WF (g.update id { n with parameters := newParams }) := by
          refine ⟨?_, ?_, ?_, ?_, ?_, ?_⟩
          · unfold NodupKeys
            show (keysOf (g.update id { n with parameters := newParams })).Nodup
            rw [hkeysM]; exact hwf.nodup
          · intro k hk
            rw [hkeysM] at hk
            exact hwf.keysLt k hk
          · intro x m hlx o ho
            rw [hchar x] at hlx
            rw [hpresM o]
            by_cases hx : x = id
            · rw [if_pos hx] at hlx
              cases hlx
              exact hwf.closedOut id n hl o ho
            · rw [if_neg hx] at hlx
              exact hwf.closedOut x m hlx o ho
          · intro x m hlx i hi
            rw [hchar x] at hlx
            rw [hpresM i]
            by_cases hx : x = id
            · rw [if_pos hx] at hlx
              cases hlx
              exact hwf.closedIn id n hl i hi
            · rw [if_neg hx] at hlx
              exact hwf.closedIn x m hlx i hi
          · intro a na b nb hlna hlnb
            rw [hchar a] at hlna
            rw [hchar b] at hlnb
            by_cases ha : a = id
            · rw [if_pos ha] at hlna
              cases hlna
              by_cases hb : b = id
              · rw [if_pos hb] at hlnb
                cases hlnb
                rw [ha, hb]
                exact hwf.mirror id n id n hl hl
              · rw [if_neg hb] at hlnb
                rw [ha]
                exact hwf.mirror id n b nb hl hlnb
            · rw [if_neg ha] at hlna
              by_cases hb : b = id
              · rw [if_pos hb] at hlnb
                cases hlnb
                rw [hb]
                exact hwf.mirror a na id n hlna hl
              · rw [if_neg hb] at hlnb
                exact hwf.mirror a na b nb hlna hlnb
          · intro x m hlx
            rw [hchar x] at hlx
            by_cases hx : x = id
            · rw [if_pos hx] at hlx
              cases hlx
              exact hwf.nodupIn id n hl
            · rw [if_neg hx] at hlx
              exact hwf.nodupIn x m hlx
        have h3M : INV3 (g.update id { n with parameters := newParams }) := by
          intro x m hlx hdx
          rw [hchar x] at hlx
          by_cases hx : x = id
          · rw [if_pos hx] at hlx
            cases hlx
            exact h3 id n hl hdx
          · rw [if_neg hx] at hlx
            exact h3 x m hlx hdx
        have hdirtyeq : ∀ x, dirtyIn (g.update id { n with parameters := newParams }) x ↔
            dirtyIn g x := by
          intro x
          unfold dirtyIn
          rw [hchar x]
          by_cases hx : x = id
          · rw [if_pos hx, hx, hl]
            constructor
            · rintro ⟨m, hm, hdm⟩
              cases hm
              exact ⟨n, rfl, hdm⟩
            · rintro ⟨m, hm, hdm⟩
              cases hm
              exact ⟨_, rfl, hdm⟩
          · rw [if_neg hx]
        have hpre : ∀ a b, dirtyIn (g.update id { n with parameters := newParams }) a →
            EdgeStep (g.update id { n with parameters := newParams }) a b →
            dirtyIn (g.update id { n with parameters := newParams }) b ∨
              CR (g.update id { n with parameters := newParams }) id b := by
          intro a b hda hedge
          obtain ⟨na, m, hlna, hbm, hlm⟩ := hedge
          left
          have hlmg : (g.lookup b).isSome = true := by
            rw [← hpresM b, hlm]; rfl
          obtain ⟨mg, hmg⟩ := Option.isSome_iff_exists.mp hlmg
          have hedge' : EdgeStep g a b := by
            rw [hchar a] at hlna
            by_cases hx : a = id
            · rw [if_pos hx] at hlna
              cases hlna
              refine ⟨n, mg, ?_, hbm, hmg⟩
              rw [hx]; exact hl
            · rw [if_neg hx] at hlna
              exact ⟨na, mg, hlna, hbm, hmg⟩
          have hda' : dirtyIn g a := (hdirtyeq a).mp hda
          exact (hdirtyeq b).mpr (hdi a b hda' hedge')
        have hndM : NodupKeys (g.update id { n with parameters := newParams }) := hwfM.nodup
        exact ⟨markRel_WF (markRel_graph_set_dirty_true _ id hndM) hwfM,
          markRel_INV3 (markRel_graph_set_dirty_true _ id hndM) h3M,
          INVdirty_set_dirty hndM hpre⟩

theorem keysOf_executeAux (proc : ProcFn) : ∀ (fuel : Nat) (g : Graph) (id : Nat),
    keysOf (executeAux proc fuel g id).2.1 = keysOf g ∧
      (executeAux proc fuel g id).2.1.nextId = g.nextId := by
  intro fuel
  induction fuel with
  | zero => intro g id; exact ⟨rfl, rfl⟩
  | succ fuel ih =>
    intro g id
    rw [executeAux_succ]
    rcases hl : g.lookup id with _ | n
    · exact ⟨rfl, rfl⟩
    · simp only []
      by_cases hcache : n.is_dirty = false ∧ n.cached_data.isSome = true
      · rw [if_pos hcache]
        exact ⟨rfl, rfl⟩
      · rw [if_neg hcache]
        have hfold : ∀ (pids : List Nat) (acc : List (Option Artifact) × Graph × List Nat),
            keysOf (pids.foldl
              (fun (acc : List (Option Artifact) × Graph × List Nat) pid =>
                let e := executeAux proc fuel acc.2.1 pid
                (acc.1 ++ [e.1], e.2.1, acc.2.2 ++ e.2.2)) acc).2.1 = keysOf acc.2.1 ∧
            (pids.foldl
              (fun (acc : List (Option Artifact) × Graph × List Nat) pid =>
                let e := executeAux proc fuel acc.2.1 pid
                (acc.1 ++ [e.1], e.2.1, acc.2.2 ++ e.2.2)) acc).2.1.nextId = acc.2.1.nextId := by
          intro pids
          induction pids with
          | nil => intro acc; exact ⟨rfl, rfl⟩
          | cons p ps ihp =>
            intro acc
            rw [List.foldl_cons]
            obtain ⟨h1, h2⟩ := ihp ((acc.1 ++ [(executeAux proc fuel acc.2.1 p).1],
              (executeAux proc fuel acc.2.1 p).2.1, acc.2.2 ++ (executeAux proc fuel acc.2.1 p).2.2))
            obtain ⟨h3, h4⟩ := ih acc.2.1 p
            exact ⟨h1.trans h3, h2.trans h4⟩
        obtain ⟨hk, hn⟩ := hfold n.inputs ([], g, [])
        by_cases hskip : (((n.inputs.foldl
            (fun (acc : List (Option Artifact) × Graph × List Nat) pid =>
              let e := executeAux proc fuel acc.2.1 pid
              (acc.1 ++ [e.1], e.2.1, acc.2.2 ++ e.2.2))
            ([], g, [])).1.any (fun d => d.isNone)) = true ∧ n.name ≠ "Input")
        · rw [if_pos hskip]
          exact ⟨hk, hn⟩
        · rw [if_neg hskip]
          rcases hl1 : (n.inputs.foldl
              (fun (acc : List (Option Artifact) × Graph × List Nat) pid =>
                let e := executeAux proc fuel acc.2.1 pid
                (acc.1 ++ [e.1], e.2.1, acc.2.2 ++ e.2.2))
              ([], g, [])).2.1.lookup id with _ | n1
          · simp only [hl1]
            exact ⟨hk, hn⟩
          · simp only [hl1]
            rcases hp : proc n1 (n.inputs.foldl
                (fun (acc : List (Option Artifact) × Graph × List Nat) pid =>
                  let e := executeAux proc fuel acc.2.1 pid
                  (acc.1 ++ [e.1], e.2.1, acc.2.2 ++ e.2.2))
                ([], g, [])).1 with e | v
            · simp only [hp]
              exact ⟨(keysOf_update _ _ _).trans hk, hn⟩
            · simp only [hp]
              obtain ⟨hsk, hsn⟩ := keysOf_setDirtyAux
                (((n.inputs.foldl
                  (fun (acc : List (Option Artifact) × Graph × List Nat) pid =>
                    let e := executeAux proc fuel acc.2.1 pid
                    (acc.1 ++ [e.1], e.2.1, acc.2.2 ++ e.2.2))
                  ([], g, [])).2.1.update id { n1 with cached_data := v }).nodes.length + 1)
                ((n.inputs.foldl
                  (fun (acc : List (Option Artifact) × Graph × List Nat) pid =>
                    let e := executeAux proc fuel acc.2.1 pid
                    (acc.1 ++ [e.1], e.2.1, acc.2.2 ++ e.2.2))
                  ([], g, [])).2.1.update id { n1 with cached_data := v }) id false
              exact ⟨(hsk.trans ((keysOf_update _ _ _).trans hk)), hsn.trans hn⟩

theorem INV3_executeAux (proc : ProcFn) : ∀ (fuel : Nat) (g : Graph) (id : Nat),
    INV3 g → INV3 (executeAux proc fuel g id).2.1 := by
  intro fuel
  induction fuel with
  | zero => intro g id h3; exact h3
  | succ fuel ih =>
    intro g id h3
    rw [executeAux_succ]
    rcases hl : g.lookup id with _ | n
    · exact h3
    · simp only []
      by_cases hcache : n.is_dirty = false ∧ n.cached_data.isSome = true
      · rw [if_pos hcache]
        exact h3
      · rw [if_neg hcache]
        have hfold : ∀ (pids : List Nat) (acc : List (Option Artifact) × Graph × List Nat),
            INV3 acc.2.1 → INV3 (pids.foldl
              (fun (acc : List (Option Artifact) × Graph × List Nat) pid =>
                let e := executeAux proc fuel acc.2.1 pid
                (acc.1 ++ [e.1], e.2.1, acc.2.2 ++ e.2.2)) acc).2.1 := by
          intro pids
          induction pids with
          | nil => intro acc h; exact h
          | cons p ps ihp =>
            intro acc h
            rw [List.foldl_cons]
            exact ihp _ (ih acc.2.1 p h)
        have h31 : INV3 (n.inputs.foldl
            (fun (acc : List (Option Artifact) × Graph × List Nat) pid =>
              let e := executeAux proc fuel acc.2.1 pid
              (acc.1 ++ [e.1], e.2.1, acc.2.2 ++ e.2.2))
            ([], g, [])).2.1 := hfold n.inputs ([], g, []) h3
        by_cases hskip : (((n.inputs.foldl
            (fun (acc : List (Option Artifact) × Graph × List Nat) pid =>
              let e := executeAux proc fuel acc.2.1 pid
              (acc.1 ++ [e.1], e.2.1, acc.2.2 ++ e.2.2))
            ([], g, [])).1.any (fun d => d.isNone)) = true ∧ n.name ≠ "Input")
        · rw [if_pos hskip]
          exact h31
        · rw [if_neg hskip]
          rcases hl1 : (n.inputs.foldl
              (fun (acc : List (Option Artifact) × Graph × List Nat) pid =>
                let e := executeAux proc fuel acc.2.1 pid
                (acc.1 ++ [e.1], e.2.1, acc.2.2 ++ e.2.2))
              ([], g, [])).2.1.lookup id with _ | n1
          · simp only [hl1]
            exact h31
          · simp only [hl1]
            rcases hp : proc n1 (n.inputs.foldl
                (fun (acc : List (Option Artifact) × Graph × List Nat) pid =>
                  let e := executeAux proc fuel acc.2.1 pid
                  (acc.1 ++ [e.1], e.2.1, acc.2.2 ++ e.2.2))
                ([], g, [])).1 with e | v
            · simp only [hp]
              intro x m hlx hdx
              rw [lookup_update] at hlx
              by_cases hx : x = id ∧ ((n.inputs.foldl
                  (fun (acc : List (Option Artifact) × Graph × List Nat) pid =>
                    let e := executeAux proc fuel acc.2.1 pid
                    (acc.1 ++ [e.1], e.2.1, acc.2.2 ++ e.2.2))
                  ([], g, [])).2.1.lookup id).isSome = true
              · rw [if_pos hx] at hlx
                cases hlx
                rfl
              · rw [if_neg hx] at hlx
                exact h31 x m hlx hdx
            · simp only [hp]
              intro x m hlx hdx
              have hup : ((n.inputs.foldl
                  (fun (acc : List (Option Artifact) × Graph × List Nat) pid =>
                    let e := executeAux proc fuel acc.2.1 pid
                    (acc.1 ++ [e.1], e.2.1, acc.2.2 ++ e.2.2))
                  ([], g, [])).2.1.update id { n1 with cached_data := v }).lookup id =
                  some { n1 with cached_data := v } := lookup_update_self _ hl1
              rw [set_dirty_false_spec hup] at hlx
              by_cases hd1 : ({ n1 with cached_data := v } : PNode).is_dirty = false
              · rw [if_pos hd1] at hlx
                rw [lookup_update] at hlx
                by_cases hx : x = id ∧ ((n.inputs.foldl
                    (fun (acc : List (Option Artifact) × Graph × List Nat) pid =>
                      let e := executeAux proc fuel acc.2.1 pid
                      (acc.1 ++ [e.1], e.2.1, acc.2.2 ++ e.2.2))
                    ([], g, [])).2.1.lookup id).isSome = true
                · rw [if_pos hx] at hlx
                  cases hlx
                  rw [show ({ n1 with cached_data := v } : PNode).is_dirty = false from hd1]
                    at hdx
                  cases hdx
                · rw [if_neg hx] at hlx
                  exact h31 x m hlx hdx
              · rw [if_neg hd1] at hlx
                by_cases hx : x = id
                · rw [hx] at hlx
                  rw [lookup_update_self _ hup] at hlx
                  cases hlx
                  simp at hdx
                · rw [lookup_update_ne _ hx, lookup_update] at hlx
                  rw [if_neg (fun hc => hx hc.1)] at hlx
                  exact h31 x m hlx hdx

/-! ### States reachable through the public operations -/

/-- Graph states reachable from an empty `NodeGraph` through the five public
operations (`add_node`, `connect`, `disconnect`, `set_parameter`,
`execute_graph`/`Node.execute`). -/
inductive Reachable : Graph → Prop
  | empty : Reachable Graph.empty
  | add_node (g : Graph) (name : String) (params : List (String × Param)) :
      Reachable g → Reachable (g.add_node name params).1
  | connect (g : Graph) (a b : Nat) : Reachable g → Reachable (g.connect a b).2
  | disconnect (g : Graph) (a b : Nat) : Reachable g → Reachable (g.disconnect a b)
  | set_parameter (g : Graph) (id : Nat) (name : String) (v : PValue) :
      Reachable g → Reachable (g.set_parameter id name v).2
  | execute (g : Graph) (proc : ProcFn) (fuel t : Nat) :
      Reachable g → Reachable (executeAux proc fuel g t).2.1

/-- Graph states reachable through the structural mutations only
(no `execute`). -/
inductive StructReachable : Graph → Prop
  | empty : StructReachable Graph.empty
  | add_node (g : Graph) (name : String) (params : List (String × Param)) :
      StructReachable g → StructReachable (g.add_node name params).1
  | connect (g : Graph) (a b : Nat) : StructReachable g → StructReachable (g.connect a b).2
  | disconnect (g : Graph) (a b : Nat) : StructReachable g → StructReachable (g.disconnect a b)
  | set_parameter (g : Graph) (id : Nat) (name : String) (v : PValue) :
      StructReachable g → StructReachable (g.set_parameter id name v).2

theorem structReachable_inv {g : Graph} (h : StructReachable g) :
    WF g ∧ INV3 g ∧ INVdirty g := by
  induction h with
  | empty =>
    refine ⟨WF_empty, ?_, ?_⟩
    · intro x n hl; cases hl
    · rintro a b ⟨n, hl, _⟩ _; cases hl
  | add_node g name params _ ih =>
    exact add_node_preserves name params ih.1 ih.2.1 ih.2.2
  | connect g a b _ ih =>
    exact connect_preserves a b ih.1 ih.2.1 ih.2.2
  | disconnect g a b _ ih =>
    exact disconnect_preserves a b ih.1 ih.2.1 ih.2.2
  | set_parameter g id name v _ ih =>
    exact set_parameter_preserves id name v ih.1 ih.2.1 ih.2.2

/-- The invariants that survive all five operations, `execute` included. -/
def LightInv (g : Graph) : Prop :=
  NodupKeys g ∧ (∀ k ∈ keysOf g, k < g.nextId) ∧ INV3 g

theorem lightInv_add_node {g : Graph} (name : String) (params : List (String × Param))
    (h : LightInv g) : LightInv (g.add_node name params).1 := by
  obtain ⟨hnd, hlt, h3⟩ := h
  have hlook := lookup_add_node g name params
    (fun p hp => hlt p.1 (List.mem_map.mpr ⟨p, hp, rfl⟩))
  have hkeys : keysOf (g.add_node name params).1 = keysOf g ++ [g.nextId] := by
    unfold keysOf Graph.add_node
    simp
  have hnotin : g.nextId ∉ keysOf g := fun hmem => absurd (hlt g.nextId hmem) (lt_irrefl _)
  refine ⟨?_, ?_, ?_⟩
  · unfold NodupKeys
    show (keysOf (g.add_node name params).1).Nodup
    rw [hkeys, List.nodup_append]
    exact ⟨hnd, List.nodup_singleton _,
      fun x hx hy => hnotin ((List.mem_singleton.mp hy) ▸ hx)⟩
  · intro k hk
    rw [hkeys] at hk
    show k < g.nextId + 1
    rcases List.mem_append.mp hk with h | h
    · exact lt_trans (hlt k h) (Nat.lt_succ_self _)
    · have := List.mem_singleton.mp h
      omega
  · intro x n hl hd
    rw [hlook] at hl
    by_cases hx : x = g.nextId
    · rw [if_pos hx] at hl
      cases hl
      rfl
    · rw [if_neg hx] at hl
      exact h3 x n hl hd

theorem lightInv_connect {g : Graph} (A B : Nat) (h : LightInv g) :
    LightInv (g.connect A B).2 := by
  obtain ⟨hnd, hlt, h3⟩ := h
  rcases hla : g.lookup A with _ | an
  · unfold Graph.connect
    rw [hla]
    exact ⟨hnd, hlt, h3⟩
  · rcases hlb : g.lookup B with _ | bn
    · unfold Graph.connect
      rw [hla, hlb]
      exact ⟨hnd, hlt, h3⟩
    · by_cases hguard : B ∈ an.outputs
      · unfold Graph.connect
        rw [hla, hlb]
        simp only [if_pos hguard]
        exact ⟨hnd, hlt, h3⟩
      · by_cases hnoin : A ∈ bn.inputs
        · unfold Graph.connect Graph.add_input
          rw [hla, hlb]
          simp only [if_neg hguard, hlb, if_pos hnoin]
          exact ⟨hnd, hlt, h3⟩
        · rw [connect_success_eq hla hlb hguard hnoin]
          have hchar := fun x => connectMid_lookup hla hlb x
          have hkeysM : keysOf (connectMid g A B bn) = keysOf g := by
            unfold connectMid
            rcases hsc : (g.update B { bn with inputs := bn.inputs ++ [A] }).lookup A
              with _ | on2
            · simp only [hsc]
              exact keysOf_update _ _ _
            · simp only [hsc]
              exact (keysOf_update _ _ _).trans (keysOf_update _ _ _)
          have hnextM : (connectMid g A B bn).nextId = g.nextId := by
            unfold connectMid
            rcases hsc : (g.update B { bn with inputs := bn.inputs ++ [A] }).lookup A
              with _ | on2
            · simp only [hsc]; rfl
            · simp only [hsc]; rfl
          have hndM : NodupKeys (connectMid g A B bn) := by
            unfold NodupKeys
            show (keysOf (connectMid g A B bn)).Nodup
            rw [hkeysM]; exact hnd
          have h3M : INV3 (connectMid g A B bn) := by
            intro x n hl hd
            rw [hchar x] at hl
            by_cases hab : A = B
            · rw [if_pos hab] at hl
              by_cases hx : x = A
              · rw [if_pos hx] at hl
                cases hl
                exact h3 B bn hlb hd
              · rw [if_neg hx] at hl
                exact h3 x n hl hd
            · rw [if_neg hab] at hl
              by_cases hx : x = A
              · rw [if_pos hx] at hl
                cases hl
                exact h3 A an hla hd
              · rw [if_neg hx] at hl
                by_cases hxb : x = B
                · rw [if_pos hxb] at hl
                  cases hl
                  exact h3 B bn hlb hd
                · rw [if_neg hxb] at hl
                  exact h3 x n hl hd
          have hm := markRel_graph_set_dirty_true (connectMid g A B bn) B hndM
          refine ⟨markRel_nodupKeys hm hndM, ?_, markRel_INV3 hm h3M⟩
          intro k hk
          rw [markRel_keysOf hm, hkeysM] at hk
          rw [hm.1, hnextM]
          exact hlt k hk

theorem lightInv_disconnect {g : Graph} (A B : Nat) (h : LightInv g) :
    LightInv (g.disconnect A B) := by
  obtain ⟨hnd, hlt, h3⟩ := h
  rcases hla : g.lookup A with _ | an
  · unfold Graph.disconnect
    rw [hla]
    exact ⟨hnd, hlt, h3⟩
  · rcases hlb : g.lookup B with _ | bn
    · unfold Graph.disconnect
      rw [hla, hlb]
      exact ⟨hnd, hlt, h3⟩
    · by_cases hmem : A ∈ bn.inputs
      · rw [disconnect_present_eq hla hlb hmem]
        have hchar := fun x => disconnectMid_lookup hla hlb x
        have hkeysM : keysOf (disconnectMid g A B bn) = keysOf g := by
          unfold disconnectMid
          rcases hsc : (g.update B { bn with inputs := bn.inputs.erase A }).lookup A
            with _ | on2
          · simp only [hsc]
            exact keysOf_update _ _ _
          · simp only [hsc]
            exact (keysOf_update _ _ _).trans (keysOf_update _ _ _)
        have hnextM : (disconnectMid g A B bn).nextId = g.nextId := by
          unfold disconnectMid
          rcases hsc : (g.update B { bn with inputs := bn.inputs.erase A }).lookup A
            with _ | on2
          · simp only [hsc]; rfl
          · simp only [hsc]; rfl
        have hndM : NodupKeys (disconnectMid g A B bn) := by
          unfold NodupKeys
          show (keysOf (disconnectMid g A B bn)).Nodup
          rw [hkeysM]; exact hnd
        have h3M : INV3 (disconnectMid g A B bn) := by
          intro x n hl hd
          rw [hchar x] at hl
          by_cases hab : A = B
          · rw [if_pos hab] at hl
            by_cases hx : x = A
            · rw [if_pos hx] at hl
              cases hl
              exact h3 B bn hlb hd
            · rw [if_neg hx] at hl
              exact h3 x n hl hd
          · rw [if_neg hab] at hl
            by_cases hx : x = A
            · rw [if_pos hx] at hl
              cases hl
              exact h3 A an hla hd
            · rw [if_neg hx] at hl
              by_cases hxb : x = B
              · rw [if_pos hxb] at hl
                cases hl
                exact h3 B bn hlb hd
              · rw [if_neg hxb] at hl
                exact h3 x n hl hd
        have hm := markRel_graph_set_dirty_true (disconnectMid g A B bn) B hndM
        refine ⟨markRel_nodupKeys hm hndM, ?_, markRel_INV3 hm h3M⟩
        intro k hk
        rw [markRel_keysOf hm, hkeysM] at hk
        rw [hm.1, hnextM]
        exact hlt k hk
      · unfold Graph.disconnect Graph.remove_input
        simp only [hla, hlb]
        rw [if_neg hmem]
        exact ⟨hnd, hlt, h3⟩

theorem lightInv_set_parameter {g : Graph} (id : Nat) (name : String) (v : PValue)
    (h : LightInv g) : LightInv (g.set_parameter id name v).2 := by
  obtain ⟨hnd, hlt, h3⟩ := h
  unfold Graph.set_parameter
  rcases hl : g.lookup id with _ | n
  · simp only [hl]
    exact ⟨hnd, hlt, h3⟩
  · simp only [hl]
    rcases hf : n.parameters.find? (fun p => p.1 == name) with _ | pr
    · simp only [hf]
      exact ⟨hnd, hlt, h3⟩
    · simp only [hf]
      by_cases hv : pr.2.value = v
      · rw [if_pos hv]
        exact ⟨hnd, hlt, h3⟩
      · rw [if_neg hv]
        simp only []
        set newParams := n.parameters.map
          (fun q => if q.1 == name then (q.1, { q.2 with value := v }) else q) with hnp
        have hkeysM : keysOf (g.update id { n with parameters := newParams }) = keysOf g :=
          keysOf_update _ _ _
        have hndM : NodupKeys (g.update id { n with parameters := newParams }) := by
          unfold NodupKeys
          show (keysOf (g.update id { n with parameters := newParams })).Nodup
          rw [hkeysM]; exact hnd
        have h3M : INV3 (g.update id { n with parameters := newParams }) := by
          intro x m hlx hdx
          by_cases hx : x = id
          · rw [hx, lookup_update_self _ hl] at hlx
            cases hlx
            exact h3 id n hl hdx
          · rw [lookup_update_ne _ hx] at hlx
            exact h3 x m hlx hdx
        have hm := markRel_graph_set_dirty_true
          (g.update id { n with parameters := newParams }) id hndM
        refine ⟨markRel_nodupKeys hm hndM, ?_, markRel_INV3 hm h3M⟩
        intro k hk
        rw [markRel_keysOf hm, hkeysM] at hk
        rw [hm.1]
        exact hlt k hk

theorem lightInv_execute {g : Graph} (proc : ProcFn) (fuel t : Nat) (h : LightInv g) :
    LightInv (executeAux proc fuel g t).2.1 := by
  obtain ⟨hnd, hlt, h3⟩ := h
  obtain ⟨hk, hn⟩ := keysOf_executeAux proc fuel g t
  refine ⟨?_, ?_, INV3_executeAux proc fuel g t h3⟩
  · unfold NodupKeys
    show (keysOf (executeAux proc fuel g t).2.1).Nodup
    rw [hk]; exact hnd
  · intro k hkm
    rw [hk] at hkm
    rw [hn]
    exact hlt k hkm

theorem reachable_lightInv {g : Graph} (h : Reachable g) : LightInv g := by
  induction h with
  | empty =>
    refine ⟨List.nodup_nil, ?_, ?_⟩
    · intro k hk; cases hk
    · intro x n hl; cases hl
  | add_node g name params _ ih => exact lightInv_add_node name params ih
  | connect g a b _ ih => exact lightInv_connect a b ih
  | disconnect g a b _ ih => exact lightInv_disconnect a b ih
  | set_parameter g id name v _ ih => exact lightInv_set_parameter id name v ih
  | execute g proc fuel t _ ih => exact lightInv_execute proc fuel t ih

theorem CR_to_reach {g : Graph} : ∀ {x b : Nat}, CR g x b → ReachOut g x b := by
  intro x b h
  induction h with
  | refl a n hl hc => exact Relation.ReflTransGen.refl
  | step a y z n hl hc hy hz ih =>
    obtain ⟨m, hm, _⟩ := CR_start_clean hz
    exact Relation.ReflTransGen.head ⟨n, m, hl, hy, hm⟩ ih

theorem reachOut_of_edge_imp {g h : Graph}
    (he : ∀ a b, EdgeStep g a b → EdgeStep h a b) :
    ∀ {x y : Nat}, ReachOut g x y → ReachOut h x y := by
  intro x y hr
  induction hr with
  | refl => exact Relation.ReflTransGen.refl
  | tail hstep hedge ih => exact Relation.ReflTransGen.tail ih (he _ _ hedge)

theorem find?_map_param_self (l : List (String × Param)) (name : String) (v : PValue) :
    (l.map (fun q => if q.1 == name then (q.1, { q.2 with value := v }) else q)).find?
        (fun p => p.1 == name) =
      (l.find? (fun p => p.1 == name)).map (fun q => (q.1, { q.2 with value := v })) := by
  induction l with
  | nil => rfl
  | cons p ps ih =>
    rw [List.map_cons]
    by_cases hp : p.1 = name
    · have hb : (p.1 == name) = true := by simpa using hp
      rw [if_pos hb, List.find?_cons_of_pos ps hb,
        List.find?_cons_of_pos (ps.map (fun q => if q.1 == name then (q.1, { q.2 with value := v }) else q)) hb]
      rfl
    · have hb : (p.1 == name) = false := by simpa using hp
      rw [if_neg (by simp [hb]),
        List.find?_cons_of_neg (ps.map (fun q => if q.1 == name then (q.1, { q.2 with value := v }) else q))
          (by simp [hb]),
        List.find?_cons_of_neg ps (by simp [hb]), ih]

theorem markRel_outputs {g g' : Graph} (hm : MarkRel g g') {x : Nat} {n : PNode}
    (hl : g.lookup x = some n) :
    ∃ n', g'.lookup x = some n' ∧ n'.outputs = n.outputs ∧ n'.inputs = n.inputs ∧
      n'.parameters = n.parameters ∧ n'.name = n.name := by
  rcases markRel_lookup hm x with ⟨h1, _⟩ | ⟨m, m', h1, h2, h3⟩
  · rw [h1] at hl; cases hl
  · rw [h1] at hl
    cases hl
    rcases h3 with he | ⟨_, he⟩
    · exact ⟨m', h2, by rw [he], by rw [he], by rw [he], by rw [he]⟩
    · exact ⟨m', h2, by rw [he]; rfl, by rw [he]; rfl, by rw [he]; rfl, by rw [he]; rfl⟩

/-! ### Claim theorems and concrete scenarios -/

/-- Two fresh unconnected nodes, ids 0 and 1. -/
def gAB : Graph := ((Graph.empty.add_node "A" []).1.add_node "B" []).1

/-- C1: the claim asserts that after a successful `connect(A, B)`, the exact
duplicate `connect(A, B)` and the reverse `connect(B, A)` are both rejected,
leaving only the edge A→B.  The code (`NodeGraph.connect`, lines 85-96)
rejects the duplicate but ACCEPTS the reverse call: its guard
`input_node in output_node.outputs` only detects an existing identical edge,
despite the "Prevent cycles" comment and the "Cycle detected" warning, so
`connect(B, A)` returns True and creates the 2-cycle A→B→A.  This theorem
evaluates the code on that failing input. -/
theorem connect_two_cycle_accepted :
    (gAB.connect 0 1).1 = true ∧
    ((gAB.connect 0 1).2.connect 0 1) = (false, (gAB.connect 0 1).2) ∧
    (((gAB.connect 0 1).2.connect 1 0).1 = true) ∧
    ((((gAB.connect 0 1).2.connect 1 0).2.lookup 0).map PNode.outputs = some [1]) ∧
    ((((gAB.connect 0 1).2.connect 1 0).2.lookup 0).map PNode.inputs = some [1]) ∧
    ((((gAB.connect 0 1).2.connect 1 0).2.lookup 1).map PNode.outputs = some [0]) ∧
    ((((gAB.connect 0 1).2.connect 1 0).2.lookup 1).map PNode.inputs = some [0]) := by
  decide

/-- C3: in every state reachable through the five public operations, a dirty
node holds no cached artifact (`set_dirty` clears the cache whenever it sets
the flag, and `execute` clears the flag whenever it stores a cache). -/
theorem dirty_implies_no_cache {g : Graph} (h : Reachable g) :
    ∀ id n, g.lookup id = some n → n.is_dirty = true → n.cached_data = none :=
  (reachable_lightInv h).2.2

/-- A single freshly added Input node: reachable, dirty, no cache. -/
def gOneInput : Graph :=
  (Graph.empty.add_node "Input"
    [("filepath", { ptype := "filepath", value := PValue.str "", range := none, step := none })]).1

/-- Witness for `dirty_implies_no_cache` at a concrete reachable graph. -/
theorem dirty_implies_no_cache_witness :
    (gOneInput.lookup 0).map PNode.cached_data = some none := by
  have hre : Reachable gOneInput :=
    Reachable.add_node _ _ _ Reachable.empty
  have hl : gOneInput.lookup 0 = some (mkNode "Input"
      [("filepath", { ptype := "filepath", value := PValue.str "", range := none, step := none })]) := by
    decide
  have := dirty_implies_no_cache hre 0 _ hl (by decide)
  rw [hl]
  show some (mkNode "Input"
      [("filepath", { ptype := "filepath", value := PValue.str "", range := none, step := none })]).cached_data = some none
  rw [this]

/-- Process oracle used in the counterexamples: every node named Input
returns Python None without raising (`InputNode.process` with an empty
`filepath`), every other node raises (e.g. `input_data[0]` on an empty input
list). -/
def procBad : ProcFn := fun n _ => if n.name = "Input" then Except.ok none else Except.error ()

/-- Grayscale node 0 feeding Input-named node 1, then `execute(1)`:
node 0's process raises and node 0 stays dirty, but node 1 is named "Input"
so the missing-input guard (line 58) does not apply, its process returns
None and `set_dirty(False)` clears its dirty flag. -/
def gBadExec : Graph :=
  (executeAux procBad 2
    ((((Graph.empty.add_node "Grayscale" []).1.add_node "Input"
      [("filepath", { ptype := "filepath", value := PValue.str "", range := none, step := none })]).1).connect 0 1).2 1).2.1

/-- C10 counterexample: a state reachable through the five public operations
in which node 0 is dirty, node 1 is its direct output-edge descendant, and
node 1 is clean — the claimed closure fails once `execute` is involved. -/
theorem dirty_closure_fails_after_execute :
    Reachable gBadExec ∧
    (gBadExec.lookup 0).map PNode.is_dirty = some true ∧
    (gBadExec.lookup 0).map PNode.outputs = some [1] ∧
    EdgeStep gBadExec 0 1 ∧
    (gBadExec.lookup 1).map PNode.is_dirty = some false := by
  refine ⟨?_, by decide, by decide, ?_, by decide⟩
  · exact Reachable.execute _ procBad 2 1
      (Reachable.connect _ 0 1
        (Reachable.add_node _ _ _ (Reachable.add_node _ _ _ Reachable.empty)))
  · rcases hl0 : gBadExec.lookup 0 with _ | n0
    · exact absurd (by rw [hl0]; rfl : (gBadExec.lookup 0).map PNode.is_dirty = none)
        (by decide)
    · rcases hl1 : gBadExec.lookup 1 with _ | n1
      · exact absurd (by rw [hl1]; rfl : (gBadExec.lookup 1).map PNode.is_dirty = none)
          (by decide)
      · refine ⟨n0, n1, hl0, ?_, hl1⟩
        have houts : (gBadExec.lookup 0).map PNode.outputs = some [1] := by decide
        rw [hl0] at houts
        have : n0.outputs = [1] := Option.some.inj houts
        rw [this]
        exact List.mem_singleton.mpr rfl

/-- C10 (amended): the dirty-closure invariant does hold in every state
reachable through the structural operations alone (`add_node`, `connect`,
`disconnect`, `set_parameter`): if a node is dirty, every node transitively
downstream of it along output edges is dirty too — which is what makes
`set_dirty`'s early return on an already-dirty node safe for those
operations. -/
theorem dirty_closed_structural {g : Graph} (h : StructReachable g) :
    ∀ a b, dirtyIn g a → ReachOut g a b → dirtyIn g b := by
  intro a b hd hr
  exact INVdirty_reach (structReachable_inv h).2.2 hd hr

/-- Two fresh nodes with the edge 0→1, built structurally. -/
def gEdge01 : Graph := (gAB.connect 0 1).2

/-- Witness for `dirty_closed_structural` at a concrete structural state. -/
theorem dirty_closed_structural_witness : dirtyIn gEdge01 1 := by
  have hsr : StructReachable gEdge01 :=
    StructReachable.connect _ 0 1
      (StructReachable.add_node _ _ _ (StructReachable.add_node _ _ _ StructReachable.empty))
  have hd0 : (gEdge01.lookup 0).map PNode.is_dirty = some true := by decide
  have ho0 : (gEdge01.lookup 0).map PNode.outputs = some [1] := by decide
  have hp1 : (gEdge01.lookup 1).isSome = true := by decide
  rcases hl0 : gEdge01.lookup 0 with _ | n0
  · rw [hl0] at hd0; cases hd0
  · rcases hl1 : gEdge01.lookup 1 with _ | n1
    · rw [hl1] at hp1; cases hp1
    · refine dirty_closed_structural hsr 0 1 ⟨n0, hl0, ?_⟩
        (Relation.ReflTransGen.single ⟨n0, n1, hl0, ?_, hl1⟩)
      · rw [hl0] at hd0
        exact Option.some.inj hd0
      · rw [hl0] at ho0
        rw [Option.some.inj ho0]
        exact List.mem_singleton.mpr rfl

/-! ### C4: `set_parameter` and descendant marking -/

/-- Lookup after an update at a present key, as a plain `if`. -/
theorem lookup_update_char {g : Graph} {id : Nat} {n : PNode} (m : PNode)
    (hl : g.lookup id = some n) (x : Nat) :
    (g.update id m).lookup x = if x = id then some m else g.lookup x := by
  rw [lookup_update]
  by_cases hx : x = id
  · rw [if_pos hx, if_pos ⟨hx, by rw [hl]; rfl⟩]
  · rw [if_neg hx, if_neg (fun hc => hx hc.1)]

/-- An update that keeps the outputs list keeps the edge relation. -/
theorem edgeStep_update_node {g : Graph} {id : Nat} {n m : PNode}
    (hl : g.lookup id = some n) (ho : m.outputs = n.outputs) (a b : Nat) :
    EdgeStep (g.update id m) a b ↔ EdgeStep g a b := by
  have hchar := lookup_update_char m hl
  constructor
  · rintro ⟨na, mb, hlna, hb, hlmb⟩
    rw [hchar a] at hlna
    rw [hchar b] at hlmb
    by_cases ha : a = id
    · rw [if_pos ha] at hlna
      cases hlna
      by_cases hbid : b = id
      · refine ⟨n, n, ?_, ho ▸ hb, ?_⟩
        · rw [ha]; exact hl
        · rw [hbid]; exact hl
      · rw [if_neg hbid] at hlmb
        refine ⟨n, mb, ?_, ho ▸ hb, hlmb⟩
        rw [ha]; exact hl
    · rw [if_neg ha] at hlna
      by_cases hbid : b = id
      · refine ⟨na, n, hlna, hb, ?_⟩
        rw [hbid]; exact hl
      · rw [if_neg hbid] at hlmb
        exact ⟨na, mb, hlna, hb, hlmb⟩
  · rintro ⟨na, mb, hlna, hb, hlmb⟩
    have hlbu : ((g.update id m).lookup b).isSome = true := by
      rw [hchar b]
      by_cases hbid : b = id
      · rw [if_pos hbid]; rfl
      · rw [if_neg hbid, hlmb]; rfl
    obtain ⟨mb', hmb'⟩ := Option.isSome_iff_exists.mp hlbu
    by_cases ha : a = id
    · have hna : na = n := by
        rw [ha, hl] at hlna
        exact (Option.some.inj hlna).symm
      refine ⟨m, mb', ?_, ?_, hmb'⟩
      · rw [hchar a, if_pos ha]
      · rw [ho, ← hna]; exact hb
    · refine ⟨na, mb', ?_, hb, hmb'⟩
      rw [hchar a, if_neg ha]
      exact hlna

/-- An update that keeps the dirty flag keeps per-node dirtiness. -/
theorem dirtyIn_update_iff {g : Graph} {id : Nat} {n m : PNode}
    (hl : g.lookup id = some n) (hd : m.is_dirty = n.is_dirty) (x : Nat) :
    dirtyIn (g.update id m) x ↔ dirtyIn g x := by
  unfold dirtyIn
  rw [lookup_update_char m hl x]
  by_cases hx : x = id
  · rw [if_pos hx, hx, hl]
    constructor
    · rintro ⟨q, hq, hdq⟩
      cases hq
      exact ⟨n, rfl, by rw [← hd]; exact hdq⟩
    · rintro ⟨q, hq, hdq⟩
      cases hq
      exact ⟨m, rfl, by rw [hd]; exact hdq⟩
  · rw [if_neg hx]

/-- Under the dirty-closure invariant, every downstream node is dirty or
clean-reachable (so `set_dirty(True)` will mark it). -/
theorem reachOut_dirty_or_CR {g : Graph} (hdi : INVdirty g) {a : Nat} {n : PNode}
    (hl : g.lookup a = some n) :
    ∀ {b : Nat}, ReachOut g a b → dirtyIn g b ∨ CR g a b := by
  intro b hr
  induction hr with
  | refl =>
    cases hd : n.is_dirty
    · exact Or.inr (CR.refl a n hl hd)
    · exact Or.inl ⟨n, hl, hd⟩
  | tail hstep hedge ih =>
    rcases ih with hdc | hcr
    · exact Or.inl (hdi _ _ hdc hedge)
    · obtain ⟨nc, mb, hlc, hb, hlb⟩ := hedge
      cases hmb : mb.is_dirty
      · obtain ⟨nc', hlc', hcc⟩ := CR_end_clean hcr
        rw [hlc] at hlc'
        cases hlc'
        exact Or.inr (CR_concat hcr (CR.step _ _ _ nc hlc hcc hb (CR.refl _ mb hlb hmb)))
      · exact Or.inl ⟨mb, hlb, hmb⟩

/-- Replacing a node's parameter list and then calling `set_dirty(True)` on it
(the mutation done by `set_parameter` on a changed value) yields a graph in
which the node carries the new list and every downstream descendant is dirty
with no cache — provided the dirty-closure invariant held beforehand. -/
theorem set_dirty_update_params_marks {g : Graph} {id : Nat} {n : PNode}
    (hwf : WF g) (h3 : INV3 g) (hdi : INVdirty g)
    (hl : g.lookup id = some n) (ps : List (String × Param)) :
    (∃ m, ((g.update id { n with parameters := ps }).set_dirty id true).lookup id = some m ∧
      m.parameters = ps) ∧
    ∀ b, ReachOut g id b →
      ∃ m, ((g.update id { n with parameters := ps }).set_dirty id true).lookup b = some m ∧
        m.is_dirty = true ∧ m.cached_data = none := by
  set n1 : PNode := { n with parameters := ps } with hn1
  set g1 : Graph := g.update id n1 with hg1
  have hnd1 : NodupKeys g1 := by
    unfold NodupKeys
    show (keysOf g1).Nodup
    rw [hg1, keysOf_update]
    exact hwf.nodup
  have hl1 : g1.lookup id = some n1 := by
    rw [hg1]
    exact lookup_update_self _ hl
  have h31 : INV3 g1 := by
    intro x q hlq hdq
    rw [hg1, lookup_update_char n1 hl x] at hlq
    by_cases hx : x = id
    · rw [if_pos hx] at hlq
      cases hlq
      exact h3 id n hl hdq
    · rw [if_neg hx] at hlq
      exact h3 x q hlq hdq
  have hdi1 : INVdirty g1 := by
    intro a b hda he
    rw [hg1] at hda he ⊢
    exact (@dirtyIn_update_iff g id n n1 hl rfl b).mpr
      (hdi a b ((@dirtyIn_update_iff g id n n1 hl rfl a).mp hda)
        ((@edgeStep_update_node g id n n1 hl rfl a b).mp he))
  have hmr := markRel_graph_set_dirty_true g1 id hnd1
  have h3sd : INV3 (g1.set_dirty id true) := markRel_INV3 hmr h31
  constructor
  · obtain ⟨m', hm', ho', hi', hp', hnm'⟩ := markRel_outputs hmr hl1
    exact ⟨m', hm', by rw [hp']⟩
  · intro b hr
    have hr1 : ReachOut g1 id b := by
      refine reachOut_of_edge_imp ?_ hr
      intro x y hxy
      rw [hg1]
      exact (@edgeStep_update_node g id n n1 hl rfl x y).mpr hxy
    have hdb : dirtyIn (g1.set_dirty id true) b := by
      rw [set_dirty_dirtyIn_iff hnd1]
      rcases reachOut_dirty_or_CR hdi1 hl1 hr1 with hca | hca
      · exact Or.inl hca
      · exact Or.inr hca
    obtain ⟨m, hm, hdm⟩ := hdb
    exact ⟨m, hm, hdm, h3sd b m hm hdm⟩

/-- Structural scenario for C4: a Color Convert node (id 0, integer `mode`
parameter with declared range (0, 3)) feeding an Input-named node (id 1). -/
def gC4 : Graph :=
  (((Graph.empty.add_node "Color Convert"
      [("mode", { ptype := "int", value := PValue.int 0, range := some (0, 3), step := some 1 })]).1.add_node
      "Input"
      [("filepath", { ptype := "filepath", value := PValue.str "", range := none, step := none })]).1.connect 0 1).2

/-- The same scenario after `execute(1)` under `procBad`: node 0's process
raised, so node 0 is dirty, while node 1 ("Input") was executed and is clean. -/
def gBadExec4 : Graph := (executeAux procBad 2 gC4 1).2.1

/-- C4 counterexample: a reachable state in which `set_parameter` on node 0
with a genuinely changed `mode` value succeeds and stores the value, yet its
direct downstream descendant node 1 stays clean — the value-changing call
does NOT mark every transitive downstream descendant dirty, because node 0
was already dirty and `set_dirty`'s early return stops all propagation. -/
theorem set_parameter_misses_descendant :
    Reachable gBadExec4 ∧
    (gBadExec4.lookup 0).bind (fun n => n.get_parameter "mode") = some (PValue.int 0) ∧
    (gBadExec4.lookup 0).map PNode.outputs = some [1] ∧
    EdgeStep gBadExec4 0 1 ∧
    (gBadExec4.set_parameter 0 "mode" (PValue.int 1)).1 = true ∧
    ((gBadExec4.set_parameter 0 "mode" (PValue.int 1)).2.lookup 0).bind
        (fun n => n.get_parameter "mode") = some (PValue.int 1) ∧
    ((gBadExec4.set_parameter 0 "mode" (PValue.int 1)).2.lookup 1).map PNode.is_dirty =
      some false := by
  refine ⟨?_, by decide, by decide, ?_, by decide, by decide, by decide⟩
  · exact Reachable.execute _ procBad 2 1
      (Reachable.connect _ 0 1
        (Reachable.add_node _ _ _ (Reachable.add_node _ _ _ Reachable.empty)))
  · rcases hl0 : gBadExec4.lookup 0 with _ | n0
    · exact absurd (by rw [hl0]; rfl : (gBadExec4.lookup 0).map PNode.is_dirty = none)
        (by decide)
    · rcases hl1 : gBadExec4.lookup 1 with _ | n1
      · exact absurd (by rw [hl1]; rfl : (gBadExec4.lookup 1).map PNode.is_dirty = none)
          (by decide)
      · refine ⟨n0, n1, hl0, ?_, hl1⟩
        have houts : (gBadExec4.lookup 0).map PNode.outputs = some [1] := by decide
        rw [hl0] at houts
        rw [Option.some.inj houts]
        exact List.mem_singleton.mpr rfl

/-- C4 (amended): in every state reachable through the structural operations
alone (no `execute`), for a node with a declared parameter: `set_parameter`
with the unchanged value returns True and leaves the graph entirely
untouched, and `set_parameter` with a changed value returns True, stores the
value, and marks the node and every transitive downstream output-edge
descendant dirty with their caches cleared.  (Once `execute` enters the mix
the counterexample above shows the descendant-marking half can fail.) -/
theorem set_parameter_marks_structural {g : Graph} (h : StructReachable g)
    (id : Nat) (name : String) (v : PValue) (n : PNode) (pr : String × Param)
    (hl : g.lookup id = some n)
    (hf : n.parameters.find? (fun p => p.1 == name) = some pr) :
    (pr.2.value = v → g.set_parameter id name v = (true, g)) ∧
    (pr.2.value ≠ v →
      (g.set_parameter id name v).1 = true ∧
      (∃ m, (g.set_parameter id name v).2.lookup id = some m ∧
        m.get_parameter name = some v) ∧
      ∀ b, ReachOut g id b →
        ∃ m, (g.set_parameter id name v).2.lookup b = some m ∧
          m.is_dirty = true ∧ m.cached_data = none) := by
  obtain ⟨hwf, h3, hdi⟩ := structReachable_inv h
  constructor
  · intro hv
    unfold Graph.set_parameter
    simp only [hl, hf]
    rw [if_pos hv]
  · intro hv
    have heq : g.set_parameter id name v =
        (true, (g.update id { n with parameters := n.parameters.map (fun q => if q.1 == name then (q.1, { q.2 with value := v }) else q) }).set_dirty id true) := by
      unfold Graph.set_parameter
      simp only [hl, hf]
      rw [if_neg hv]
    rw [heq]
    obtain ⟨⟨m', hm', hp'⟩, hall⟩ := set_dirty_update_params_marks hwf h3 hdi hl
      (n.parameters.map (fun q => if q.1 == name then (q.1, { q.2 with value := v }) else q))
    refine ⟨rfl, ⟨m', hm', ?_⟩, hall⟩
    unfold PNode.get_parameter
    rw [hp', find?_map_param_self, hf]
    rfl

/-- Witness for `set_parameter_marks_structural` at a concrete structural
graph: the unchanged value is a no-op, the changed value is stored and the
downstream node 1 ends dirty with no cache. -/
theorem set_parameter_marks_structural_witness :
    gC4.set_parameter 0 "mode" (PValue.int 0) = (true, gC4) ∧
    (gC4.set_parameter 0 "mode" (PValue.int 1)).1 = true ∧
    (∃ m, (gC4.set_parameter 0 "mode" (PValue.int 1)).2.lookup 1 = some m ∧
      m.is_dirty = true ∧ m.cached_data = none) := by
  have hsr : StructReachable gC4 :=
    StructReachable.connect _ 0 1
      (StructReachable.add_node _ _ _ (StructReachable.add_node _ _ _ StructReachable.empty))
  have hl : gC4.lookup 0 = some
      { name := "Color Convert", inputs := [], outputs := [1],
        parameters := [("mode", { ptype := "int", value := PValue.int 0, range := some (0, 3), step := some 1 })],
        cached_data := none, is_dirty := true } := by decide
  have hl1 : gC4.lookup 1 = some
      { name := "Input", inputs := [0], outputs := [],
        parameters := [("filepath", { ptype := "filepath", value := PValue.str "", range := none, step := none })],
        cached_data := none, is_dirty := true } := by decide
  refine ⟨?_, ?_, ?_⟩
  · exact (set_parameter_marks_structural hsr 0 "mode" (PValue.int 0) _
      ("mode", { ptype := "int", value := PValue.int 0, range := some (0, 3), step := some 1 })
      hl (by decide)).1 rfl
  · exact ((set_parameter_marks_structural hsr 0 "mode" (PValue.int 1) _
      ("mode", { ptype := "int", value := PValue.int 0, range := some (0, 3), step := some 1 })
      hl (by decide)).2 (by decide)).1
  · refine ((set_parameter_marks_structural hsr 0 "mode" (PValue.int 1) _
      ("mode", { ptype := "int", value := PValue.int 0, range := some (0, 3), step := some 1 })
      hl (by decide)).2 (by decide)).2.2 1 ?_
    exact Relation.ReflTransGen.single ⟨_, _, hl, by decide, hl1⟩

/-! ### C6: `disconnect` re-dirties the destination -/

/-- Process oracle that always succeeds with artifact 7. -/
def procOK : ProcFn := fun _ _ => Except.ok (some 7)

/-- Edge 0→1 with both nodes executed clean (`execute(1)` under `procOK`):
both nodes are clean and hold the cached artifact 7. -/
def gExec6 : Graph := (executeAux procOK 2 gEdge01 1).2.1

/-- C6 counterexample: in a reachable state where destination node 1 is clean
with a cached artifact, `disconnect(0, 1)` removes the edge from both
adjacency lists (as claimed) but ALSO marks node 1 dirty and clears its
cache: `remove_input` (lines 19-23) ends with `self.set_dirty()`, so the
claim's "does not mark dst dirty and does not clear any node's cache" part is
false. -/
theorem disconnect_redirties_counterexample :
    Reachable gExec6 ∧
    (gExec6.lookup 1).map PNode.is_dirty = some false ∧
    (gExec6.lookup 1).map PNode.cached_data = some (some 7) ∧
    ((gExec6.disconnect 0 1).lookup 1).map PNode.inputs = some [] ∧
    ((gExec6.disconnect 0 1).lookup 0).map PNode.outputs = some [] ∧
    ((gExec6.disconnect 0 1).lookup 1).map PNode.is_dirty = some true ∧
    ((gExec6.disconnect 0 1).lookup 1).map PNode.cached_data = some none := by
  refine ⟨?_, by decide, by decide, by decide, by decide, by decide, by decide⟩
  exact Reachable.execute _ procOK 2 1
    (Reachable.connect _ 0 1
      (Reachable.add_node _ _ _ (Reachable.add_node _ _ _ Reachable.empty)))

/-- C6 (amended): for an existing edge A→B between distinct nodes in a
structurally reachable state, `disconnect(A, B)` removes the edge from both
adjacency lists (completely, thanks to the no-duplicate invariants), leaves
every other node's name, adjacency and parameters unchanged, and — contrary
to the claim — marks the destination B dirty and clears its cache
(`remove_input` ends with `set_dirty()`). -/
theorem disconnect_removes_edge_and_redirties {g : Graph} (h : StructReachable g)
    (A B : Nat) (an bn : PNode)
    (hla : g.lookup A = some an) (hlb : g.lookup B = some bn)
    (hab : A ≠ B) (hmem : A ∈ bn.inputs) :
    (∃ m, (g.disconnect A B).lookup A = some m ∧
      m.inputs = an.inputs ∧ m.outputs = an.outputs.erase B ∧ B ∉ m.outputs) ∧
    (∃ m, (g.disconnect A B).lookup B = some m ∧
      m.outputs = bn.outputs ∧ m.inputs = bn.inputs.erase A ∧ A ∉ m.inputs ∧
      m.is_dirty = true ∧ m.cached_data = none) ∧
    (∀ x, x ≠ A → x ≠ B → ∀ nx, g.lookup x = some nx →
      ∃ m, (g.disconnect A B).lookup x = some m ∧
        m.name = nx.name ∧ m.inputs = nx.inputs ∧ m.outputs = nx.outputs ∧
        m.parameters = nx.parameters) := by
  obtain ⟨hwf, h3, hdi⟩ := structReachable_inv h
  rw [disconnect_present_eq hla hlb hmem]
  have hchar := fun x => disconnectMid_lookup hla hlb x
  have hba : ¬ B = A := fun hc => hab hc.symm
  have hA : (disconnectMid g A B bn).lookup A =
      some { an with outputs := an.outputs.erase B } := by
    rw [hchar A, if_neg hab, if_pos rfl]
  have hB : (disconnectMid g A B bn).lookup B =
      some { bn with inputs := bn.inputs.erase A } := by
    rw [hchar B, if_neg hab, if_neg hba, if_pos rfl]
  have hkeysM : keysOf (disconnectMid g A B bn) = keysOf g := by
    unfold disconnectMid
    rcases hsc : (g.update B { bn with inputs := bn.inputs.erase A }).lookup A with _ | on2
    · simp only [hsc]
      exact keysOf_update _ _ _
    · simp only [hsc]
      exact (keysOf_update _ _ _).trans (keysOf_update _ _ _)
  have hndM : NodupKeys (disconnectMid g A B bn) := by
    unfold NodupKeys
    show (keysOf (disconnectMid g A B bn)).Nodup
    rw [hkeysM]
    exact hwf.nodup
  have h3M : INV3 (disconnectMid g A B bn) := by
    intro x q hlq hdq
    rw [hchar x, if_neg hab] at hlq
    by_cases hx : x = A
    · rw [if_pos hx] at hlq
      cases hlq
      exact h3 A an hla hdq
    · rw [if_neg hx] at hlq
      by_cases hxb : x = B
      · rw [if_pos hxb] at hlq
        cases hlq
        exact h3 B bn hlb hdq
      · rw [if_neg hxb] at hlq
        exact h3 x q hlq hdq
  have hmr := markRel_graph_set_dirty_true (disconnectMid g A B bn) B hndM
  have h3R : INV3 ((disconnectMid g A B bn).set_dirty B true) := markRel_INV3 hmr h3M
  have hcnt1 : List.count A bn.inputs = 1 := by
    have hle := List.nodup_iff_count_le_one.mp (hwf.nodupIn B bn hlb) A
    have hpos := List.count_pos_iff.mpr hmem
    omega
  have hcntA : List.count B an.outputs = 1 := by
    rw [hwf.mirror A an B bn hla hlb]
    exact hcnt1
  refine ⟨?_, ?_, ?_⟩
  · obtain ⟨m, hm, ho, hi, hp, hn⟩ := markRel_outputs hmr hA
    refine ⟨m, hm, by rw [hi], by rw [ho], ?_⟩
    rw [ho]
    show B ∉ an.outputs.erase B
    have hz : List.count B (an.outputs.erase B) = 0 := by
      rw [List.count_erase_self, hcntA]
    exact List.count_eq_zero.mp hz
  · obtain ⟨m, hm, ho, hi, hp, hn⟩ := markRel_outputs hmr hB
    have hdB : dirtyIn ((disconnectMid g A B bn).set_dirty B true) B := by
      rw [set_dirty_dirtyIn_iff hndM]
      cases hdb : bn.is_dirty
      · exact Or.inr (CR.refl B _ hB hdb)
      · exact Or.inl ⟨_, hB, hdb⟩
    obtain ⟨m2, hm2, hdm2⟩ := hdB
    rw [hm] at hm2
    cases hm2
    refine ⟨m, hm, by rw [ho], by rw [hi], ?_, hdm2, h3R B m hm hdm2⟩
    rw [hi]
    show A ∉ bn.inputs.erase A
    exact fun hc => (((hwf.nodupIn B bn hlb).mem_erase_iff).mp hc).1 rfl
  · intro x hxA hxB nx hlx
    have hgx : (disconnectMid g A B bn).lookup x = some nx := by
      rw [hchar x, if_neg hab, if_neg hxA, if_neg hxB]
      exact hlx
    obtain ⟨m, hm, ho, hi, hp, hn⟩ := markRel_outputs hmr hgx
    exact ⟨m, hm, hn, hi, ho, hp⟩

/-- Witness for `disconnect_removes_edge_and_redirties` at a concrete
structural graph with the single edge 0→1. -/
theorem disconnect_redirties_witness :
    ∃ m, (gEdge01.disconnect 0 1).lookup 1 = some m ∧
      m.inputs = [0].erase 0 ∧ m.is_dirty = true ∧ m.cached_data = none := by
  have hsr : StructReachable gEdge01 :=
    StructReachable.connect _ 0 1
      (StructReachable.add_node _ _ _ (StructReachable.add_node _ _ _ StructReachable.empty))
  have hla : gEdge01.lookup 0 = some ⟨"A", [], [1], [], none, true⟩ := by decide
  have hlb : gEdge01.lookup 1 = some ⟨"B", [0], [], [], none, true⟩ := by decide
  obtain ⟨m, hm, ho, hi, hni, hd, hc⟩ :=
    (disconnect_removes_edge_and_redirties hsr 0 1 _ _ hla hlb (by decide) (by decide)).2.1
  exact ⟨m, hm, hi, hd, hc⟩

/-! ### C8: no range check in `set_parameter` -/

/-- C8 counterexample: `set_parameter` (lines 41-47) performs no range check,
so in a reachable state the Color Convert node's integer `mode` parameter,
declared with range (0, 3), holds the stored value 99, which violates the
claimed invariant; the call reported success rather than rejecting the value. -/
theorem range_invariant_violated :
    Reachable (gC4.set_parameter 0 "mode" (PValue.int 99)).2 ∧
    (((gC4.set_parameter 0 "mode" (PValue.int 99)).2.lookup 0).bind
      (fun n => (n.parameters.find? (fun p => p.1 == "mode")).map
        (fun p => (p.2.range, p.2.value)))) = some (some (0, 3), PValue.int 99) ∧
    (gC4.set_parameter 0 "mode" (PValue.int 99)).1 = true ∧
    ¬ (0 ≤ (99 : Int) ∧ (99 : Int) ≤ 3) := by
  refine ⟨?_, by decide, by decide, by decide⟩
  exact Reachable.set_parameter _ 0 "mode" (PValue.int 99)
    (Reachable.connect _ 0 1
      (Reachable.add_node _ _ _ (Reachable.add_node _ _ _ Reachable.empty)))

/-- C8 (amended): `set_parameter` stores ANY differing value for a declared
parameter and reports success, keeping the declared range descriptor but
never checking the value against it — there is no `ParameterOutOfRange`
rejection path in the code. -/
theorem set_parameter_stores_any_value {g : Graph} (hnd : NodupKeys g)
    (id : Nat) (name : String) (v : PValue) (n : PNode) (pr : String × Param)
    (hl : g.lookup id = some n)
    (hf : n.parameters.find? (fun p => p.1 == name) = some pr)
    (hv : pr.2.value ≠ v) :
    (g.set_parameter id name v).1 = true ∧
    ∃ m, (g.set_parameter id name v).2.lookup id = some m ∧
      m.get_parameter name = some v ∧
      (m.parameters.find? (fun p => p.1 == name)).map (fun p => p.2.range) =
        some pr.2.range := by
  have heq : g.set_parameter id name v =
      (true, (g.update id { n with parameters := n.parameters.map (fun q => if q.1 == name then (q.1, { q.2 with value := v }) else q) }).set_dirty id true) := by
    unfold Graph.set_parameter
    simp only [hl, hf]
    rw [if_neg hv]
  rw [heq]
  have hl1 : (g.update id { n with parameters := n.parameters.map (fun q => if q.1 == name then (q.1, { q.2 with value := v }) else q) }).lookup id =
      some { n with parameters := n.parameters.map (fun q => if q.1 == name then (q.1, { q.2 with value := v }) else q) } :=
    lookup_update_self _ hl
  have hnd1 : NodupKeys (g.update id { n with parameters := n.parameters.map (fun q => if q.1 == name then (q.1, { q.2 with value := v }) else q) }) := by
    unfold NodupKeys
    show (keysOf (g.update id { n with parameters := n.parameters.map (fun q => if q.1 == name then (q.1, { q.2 with value := v }) else q) })).Nodup
    rw [keysOf_update]
    exact hnd
  have hmr := markRel_graph_set_dirty_true _ id hnd1
  obtain ⟨m, hm, ho, hi, hp, hnm⟩ := markRel_outputs hmr hl1
  refine ⟨rfl, m, hm, ?_, ?_⟩
  · unfold PNode.get_parameter
    rw [hp, find?_map_param_self, hf]
    rfl
  · rw [hp]
    show ((n.parameters.map (fun q => if q.1 == name then (q.1, { q.2 with value := v }) else q)).find?
      (fun p => p.1 == name)).map (fun p => p.2.range) = some pr.2.range
    rw [find?_map_param_self, hf]
    rfl

/-- Witness for `set_parameter_stores_any_value`: the out-of-range 99 is
stored for `mode` while the declared range (0, 3) is kept. -/
theorem set_parameter_stores_any_value_witness :
    (gC4.set_parameter 0 "mode" (PValue.int 99)).1 = true ∧
    ∃ m, (gC4.set_parameter 0 "mode" (PValue.int 99)).2.lookup 0 = some m ∧
      m.get_parameter "mode" = some (PValue.int 99) ∧
      (m.parameters.find? (fun p => p.1 == "mode")).map (fun p => p.2.range) =
        some (some (0, 3)) := by
  exact set_parameter_stores_any_value (by unfold NodupKeys; decide) 0 "mode" (PValue.int 99)
    { name := "Color Convert", inputs := [], outputs := [1],
      parameters := [("mode", { ptype := "int", value := PValue.int 0, range := some (0, 3), step := some 1 })],
      cached_data := none, is_dirty := true }
    ("mode", { ptype := "int", value := PValue.int 0, range := some (0, 3), step := some 1 })
    (by decide) (by decide) (by decide)

/-! ### C5: the worker and exception surfacing -/

/-- Events emitted by `GraphExecutionWorker` (worker.py lines 10-12):
`progress_update`, `result_ready` and `error_occurred`. -/
inductive WEvent where
  | progress (message detail : String) (percent : Nat)
  | result (v : Option Artifact)
  | error (msg : String)
deriving DecidableEq, Repr

def WEvent.isError : WEvent → Bool
  | WEvent.error _ => true
  | _ => false

/-- `GraphExecutionWorker._get_execution_order` (worker.py lines 62-81),
fuel-indexed, with the mutable `visited` set threaded through; returns the
order list (node ids) and the final visited set. -/
def execOrderAux (g : Graph) : Nat → Nat → List Nat → List Nat × List Nat
  | 0, _, visited => ([], visited)
  | fuel + 1, id, visited =>
    if id ∈ visited then ([], visited)
    else
      match g.lookup id with
      | none => ([], id :: visited)
      | some n =>
        let r := n.inputs.foldl
          (fun (acc : List Nat × List Nat) i =>
            let e := execOrderAux g fuel i acc.2
            (acc.1 ++ e.1, e.2))
          ([], id :: visited)
        if n.is_dirty = true ∨ n.cached_data = none then (r.1 ++ [id], r.2)
        else r

/-- The worker's main loop (worker.py lines 38-50): one `progress_update` per
node followed by `node.execute()`; `is_running` stays true throughout. -/
def workerSteps (proc : ProcFn) (fuel total : Nat) : List Nat → Nat → Graph → List WEvent × Graph
  | [], _, g => ([], g)
  | id :: rest, i, g =>
    (WEvent.progress
        ("Executing " ++ (match g.lookup id with | some n => n.name | none => "") ++ "...")
        ("Step " ++ toString (i + 1) ++ " of " ++ toString total)
        ((i * 100) / total) ::
      (workerSteps proc fuel total rest (i + 1) (executeAux proc fuel g id).2.1).1,
     (workerSteps proc fuel total rest (i + 1) (executeAux proc fuel g id).2.1).2)

/-- `GraphExecutionWorker.run` (worker.py lines 20-60) with `is_running`
true.  The `except` branch at lines 58-60 is unreachable once the target
exists, because `Node.execute` swallows process exceptions internally
(lines 65-67 of node_graph.py): the run always ends with `result_ready`. -/
def workerRun (g : Graph) (proc : ProcFn) (fuel : Nat) (target : Nat) :
    List WEvent × Graph :=
  match g.lookup target with
  | none => ([WEvent.error ("Node not found: " ++ toString target)], g)
  | some tn =>
    if (execOrderAux g fuel target []).1.length = 0 then
      ([WEvent.progress "Using cached results..." "" 100, WEvent.result tn.cached_data], g)
    else
      ((workerSteps proc fuel (execOrderAux g fuel target []).1.length
          (execOrderAux g fuel target []).1 0 g).1 ++
        [WEvent.progress "Complete" "" 100,
         WEvent.result
           (match (workerSteps proc fuel (execOrderAux g fuel target []).1.length
               (execOrderAux g fuel target []).1 0 g).2.lookup target with
             | some tn2 => tn2.cached_data
             | none => none)],
       (workerSteps proc fuel (execOrderAux g fuel target []).1.length
         (execOrderAux g fuel target []).1 0 g).2)

theorem workerSteps_no_error (proc : ProcFn) (fuel total : Nat) :
    ∀ (order : List Nat) (i : Nat) (g : Graph),
      ((workerSteps proc fuel total order i g).1.any WEvent.isError) = false := by
  intro order
  induction order with
  | nil =>
    intro i g
    rfl
  | cons id rest ih =>
    intro i g
    show ((WEvent.progress _ _ _ ::
      (workerSteps proc fuel total rest (i + 1) (executeAux proc fuel g id).2.1).1).any
        WEvent.isError) = false
    rw [List.any_cons, ih]
    rfl

theorem getLast?_append_pair {α : Type} (l : List α) (a b : α) :
    (l ++ [a, b]).getLast? = some b := by
  rw [show l ++ [a, b] = (l ++ [a]) ++ [b] by simp]
  exact List.getLast?_concat _

/-- C5 counterexample: node 0 ("A") is executed and its process raises
(`procBad`).  The failed node correctly keeps `dirty = true` with an empty
cache, but the worker run emits NO error event: `Node.execute` swallows the
exception (lines 65-67), so the run's `except` branch never fires and the
caller receives an ordinary `result_ready(None)` as the terminal event — the
failure is silently swallowed instead of being surfaced. -/
theorem processing_failure_swallowed :
    Reachable gAB ∧
    (workerRun gAB procBad 2 0).1 =
      [WEvent.progress "Executing A..." "Step 1 of 1" 0,
       WEvent.progress "Complete" "" 100,
       WEvent.result none] ∧
    ((workerRun gAB procBad 2 0).1.any WEvent.isError) = false ∧
    ((workerRun gAB procBad 2 0).2.lookup 0).map PNode.is_dirty = some true ∧
    ((workerRun gAB procBad 2 0).2.lookup 0).map PNode.cached_data = some none := by
  refine ⟨?_, by decide, by decide, by decide, by decide⟩
  exact Reachable.add_node _ _ _ (Reachable.add_node _ _ _ Reachable.empty)

/-- C5 (amended): whenever the target node exists, a worker run emits no
`error_occurred` event at all — process failures are swallowed inside
`Node.execute` — and the terminal event is always a plain `result_ready`
(whose payload may be None after a failure).  The failing node itself keeps
`dirty = true` and an empty cache, as the counterexample state shows. -/
theorem worker_never_surfaces_failure {g : Graph} (proc : ProcFn) (fuel : Nat)
    (target : Nat) {tn : PNode} (h : g.lookup target = some tn) :
    ((workerRun g proc fuel target).1.any WEvent.isError) = false ∧
    ∃ v, ((workerRun g proc fuel target).1).getLast? = some (WEvent.result v) := by
  unfold workerRun
  simp only [h]
  by_cases hz : (execOrderAux g fuel target []).1.length = 0
  · rw [if_pos hz]
    exact ⟨rfl, ⟨tn.cached_data, rfl⟩⟩
  · rw [if_neg hz]
    constructor
    · rw [List.any_append, workerSteps_no_error]
      rfl
    · exact ⟨_, getLast?_append_pair _ _ _⟩

/-- Witness for `worker_never_surfaces_failure` at a run whose single
executed node fails. -/
theorem worker_never_surfaces_failure_witness :
    ((workerRun gAB procBad 2 0).1.any WEvent.isError) = false ∧
    ∃ v, ((workerRun gAB procBad 2 0).1).getLast? = some (WEvent.result v) :=
  worker_never_surfaces_failure procBad 2 0
    (show gAB.lookup 0 = some (mkNode "A" []) by decide)

/-! ### C9: the batch worker -/

/-- Signals of `BatchProcessingWorker` (batch_worker.py lines 19-22) plus the
per-item catch's log line (line 77). -/
inductive BEvent where
  | progress (current total : Nat) (filename : String)
  | completed (outputPath : String) (result : Artifact)
  | finished
  | error (msg : String)
  | logError (filename : String)
deriving DecidableEq, Repr

/-- `Path(p).name`: the component after the last slash. -/
def pathName (p : String) : String :=
  match (p.splitOn "/").getLast? with
  | some s => s
  | none => p

/-- `Path(p).stem`: the name with its last extension removed. -/
def pathStem (p : String) : String :=
  match (pathName p).splitOn "." with
  | [] => pathName p
  | [s] => s
  | parts => String.intercalate "." parts.dropLast

/-- `Path(p).suffix`: the last extension including the dot, or empty. -/
def pathSuffix (p : String) : String :=
  match (pathName p).splitOn "." with
  | [] => ""
  | [_] => ""
  | parts =>
    "." ++ (match parts.getLast? with
      | some s => s
      | none => "")

/-- The duplicate-name disambiguation loop (batch_worker.py lines 61-65):
`os.path.exists` is the membership test against the paths written so far. -/
def freshNameAux (written : List String) (folder stem suffix : String) :
    Nat → Nat → String
  | 0, counter => folder ++ "/" ++ stem ++ "_processed_" ++ toString counter ++ suffix
  | fuel + 1, counter =>
    if (folder ++ "/" ++ stem ++ "_processed_" ++ toString counter ++ suffix) ∈ written then
      freshNameAux written folder stem suffix fuel (counter + 1)
    else folder ++ "/" ++ stem ++ "_processed_" ++ toString counter ++ suffix

/-- Output path generation (batch_worker.py lines 54-65). -/
def outputPathFor (written : List String) (folder p : String) : String :=
  if (folder ++ "/" ++ pathStem p ++ "_processed" ++
      (if pathSuffix p = "" then ".png" else pathSuffix p)) ∈ written then
    freshNameAux written folder (pathStem p)
      (if pathSuffix p = "" then ".png" else pathSuffix p) (written.length + 1) 1
  else
    folder ++ "/" ++ pathStem p ++ "_processed" ++
      (if pathSuffix p = "" then ".png" else pathSuffix p)

/-- The batch loop (batch_worker.py lines 43-80).  `procItem i` abstracts
`_process_single_image` on item `i` (its body depends on
`recreate_from_workflow`, which is absent from the sources — see C7):
`error` models a raised exception (caught and logged at lines 76-78),
`ok none` a None result (silently skipped), `ok (some a)` a produced image
that is written and emitted.  `stopped i` is the value of `not _is_running`
at the top-of-iteration poll (line 44) for item `i`.  The written-outputs
list is the state of the output folder. -/
def batchLoop (folder : String) (procItem : Nat → Except Unit (Option Artifact))
    (stopped : Nat → Bool) (total : Nat) :
    List String → Nat → List (String × Artifact) → List BEvent × List (String × Artifact)
  | [], _, written => ([BEvent.finished], written)
  | p :: rest, idx, written =>
    if stopped idx then ([BEvent.finished], written)
    else
      match procItem idx with
      | Except.error _ =>
        ((BEvent.progress (idx + 1) total (pathName p)) :: BEvent.logError (pathName p) ::
          (batchLoop folder procItem stopped total rest (idx + 1) written).1,
         (batchLoop folder procItem stopped total rest (idx + 1) written).2)
      | Except.ok none =>
        ((BEvent.progress (idx + 1) total (pathName p)) ::
          (batchLoop folder procItem stopped total rest (idx + 1) written).1,
         (batchLoop folder procItem stopped total rest (idx + 1) written).2)
      | Except.ok (some a) =>
        ((BEvent.progress (idx + 1) total (pathName p)) ::
          BEvent.completed (outputPathFor (written.map (fun w => w.1)) folder p) a ::
          (batchLoop folder procItem stopped total rest (idx + 1)
            (written ++ [(outputPathFor (written.map (fun w => w.1)) folder p, a)])).1,
         (batchLoop folder procItem stopped total rest (idx + 1)
           (written ++ [(outputPathFor (written.map (fun w => w.1)) folder p, a)])).2)

/-- `BatchProcessingWorker.run` (batch_worker.py lines 36-83) with an
initially empty output folder. -/
def batchRun (items : List String) (folder : String)
    (procItem : Nat → Except Unit (Option Artifact)) (stopped : Nat → Bool) :
    List BEvent × List (String × Artifact) :=
  batchLoop folder procItem stopped items.length items 0 []

/-- Outputs written earlier persist: the loop only appends. -/
theorem batchLoop_written_extends (folder : String)
    (procItem : Nat → Except Unit (Option Artifact)) (stopped : Nat → Bool)
    (total : Nat) :
    ∀ (rest : List String) (idx : Nat) (written : List (String × Artifact)),
      ∃ extra, (batchLoop folder procItem stopped total rest idx written).2 =
        written ++ extra := by
  intro rest
  induction rest with
  | nil =>
    intro idx written
    exact ⟨[], (List.append_nil written).symm⟩
  | cons p rest ih =>
    intro idx written
    show ∃ extra, (batchLoop folder procItem stopped total (p :: rest) idx written).2 =
      written ++ extra
    unfold batchLoop
    by_cases hs : stopped idx
    · rw [if_pos hs]
      exact ⟨[], (List.append_nil written).symm⟩
    · rw [if_neg hs]
      rcases hp : procItem idx with e | v
      · simp only []
        exact ih (idx + 1) written
      · rcases v with _ | a
        · simp only []
          exact ih (idx + 1) written
        · simp only []
          obtain ⟨extra, hex⟩ := ih (idx + 1)
            (written ++ [(outputPathFor (written.map (fun w => w.1)) folder p, a)])
          refine ⟨(outputPathFor (written.map (fun w => w.1)) folder p, a) :: extra, ?_⟩
          rw [hex, List.append_assoc]
          rfl

theorem getLast?_cons_of_getLast? {α : Type} (a : α) {l : List α} {x : α}
    (h : l.getLast? = some x) : (a :: l).getLast? = some x := by
  cases l with
  | nil => cases h
  | cons b t =>
    rw [List.getLast?_cons_cons]
    exact h

/-- `finished` is always the terminal event of the loop. -/
theorem batchLoop_finished_last (folder : String)
    (procItem : Nat → Except Unit (Option Artifact)) (stopped : Nat → Bool)
    (total : Nat) :
    ∀ (rest : List String) (idx : Nat) (written : List (String × Artifact)),
      (batchLoop folder procItem stopped total rest idx written).1.getLast? =
        some BEvent.finished := by
  intro rest
  induction rest with
  | nil =>
    intro idx written
    rfl
  | cons p rest ih =>
    intro idx written
    unfold batchLoop
    by_cases hs : stopped idx
    · rw [if_pos hs]
      rfl
    · rw [if_neg hs]
      rcases hp : procItem idx with e | v
      · simp only []
        exact getLast?_cons_of_getLast? _ (getLast?_cons_of_getLast? _ (ih (idx + 1) written))
      · rcases v with _ | a
        · simp only []
          exact getLast?_cons_of_getLast? _ (ih (idx + 1) written)
        · simp only []
          exact getLast?_cons_of_getLast? _ (getLast?_cons_of_getLast? _ (ih (idx + 1) _))

/-- Once the stop flag is observed at the poll for item `idx + k`, no item
with a higher 1-based index ever gets a `progress` event: the run stops
starting new items. -/
theorem batchLoop_stop_no_new (folder : String)
    (procItem : Nat → Except Unit (Option Artifact)) (stopped : Nat → Bool)
    (total : Nat) :
    ∀ (rest : List String) (idx : Nat) (written : List (String × Artifact)) (k : Nat),
      stopped (idx + k) = true →
      ∀ c f, idx + k + 1 ≤ c →
        BEvent.progress c total f ∉ (batchLoop folder procItem stopped total rest idx written).1 := by
  intro rest
  induction rest with
  | nil =>
    intro idx written k hst c f hc hmem
    rcases List.mem_singleton.mp hmem with h
    cases h
  | cons p rest ih =>
    intro idx written k hst c f hc hmem
    rw [show batchLoop folder procItem stopped total (p :: rest) idx written =
      (if stopped idx then ([BEvent.finished], written)
      else
        match procItem idx with
        | Except.error _ =>
          ((BEvent.progress (idx + 1) total (pathName p)) :: BEvent.logError (pathName p) ::
            (batchLoop folder procItem stopped total rest (idx + 1) written).1,
           (batchLoop folder procItem stopped total rest (idx + 1) written).2)
        | Except.ok none =>
          ((BEvent.progress (idx + 1) total (pathName p)) ::
            (batchLoop folder procItem stopped total rest (idx + 1) written).1,
           (batchLoop folder procItem stopped total rest (idx + 1) written).2)
        | Except.ok (some a) =>
          ((BEvent.progress (idx + 1) total (pathName p)) ::
            BEvent.completed (outputPathFor (written.map (fun w => w.1)) folder p) a ::
            (batchLoop folder procItem stopped total rest (idx + 1)
              (written ++ [(outputPathFor (written.map (fun w => w.1)) folder p, a)])).1,
           (batchLoop folder procItem stopped total rest (idx + 1)
             (written ++ [(outputPathFor (written.map (fun w => w.1)) folder p, a)])).2)) from rfl] at hmem
    by_cases hs : stopped idx
    · rw [if_pos hs] at hmem
      rcases List.mem_singleton.mp hmem with h
      cases h
    · rw [if_neg hs] at hmem
      have hk : k ≠ 0 := by
        intro h0
        rw [h0, Nat.add_zero] at hst
        exact hs hst
      obtain ⟨k', rfl⟩ : ∃ k', k = k' + 1 := ⟨k - 1, by omega⟩
      have hst' : stopped ((idx + 1) + k') = true := by
        rw [show (idx + 1) + k' = idx + (k' + 1) by omega]
        exact hst
      have hc' : (idx + 1) + k' + 1 ≤ c := by omega
      have hne : BEvent.progress c total f ≠ BEvent.progress (idx + 1) total (pathName p) := by
        intro h
        have : c = idx + 1 := by
          cases h
          rfl
        omega
      rcases hp : procItem idx with e | v
      · rw [hp] at hmem
        rcases List.mem_cons.mp hmem with h | h
        · exact hne h
        · rcases List.mem_cons.mp h with h2 | h2
          · cases h2
          · exact ih (idx + 1) written k' hst' c f hc' h2
      · rcases v with _ | a
        · rw [hp] at hmem
          rcases List.mem_cons.mp hmem with h | h
          · exact hne h
          · exact ih (idx + 1) written k' hst' c f hc' h
        · rw [hp] at hmem
          rcases List.mem_cons.mp hmem with h | h
          · exact hne h
          · rcases List.mem_cons.mp h with h2 | h2
            · cases h2
            · exact ih (idx + 1) _ k' hst' c f hc' h2

theorem batchLoop_cons (folder : String) (procItem : Nat → Except Unit (Option Artifact))
    (stopped : Nat → Bool) (total : Nat) (p : String) (rest : List String) (idx : Nat)
    (written : List (String × Artifact)) :
    batchLoop folder procItem stopped total (p :: rest) idx written =
      (if stopped idx then ([BEvent.finished], written)
      else
        match procItem idx with
        | Except.error _ =>
          ((BEvent.progress (idx + 1) total (pathName p)) :: BEvent.logError (pathName p) ::
            (batchLoop folder procItem stopped total rest (idx + 1) written).1,
           (batchLoop folder procItem stopped total rest (idx + 1) written).2)
        | Except.ok none =>
          ((BEvent.progress (idx + 1) total (pathName p)) ::
            (batchLoop folder procItem stopped total rest (idx + 1) written).1,
           (batchLoop folder procItem stopped total rest (idx + 1) written).2)
        | Except.ok (some a) =>
          ((BEvent.progress (idx + 1) total (pathName p)) ::
            BEvent.completed (outputPathFor (written.map (fun w => w.1)) folder p) a ::
            (batchLoop folder procItem stopped total rest (idx + 1)
              (written ++ [(outputPathFor (written.map (fun w => w.1)) folder p, a)])).1,
           (batchLoop folder procItem stopped total rest (idx + 1)
             (written ++ [(outputPathFor (written.map (fun w => w.1)) folder p, a)])).2)) := rfl

/-- Per-item behavior while the stop flag has not been observed: every item
gets its `progress` event regardless of other items' failures; a raising item
is logged; a successful item's output is emitted and retained in the final
written set. -/
theorem batchLoop_item_events (folder : String)
    (procItem : Nat → Except Unit (Option Artifact)) (stopped : Nat → Bool)
    (total : Nat) :
    ∀ (rest : List String) (idx : Nat) (written : List (String × Artifact))
      (k : Nat) (hk : k < rest.length),
      (∀ j, idx ≤ j → j ≤ idx + k → stopped j = false) →
      (BEvent.progress (idx + k + 1) total (pathName (rest.get ⟨k, hk⟩)) ∈
        (batchLoop folder procItem stopped total rest idx written).1) ∧
      (procItem (idx + k) = Except.error () →
        BEvent.logError (pathName (rest.get ⟨k, hk⟩)) ∈
          (batchLoop folder procItem stopped total rest idx written).1) ∧
      (∀ a, procItem (idx + k) = Except.ok (some a) →
        ∃ out, BEvent.completed out a ∈
            (batchLoop folder procItem stopped total rest idx written).1 ∧
          (out, a) ∈ (batchLoop folder procItem stopped total rest idx written).2) := by
  intro rest
  induction rest with
  | nil =>
    intro idx written k hk
    exact absurd hk (Nat.not_lt_zero k)
  | cons p rest ih =>
    intro idx written k hk hstop
    have hs : stopped idx = false := hstop idx (Nat.le_refl idx) (Nat.le_add_right idx k)
    have hs' : ¬ stopped idx = true := by
      rw [hs]
      exact Bool.false_ne_true
    rw [batchLoop_cons, if_neg hs']
    cases k with
    | zero =>
      rw [Nat.add_zero idx]
      rcases hp : procItem idx with e | v
      · simp only [hp]
        refine ⟨List.mem_cons.mpr (Or.inl rfl),
          fun _ => List.mem_cons.mpr (Or.inr (List.mem_cons.mpr (Or.inl rfl))),
          fun a ha => ?_⟩
        cases ha
      · rcases v with _ | a0
        · simp only [hp]
          refine ⟨List.mem_cons.mpr (Or.inl rfl), fun herr => ?_, fun a ha => ?_⟩
          · cases herr
          · simp at ha
        · simp only [hp]
          refine ⟨List.mem_cons.mpr (Or.inl rfl), fun herr => ?_, fun a ha => ?_⟩
          · cases herr
          · have haa : a0 = a := Option.some.inj (Except.ok.inj ha)
            cases haa
            obtain ⟨extra, hex⟩ := batchLoop_written_extends folder procItem stopped total
              rest (idx + 1) (written ++ [(outputPathFor (written.map (fun w => w.1)) folder p, a0)])
            refine ⟨outputPathFor (written.map (fun w => w.1)) folder p,
              List.mem_cons.mpr (Or.inr (List.mem_cons.mpr (Or.inl rfl))), ?_⟩
            rw [hex]
            exact List.mem_append.mpr (Or.inl (List.mem_append.mpr
              (Or.inr (List.mem_singleton.mpr rfl))))
    | succ k' =>
      have hk' : k' < rest.length := by
        have := hk
        simp only [List.length_cons] at this
        omega
      have heq : idx + (k' + 1) = (idx + 1) + k' := by omega
      rw [heq]
      have hstop' : ∀ j, idx + 1 ≤ j → j ≤ (idx + 1) + k' → stopped j = false := by
        intro j h1 h2
        exact hstop j (by omega) (by omega)
      rcases hp : procItem idx with e | v
      · simp only [hp]
        obtain ⟨ih1, ih2, ih3⟩ := ih (idx + 1) written k' hk' hstop'
        refine ⟨List.mem_cons.mpr (Or.inr (List.mem_cons.mpr (Or.inr ih1))),
          fun herr => List.mem_cons.mpr (Or.inr (List.mem_cons.mpr (Or.inr (ih2 herr)))),
          fun a ha => ?_⟩
        obtain ⟨out, hm1, hm2⟩ := ih3 a ha
        exact ⟨out, List.mem_cons.mpr (Or.inr (List.mem_cons.mpr (Or.inr hm1))), hm2⟩
      · rcases v with _ | a0
        · simp only [hp]
          obtain ⟨ih1, ih2, ih3⟩ := ih (idx + 1) written k' hk' hstop'
          refine ⟨List.mem_cons.mpr (Or.inr ih1),
            fun herr => List.mem_cons.mpr (Or.inr (ih2 herr)),
            fun a ha => ?_⟩
          obtain ⟨out, hm1, hm2⟩ := ih3 a ha
          exact ⟨out, List.mem_cons.mpr (Or.inr hm1), hm2⟩
        · simp only [hp]
          obtain ⟨ih1, ih2, ih3⟩ := ih (idx + 1)
            (written ++ [(outputPathFor (written.map (fun w => w.1)) folder p, a0)]) k' hk' hstop'
          refine ⟨List.mem_cons.mpr (Or.inr (List.mem_cons.mpr (Or.inr ih1))),
            fun herr => List.mem_cons.mpr (Or.inr (List.mem_cons.mpr (Or.inr (ih2 herr)))),
            fun a ha => ?_⟩
          obtain ⟨out, hm1, hm2⟩ := ih3 a ha
          exact ⟨out, List.mem_cons.mpr (Or.inr (List.mem_cons.mpr (Or.inr hm1))), hm2⟩

/-- C9: in every batch run, (1) `finished` is the terminal event; (2) as long
as the stop flag has not been observed up to item `i`, item `i` always gets
its `progress` event — failures of ANY other items (arbitrary `procItem`) do
not prevent it — a raising item is caught and logged, and a successful item's
output is emitted and retained in the final written set; (3) the stop flag is
polled only between items: once it is true at the poll for item `k`, no item
with 1-based index beyond `k` is started, while everything already produced
is retained by (2). -/
theorem batch_run_isolates_failures_and_stops_cooperatively
    (items : List String) (folder : String)
    (procItem : Nat → Except Unit (Option Artifact)) (stopped : Nat → Bool) :
    (batchRun items folder procItem stopped).1.getLast? = some BEvent.finished ∧
    (∀ i, ∀ hi : i < items.length, (∀ j, j ≤ i → stopped j = false) →
      BEvent.progress (i + 1) items.length (pathName (items.get ⟨i, hi⟩)) ∈
          (batchRun items folder procItem stopped).1 ∧
        (procItem i = Except.error () →
          BEvent.logError (pathName (items.get ⟨i, hi⟩)) ∈
            (batchRun items folder procItem stopped).1) ∧
        (∀ a, procItem i = Except.ok (some a) →
          ∃ out, BEvent.completed out a ∈ (batchRun items folder procItem stopped).1 ∧
            (out, a) ∈ (batchRun items folder procItem stopped).2)) ∧
    (∀ k c f, stopped k = true → k + 1 ≤ c →
      BEvent.progress c items.length f ∉ (batchRun items folder procItem stopped).1) := by
  unfold batchRun
  refine ⟨batchLoop_finished_last folder procItem stopped items.length items 0 [], ?_, ?_⟩
  · intro i hi hstop
    have h := batchLoop_item_events folder procItem stopped items.length items 0 [] i hi
      (fun j _ h2 => hstop j (by omega))
    rw [Nat.zero_add] at h
    exact h
  · intro k c f hst hc
    refine batchLoop_stop_no_new folder procItem stopped items.length items 0 [] k ?_ c f ?_
    · rw [Nat.zero_add]
      exact hst
    · omega

/-- Concrete item oracle for the witness scenario: item 1 (the second of
three) raises, the others succeed. -/
def procItem9 : Nat → Except Unit (Option Artifact) :=
  fun i => if i = 1 then Except.error () else Except.ok (some (i + 10))

/-- Witness for `batch_run_isolates_failures_and_stops_cooperatively` on the
three-item scenario with the middle item failing: the run still finishes,
the failure is logged, and the third item's output is produced and kept. -/
theorem batch_run_witness :
    (batchRun ["in/a.png", "in/b.png", "in/c.png"] "out" procItem9 (fun _ => false)).1.getLast? =
      some BEvent.finished ∧
    BEvent.logError (pathName "in/b.png") ∈
      (batchRun ["in/a.png", "in/b.png", "in/c.png"] "out" procItem9 (fun _ => false)).1 ∧
    ∃ out, BEvent.completed out 12 ∈
        (batchRun ["in/a.png", "in/b.png", "in/c.png"] "out" procItem9 (fun _ => false)).1 ∧
      (out, 12) ∈ (batchRun ["in/a.png", "in/b.png", "in/c.png"] "out" procItem9 (fun _ => false)).2 := by
  have h := batch_run_isolates_failures_and_stops_cooperatively
    ["in/a.png", "in/b.png", "in/c.png"] "out" procItem9 (fun _ => false)
  refine ⟨h.1, ?_, ?_⟩
  · exact (h.2.1 1 (by decide) (fun j _ => rfl)).2.1 rfl
  · exact (h.2.1 2 (by decide) (fun j _ => rfl)).2.2 12 rfl

/-! ### C7: workflow serialization and recreation -/

/-- One node snapshot of the workflow document (`save_workflow` lines 74-89;
position/size/metadata are presentation data opaque to the engine and are
omitted). -/
structure NodeSnap where
  id : Nat
  type : String
  parameters : List (String × Param)
deriving DecidableEq, Repr

/-- One edge snapshot (`save_workflow` lines 100-105). -/
structure EdgeSnap where
  from_node : Nat
  to_node : Nat
deriving DecidableEq, Repr

/-- The engine-relevant part of the workflow document (`save_workflow`
lines 45-60). -/
structure WorkflowDoc where
  nodes : List NodeSnap
  connections : List EdgeSnap
  input_node_ids : List Nat
  output_node_id : Option Nat
deriving DecidableEq, Repr

def snapOfNode (p : Nat × PNode) : NodeSnap :=
  { id := p.1, type := p.2.name, parameters := p.2.parameters }

/-- `WorkflowManager.save_workflow` (workflow_manager.py lines 45-105), the
graph-content part: node snapshots in insertion order with copied parameter
dicts, connection snapshots grouped per destination node in its inputs
order, and the execution hints (every "Input"-named node; the last
"Output"-named node wins at line 97). -/
def serializeGraph (g : Graph) : WorkflowDoc :=
  { nodes := g.nodes.map snapOfNode,
    connections := g.nodes.bind (fun p => p.2.inputs.map (fun i => EdgeSnap.mk i p.1)),
    input_node_ids := (g.nodes.filter (fun p => p.2.name == "Input")).map (fun p => p.1),
    output_node_id := ((g.nodes.filter (fun p => p.2.name == "Output")).getLast?).map
      (fun p => p.1) }

/-- The `NODE_TYPES` registry: a type name resolves to the default parameter
list of the node class constructed under that name (each registered class
passes its registered type name and its default parameter dict to
`Node.__init__`). -/
abbrev Registry := String → Option (List (String × Param))

/-- Modelled from the spec: restoring saved parameter values onto a freshly
constructed node — each default parameter keeps its descriptor and takes the
saved value when the snapshot has one under the same name (spec 4.6:
"construct via registry, restore parameter values"). -/
def restoreParams (registry : Registry) (s : NodeSnap) : List (String × Param) :=
  match registry s.type with
  | none => []
  | some ds => ds.map (fun q =>
      match s.parameters.find? (fun p => p.1 == q.1) with
      | some p => (q.1, { q.2 with value := p.2.value })
      | none => q)

/-- Modelled from the spec: the node-recreation pass of
`recreate_from_workflow` (spec 4.6) — for each node snapshot, construct the
node via the registry (an unknown type is skipped, not fatal), restore the
saved parameter values, and record the old-id→new-id pair.  Freshly
constructed nodes start dirty with an empty cache (`Node.__init__`). -/
def recreateNodes (registry : Registry) :
    List NodeSnap → Graph → List (Nat × Nat) → Graph × List (Nat × Nat)
  | [], g, acc => (g, acc)
  | s :: rest, g, acc =>
    match registry s.type with
    | none => recreateNodes registry rest g acc
    | some _ => recreateNodes registry rest (g.add_node s.type (restoreParams registry s)).1
        (acc ++ [(s.id, g.nextId)])

/-- The id-remapping table as a function. -/
def remapLookup (m : List (Nat × Nat)) (x : Nat) : Option Nat :=
  (m.find? (fun p => p.1 == x)).map (fun p => p.2)

/-- Modelled from the spec: the edge-recreation pass of
`recreate_from_workflow` (spec 4.6) — each edge snapshot is translated
through the remap and `connect` is called; an unresolvable reference is
skipped, not fatal. -/
def recreateEdges (m : List (Nat × Nat)) : List EdgeSnap → Graph → Graph
  | [], h => h
  | e :: rest, h =>
    match remapLookup m e.from_node, remapLookup m e.to_node with
    | some yf, some yt => recreateEdges m rest (h.connect yf yt).2
    | _, _ => recreateEdges m rest h

/-- Modelled from the spec: `NodeGraph.recreate_from_workflow(doc, registry)
→ id_remap` (spec 4.6).  This method is called from batch_worker.py line 94
and editor_page.py line 203 but is absent from the sources under src/. -/
def Graph.recreate_from_workflow (g : Graph) (doc : WorkflowDoc) (registry : Registry) :
    Graph × List (Nat × Nat) :=
  ((recreateEdges (recreateNodes registry doc.nodes g []).2 doc.connections
      (recreateNodes registry doc.nodes g []).1),
   (recreateNodes registry doc.nodes g []).2)

/-- The nodes appended by the recreation pass, with their fresh sequential
ids starting at `base`. -/
def newNodes (registry : Registry) : List (Nat × PNode) → Nat → List (Nat × PNode)
  | [], _ => []
  | p :: rest, base =>
    (base, mkNode p.2.name (restoreParams registry (snapOfNode p))) ::
      newNodes registry rest (base + 1)

/-- The remap pairs produced by the recreation pass. -/
def newRemap : List (Nat × PNode) → Nat → List (Nat × Nat)
  | [], _ => []
  | p :: rest, base => (p.1, base) :: newRemap rest (base + 1)

theorem recreateNodes_cons (registry : Registry) (s : NodeSnap) (rest : List NodeSnap)
    (g : Graph) (acc : List (Nat × Nat)) :
    recreateNodes registry (s :: rest) g acc =
      match registry s.type with
      | none => recreateNodes registry rest g acc
      | some _ => recreateNodes registry rest
          (g.add_node s.type (restoreParams registry s)).1 (acc ++ [(s.id, g.nextId)]) := rfl

/-- Shape of the node-recreation pass when every type is registered. -/
theorem recreateNodes_shape (registry : Registry) :
    ∀ (ns : List (Nat × PNode)) (g : Graph) (acc : List (Nat × Nat)),
      (∀ p ∈ ns, (registry p.2.name).isSome = true) →
      recreateNodes registry (ns.map snapOfNode) g acc =
        ({ nodes := g.nodes ++ newNodes registry ns g.nextId,
           nextId := g.nextId + ns.length },
         acc ++ newRemap ns g.nextId) := by
  intro ns
  induction ns with
  | nil =>
    intro g acc hr
    show (g, acc) = _
    rw [show newNodes registry [] g.nextId = [] from rfl,
      show newRemap [] g.nextId = [] from rfl,
      List.append_nil, List.append_nil]
    show (g, acc) = ({ nodes := g.nodes, nextId := g.nextId }, acc)
    rfl
  | cons p rest ih =>
    intro g acc hr
    rw [List.map_cons, recreateNodes_cons]
    rcases hreg : registry (snapOfNode p).type with _ | ds
    · exfalso
      have h1 := hr p (List.mem_cons_self p rest)
      rw [show registry p.2.name = registry (snapOfNode p).type from rfl, hreg] at h1
      cases h1
    · show recreateNodes registry (List.map snapOfNode rest)
        (g.add_node (snapOfNode p).type (restoreParams registry (snapOfNode p))).1
        (acc ++ [((snapOfNode p).id, g.nextId)]) = _
      rw [ih (g.add_node (snapOfNode p).type (restoreParams registry (snapOfNode p))).1
        (acc ++ [((snapOfNode p).id, g.nextId)])
        (fun q hq => hr q (List.mem_cons.mpr (Or.inr hq)))]
      rw [show (g.add_node (snapOfNode p).type (restoreParams registry (snapOfNode p))).1.nodes
        = g.nodes ++ [(g.nextId, mkNode p.2.name (restoreParams registry (snapOfNode p)))] from rfl]
      rw [show (g.add_node (snapOfNode p).type (restoreParams registry (snapOfNode p))).1.nextId
        = g.nextId + 1 from rfl]
      rw [show newNodes registry (p :: rest) g.nextId =
        (g.nextId, mkNode p.2.name (restoreParams registry (snapOfNode p))) ::
          newNodes registry rest (g.nextId + 1) from rfl]
      rw [show newRemap (p :: rest) g.nextId = (p.1, g.nextId) :: newRemap rest (g.nextId + 1) from rfl]
      rw [show (snapOfNode p).id = p.1 from rfl]
      rw [List.append_assoc, List.append_assoc]
      rw [List.singleton_append, List.singleton_append]
      rw [show (p :: rest).length = rest.length + 1 from rfl]
      rw [show (g.nextId + 1) + rest.length = g.nextId + (rest.length + 1) from by omega]

/-- `find?` over a key-preserving map. -/
theorem find?_map_keyed (f : String × Param → String × Param)
    (hkey : ∀ q, (f q).1 = q.1) (l : List (String × Param)) (k : String) :
    (l.map f).find? (fun p => p.1 == k) = (l.find? (fun p => p.1 == k)).map f := by
  induction l with
  | nil => rfl
  | cons q l ih =>
    rw [List.map_cons]
    by_cases hq : q.1 = k
    · rw [List.find?_cons_of_pos (l.map f)
          (show ((fun p => (p : String × Param).1 == k) (f q)) = true from by
            show ((f q).1 == k) = true
            rw [hkey q]
            exact beq_iff_eq.mpr hq),
        List.find?_cons_of_pos l (show ((fun p => (p : String × Param).1 == k) q) = true from
          beq_iff_eq.mpr hq)]
      rfl
    · rw [List.find?_cons_of_neg (l.map f)
          (show ¬ ((fun p => (p : String × Param).1 == k) (f q)) = true from by
            show ¬ ((f q).1 == k) = true
            rw [hkey q]
            exact fun hc => hq (beq_iff_eq.mp hc)),
        List.find?_cons_of_neg l (fun hc => hq (beq_iff_eq.mp hc)), ih]

/-- `find?` on a parameter list succeeds exactly for present keys. -/
theorem find?P_isSome_iff (l : List (String × Param)) (k : String) :
    ((l.find? (fun p => p.1 == k)).isSome = true) ↔ k ∈ l.map (fun p => p.1) := by
  induction l with
  | nil => simp
  | cons q l ih =>
    by_cases hq : q.1 = k
    · rw [List.find?_cons_of_pos _ (by simpa using hq)]
      simp [hq]
    · rw [List.find?_cons_of_neg _ (by simpa using hq)]
      rw [List.map_cons, List.mem_cons, ih]
      constructor
      · intro h
        exact Or.inr h
      · intro h
        rcases h with h | h
        · exact absurd h.symm hq
        · exact h

/-- With unique keys, every stored pair is what `find?` returns for its key. -/
theorem find?_of_mem_nodupkeys : ∀ (l : List (Nat × PNode)),
    (l.map (fun p => p.1)).Nodup →
    ∀ p ∈ l, l.find? (fun q => q.1 == p.1) = some p := by
  intro l
  induction l with
  | nil =>
    intro _ p hp
    cases hp
  | cons q rest ih =>
    intro hnd p hp
    rw [List.map_cons, List.nodup_cons] at hnd
    rcases List.mem_cons.mp hp with h | h
    · rw [h]
      exact List.find?_cons_of_pos rest (by simp)
    · have hq : ¬ (q.1 == p.1) = true := by
        intro hc
        have hqe : q.1 = p.1 := beq_iff_eq.mp hc
        exact hnd.1 (hqe ▸ List.mem_map.mpr ⟨p, h, rfl⟩)
      rw [List.find?_cons_of_neg rest hq]
      exact ih hnd.2 p h

/-- With unique keys, membership determines lookup. -/
theorem mem_lookup {g : Graph} (hnd : NodupKeys g) {p : Nat × PNode}
    (hp : p ∈ g.nodes) : g.lookup p.1 = some p.2 := by
  unfold Graph.lookup
  rw [find?_of_mem_nodupkeys g.nodes hnd p hp]
  rfl

theorem lookup_find? {g : Graph} {x : Nat} {n : PNode} (h : g.lookup x = some n) :
    g.nodes.find? (fun p => p.1 == x) = some (x, n) := by
  unfold Graph.lookup at h
  rcases hf : g.nodes.find? (fun p => p.1 == x) with _ | q
  · rw [hf] at h
    cases h
  · rw [hf] at h
    have hq2 : q.2 = n := Option.some.inj h
    have hq1 : q.1 = x := by
      have := List.find?_some hf
      simpa using this
    rw [show (x, n) = q from by
      rw [← hq1, ← hq2]]
    exact hf

theorem find?_pair_cons_pos {β : Type} (a : Nat × β) (l : List (Nat × β)) {x : Nat}
    (h : a.1 = x) : (a :: l).find? (fun p => p.1 == x) = some a :=
  List.find?_cons_of_pos l (by simpa using h)

theorem find?_pair_cons_neg {β : Type} (a : Nat × β) (l : List (Nat × β)) {x : Nat}
    (h : ¬ a.1 = x) : (a :: l).find? (fun p => p.1 == x) = l.find? (fun p => p.1 == x) :=
  List.find?_cons_of_neg l (by simpa using h)

theorem newRemap_find_bounds : ∀ (ns : List (Nat × PNode)) (base x : Nat)
    (q : Nat × Nat), (newRemap ns base).find? (fun p => p.1 == x) = some q →
    base ≤ q.2 ∧ q.2 < base + ns.length := by
  intro ns
  induction ns with
  | nil =>
    intro base x q h
    cases h
  | cons p rest ih =>
    intro base x q h
    rw [show newRemap (p :: rest) base = (p.1, base) :: newRemap rest (base + 1) from rfl] at h
    by_cases hp : p.1 = x
    · rw [find?_pair_cons_pos _ _ (show ((p.1, base) : Nat × Nat).1 = x from hp)] at h
      cases h
      show base ≤ base ∧ base < base + (rest.length + 1)
      omega
    · rw [find?_pair_cons_neg _ _ (show ¬ ((p.1, base) : Nat × Nat).1 = x from hp)] at h
      have := ih (base + 1) x q h
      show base ≤ q.2 ∧ q.2 < base + (rest.length + 1)
      omega

/-- Forward direction: each stored node of the source graph has a remapped
fresh id whose recreated node carries its type and restored parameters. -/
theorem newRemap_newNodes_find (registry : Registry) :
    ∀ (ns : List (Nat × PNode)) (base : Nat) (x : Nat) (n : PNode),
      ns.find? (fun p => p.1 == x) = some (x, n) →
      ∃ y, base ≤ y ∧ y < base + ns.length ∧
        (newRemap ns base).find? (fun p => p.1 == x) = some (x, y) ∧
        (newNodes registry ns base).find? (fun p => p.1 == y) =
          some (y, mkNode n.name (restoreParams registry (snapOfNode (x, n)))) := by
  intro ns
  induction ns with
  | nil =>
    intro base x n h
    cases h
  | cons p rest ih =>
    intro base x n h
    by_cases hp : p.1 = x
    · rw [find?_pair_cons_pos p rest hp] at h
      cases h
      refine ⟨base, Nat.le_refl base, ?_, ?_, ?_⟩
      · show base < base + (rest.length + 1)
        omega
      · rw [show newRemap ((x, n) :: rest) base = ((x, n).1, base) :: newRemap rest (base + 1) from rfl]
        exact find?_pair_cons_pos _ _ rfl
      · rw [show newNodes registry ((x, n) :: rest) base =
          (base, mkNode (x, n).2.name (restoreParams registry (snapOfNode (x, n)))) ::
            newNodes registry rest (base + 1) from rfl]
        exact find?_pair_cons_pos _ _ rfl
    · rw [find?_pair_cons_neg p rest hp] at h
      obtain ⟨y, hy1, hy2, hy3, hy4⟩ := ih (base + 1) x n h
      refine ⟨y, by omega, ?_, ?_, ?_⟩
      · show y < base + (rest.length + 1)
        omega
      · rw [show newRemap (p :: rest) base = (p.1, base) :: newRemap rest (base + 1) from rfl]
        rw [find?_pair_cons_neg _ _ (show ¬ ((p.1, base) : Nat × Nat).1 = x from hp)]
        exact hy3
      · rw [show newNodes registry (p :: rest) base =
          (base, mkNode p.2.name (restoreParams registry (snapOfNode p))) ::
            newNodes registry rest (base + 1) from rfl]
        rw [find?_pair_cons_neg _ _ (show ¬ ((base, mkNode p.2.name
            (restoreParams registry (snapOfNode p))) : Nat × PNode).1 = y from by
          show ¬ base = y
          omega)]
        exact hy4

theorem newRemap_inj : ∀ (ns : List (Nat × PNode)) (base x1 x2 : Nat)
    (q1 q2 : Nat × Nat),
    (newRemap ns base).find? (fun p => p.1 == x1) = some q1 →
    (newRemap ns base).find? (fun p => p.1 == x2) = some q2 →
    q1.2 = q2.2 → x1 = x2 := by
  intro ns
  induction ns with
  | nil =>
    intro base x1 x2 q1 q2 h1
    cases h1
  | cons p rest ih =>
    intro base x1 x2 q1 q2 h1 h2 hq
    rw [show newRemap (p :: rest) base = (p.1, base) :: newRemap rest (base + 1) from rfl] at h1 h2
    by_cases hp1 : p.1 = x1
    · rw [find?_pair_cons_pos _ _ (show ((p.1, base) : Nat × Nat).1 = x1 from hp1)] at h1
      cases h1
      by_cases hp2 : p.1 = x2
      · rw [← hp1, ← hp2]
      · rw [find?_pair_cons_neg _ _ (show ¬ ((p.1, base) : Nat × Nat).1 = x2 from hp2)] at h2
        have := newRemap_find_bounds rest (base + 1) x2 q2 h2
        exfalso
        rw [show ((p.1, base) : Nat × Nat).2 = base from rfl] at hq
        omega
    · rw [find?_pair_cons_neg _ _ (show ¬ ((p.1, base) : Nat × Nat).1 = x1 from hp1)] at h1
      by_cases hp2 : p.1 = x2
      · rw [find?_pair_cons_pos _ _ (show ((p.1, base) : Nat × Nat).1 = x2 from hp2)] at h2
        cases h2
        have := newRemap_find_bounds rest (base + 1) x1 q1 h1
        exfalso
        rw [show ((p.1, base) : Nat × Nat).2 = base from rfl] at hq
        omega
      · rw [find?_pair_cons_neg _ _ (show ¬ ((p.1, base) : Nat × Nat).1 = x2 from hp2)] at h2
        exact ih (base + 1) x1 x2 q1 q2 h1 h2 hq

/-- Inverse direction: every recreated node is the image of a stored node. -/
theorem newNodes_find_inv (registry : Registry) :
    ∀ (ns : List (Nat × PNode)) (base : Nat) (y : Nat) (q : Nat × PNode),
      (ns.map (fun p => p.1)).Nodup →
      (newNodes registry ns base).find? (fun p => p.1 == y) = some q →
      ∃ x n, ns.find? (fun p => p.1 == x) = some (x, n) ∧
        (newRemap ns base).find? (fun p => p.1 == x) = some (x, y) ∧
        q.2 = mkNode n.name (restoreParams registry (snapOfNode (x, n))) := by
  intro ns
  induction ns with
  | nil =>
    intro base y q _ h
    cases h
  | cons p rest ih =>
    intro base y q hnd h
    rw [List.map_cons, List.nodup_cons] at hnd
    rw [show newNodes registry (p :: rest) base =
      (base, mkNode p.2.name (restoreParams registry (snapOfNode p))) ::
        newNodes registry rest (base + 1) from rfl] at h
    by_cases hb : base = y
    · rw [find?_pair_cons_pos _ _ (show ((base, mkNode p.2.name
        (restoreParams registry (snapOfNode p))) : Nat × PNode).1 = y from hb)] at h
      cases h
      refine ⟨p.1, p.2, ?_, ?_, rfl⟩
      · exact find?_pair_cons_pos p rest rfl
      · rw [show newRemap (p :: rest) base = (p.1, base) :: newRemap rest (base + 1) from rfl]
        rw [find?_pair_cons_pos _ _ (show ((p.1, base) : Nat × Nat).1 = p.1 from rfl)]
        rw [hb]
    · rw [find?_pair_cons_neg _ _ (show ¬ ((base, mkNode p.2.name
        (restoreParams registry (snapOfNode p))) : Nat × PNode).1 = y from hb)] at h
      obtain ⟨x, n, hx1, hx2, hx3⟩ := ih (base + 1) y q hnd.2 h
      have hxmem : x ∈ rest.map (fun p => p.1) := by
        have hm := List.mem_of_find?_eq_some hx1
        exact List.mem_map.mpr ⟨(x, n), hm, rfl⟩
      have hpx : ¬ p.1 = x := fun hc => hnd.1 (hc ▸ hxmem)
      refine ⟨x, n, ?_, ?_, hx3⟩
      · rw [find?_pair_cons_neg p rest hpx]
        exact hx1
      · rw [show newRemap (p :: rest) base = (p.1, base) :: newRemap rest (base + 1) from rfl]
        rw [find?_pair_cons_neg _ _ (show ¬ ((p.1, base) : Nat × Nat).1 = x from hpx)]
        exact hx2

/-- Value restoration is exact on parameter values when the default and the
snapshot have the same key list. -/
theorem restore_values (sp ds : List (String × Param))
    (hkeys : ds.map (fun q => q.1) = sp.map (fun q => q.1)) (k : String) :
    ((ds.map (fun q =>
        match sp.find? (fun p => p.1 == q.1) with
        | some p => (q.1, { q.2 with value := p.2.value })
        | none => q)).find? (fun p => p.1 == k)).map (fun p => p.2.value) =
      (sp.find? (fun p => p.1 == k)).map (fun p => p.2.value) := by
  rw [find?_map_keyed _ (fun q => by
    rcases hf : sp.find? (fun p => p.1 == q.1) with _ | pq
    · simp only [hf]
    · simp only [hf])]
  rcases hd : ds.find? (fun p => p.1 == k) with _ | q
  · have hnot : ¬ k ∈ ds.map (fun q => q.1) := by
      intro hmem
      have := (find?P_isSome_iff ds k).mpr hmem
      rw [hd] at this
      cases this
    rw [hkeys] at hnot
    have hsp : sp.find? (fun p => p.1 == k) = none := by
      rcases hf : sp.find? (fun p => p.1 == k) with _ | pq
      · exact hf
      · exfalso
        exact hnot ((find?P_isSome_iff sp k).mp (by rw [hf]; rfl))
    rw [hd, hsp]
    rfl
  · have hq1 : q.1 = k := by
      have := List.find?_some hd
      simpa using this
    have hmem : k ∈ ds.map (fun q => q.1) :=
      (find?P_isSome_iff ds k).mp (by rw [hd]; rfl)
    rw [hkeys] at hmem
    have hspS := (find?P_isSome_iff sp k).mpr hmem
    obtain ⟨pq, hpq⟩ := Option.isSome_iff_exists.mp hspS
    rw [hd, hpq]
    simp only [Option.map_some']
    rw [hq1, hpq]

theorem mem_serialize_connections {g : Graph} (hnd : NodupKeys g) (e : EdgeSnap) :
    e ∈ (serializeGraph g).connections ↔
      ∃ ny, g.lookup e.to_node = some ny ∧ e.from_node ∈ ny.inputs := by
  show e ∈ g.nodes.bind (fun p => p.2.inputs.map (fun i => EdgeSnap.mk i p.1)) ↔ _
  rw [List.mem_bind]
  constructor
  · rintro ⟨p, hp, he⟩
    obtain ⟨i, hi, hie⟩ := List.mem_map.mp he
    refine ⟨p.2, ?_, ?_⟩
    · rw [show e.to_node = p.1 from by rw [← hie]]
      exact mem_lookup hnd hp
    · rw [show e.from_node = i from by rw [← hie]]
      exact hi
  · rintro ⟨ny, hl, hi⟩
    refine ⟨(e.to_node, ny), lookup_mem hl, ?_⟩
    exact List.mem_map.mpr ⟨e.from_node, hi, by cases e; rfl⟩

theorem nodup_bind_edges : ∀ (ns : List (Nat × PNode)),
    (ns.map (fun p => p.1)).Nodup →
    (∀ p ∈ ns, p.2.inputs.Nodup) →
    (ns.bind (fun p => p.2.inputs.map (fun i => EdgeSnap.mk i p.1))).Nodup := by
  intro ns
  induction ns with
  | nil =>
    intro _ _
    exact List.nodup_nil
  | cons p rest ih =>
    intro hnd hin
    rw [List.map_cons, List.nodup_cons] at hnd
    show ((p.2.inputs.map (fun i => EdgeSnap.mk i p.1)) ++
      rest.bind (fun p => p.2.inputs.map (fun i => EdgeSnap.mk i p.1))).Nodup
    rw [List.nodup_append]
    refine ⟨?_, ih hnd.2 (fun q hq => hin q (List.mem_cons.mpr (Or.inr hq))), ?_⟩
    · exact List.Nodup.map (fun a b hab => by cases hab; rfl)
        (hin p (List.mem_cons_self p rest))
    · intro e he1 he2
      obtain ⟨i, hi0, hie⟩ := List.mem_map.mp he1
      obtain ⟨q, hq, heq⟩ := List.mem_bind.mp he2
      obtain ⟨j, hj0, hje⟩ := List.mem_map.mp heq
      have h1 : e.to_node = p.1 := by rw [← hie]
      have h2 : e.to_node = q.1 := by rw [← hje]
      exact hnd.1 (by
        rw [show p.1 = q.1 from h1.symm.trans h2]
        exact List.mem_map.mpr ⟨q, hq, rfl⟩)

theorem serialize_edges_nodup {g : Graph} (hwf : WF g) :
    (serializeGraph g).connections.Nodup := by
  show (g.nodes.bind (fun p => p.2.inputs.map (fun i => EdgeSnap.mk i p.1))).Nodup
  refine nodup_bind_edges g.nodes hwf.nodup ?_
  intro p hp
  exact hwf.nodupIn p.1 p.2 (mem_lookup hwf.nodup hp)

/-- Invariant of the edge-recreation fold: relative to the freshly recreated
node graph `g0`, the working graph `h` has the same node ids, each carrying
its original name and parameters, still dirty with an empty cache, and its
adjacency is exactly the processed edge set `S`. -/
def EdgeFoldInv (g0 h : Graph) (S : Nat → Nat → Prop) : Prop :=
  NodupKeys h ∧
  (∀ y, (h.lookup y).isSome = (g0.lookup y).isSome) ∧
  (∀ y m0, g0.lookup y = some m0 → ∃ mh, h.lookup y = some mh ∧
    mh.name = m0.name ∧ mh.parameters = m0.parameters ∧
    mh.is_dirty = true ∧ mh.cached_data = none ∧ mh.inputs.Nodup ∧
    (∀ z, z ∈ mh.inputs ↔ S z y) ∧ (∀ z, z ∈ mh.outputs ↔ S y z))

theorem edgeFoldInv_equiv {g0 h : Graph} {S T : Nat → Nat → Prop}
    (heq : ∀ a b, S a b ↔ T a b) (hinv : EdgeFoldInv g0 h S) : EdgeFoldInv g0 h T := by
  obtain ⟨h1, h2, h3⟩ := hinv
  refine ⟨h1, h2, ?_⟩
  intro y m0 hl
  obtain ⟨mh, ha, hb, hc, hd, he, hf, hg, hh⟩ := h3 y m0 hl
  exact ⟨mh, ha, hb, hc, hd, he, hf,
    fun z => (hg z).trans (heq z y), fun z => (hh z).trans (heq y z)⟩

/-- A node that is already dirty with no cache is untouched by any dirty
marking. -/
theorem markRel_fresh_node {g g' : Graph} (hm : MarkRel g g') {x : Nat} {m : PNode}
    (hl : g.lookup x = some m) (hd : m.is_dirty = true) (hc : m.cached_data = none) :
    g'.lookup x = some m := by
  rcases markRel_lookup hm x with ⟨h1, _⟩ | ⟨m1, m2, h1, h2, h3⟩
  · rw [h1] at hl
    cases hl
  · rw [h1] at hl
    cases hl
    rcases h3 with h3 | ⟨hcl, h3⟩
    · rw [h3] at h2
      exact h2
    · rw [hd] at hcl
      cases hcl

theorem nodup_append_singleton {l : List Nat} {a : Nat} (hnd : l.Nodup) (ha : a ∉ l) :
    (l ++ [a]).Nodup := by
  rw [List.nodup_append]
  exact ⟨hnd, List.nodup_singleton a,
    fun x hx hy => ha ((List.mem_singleton.mp hy) ▸ hx)⟩

theorem newNodes_keys (registry : Registry) : ∀ (ns : List (Nat × PNode)) (base : Nat),
    (newNodes registry ns base).map (fun p => p.1) = List.range' base ns.length := by
  intro ns
  induction ns with
  | nil =>
    intro base
    rfl
  | cons p rest ih =>
    intro base
    rw [show newNodes registry (p :: rest) base =
      (base, mkNode p.2.name (restoreParams registry (snapOfNode p))) ::
        newNodes registry rest (base + 1) from rfl]
    rw [List.map_cons, ih (base + 1)]
    rfl

/-- The recreated node graph before any edge is added: fresh sequential ids,
no edges, every node dirty with no cache. -/
theorem edgeFoldInv_base (registry : Registry) (ns : List (Nat × PNode)) (k : Nat)
    (hnd : (ns.map (fun p => p.1)).Nodup) :
    EdgeFoldInv { nodes := newNodes registry ns 0, nextId := k }
      { nodes := newNodes registry ns 0, nextId := k }
      (fun _ _ => False) := by
  refine ⟨?_, fun y => rfl, ?_⟩
  · unfold NodupKeys
    show ((newNodes registry ns 0).map (fun p => p.1)).Nodup
    rw [newNodes_keys]
    exact List.nodup_range' _ _
  · intro y m0 hl
    have hfq := lookup_find? hl
    obtain ⟨x, n, hx1, hx2, hshape⟩ := newNodes_find_inv registry ns 0 y (y, m0) hnd hfq
    have hm0 : m0 = mkNode n.name (restoreParams registry (snapOfNode (x, n))) := hshape
    refine ⟨m0, hl, rfl, rfl, ?_, ?_, ?_, ?_, ?_⟩
    · rw [hm0]
      rfl
    · rw [hm0]
      rfl
    · rw [hm0]
      exact List.nodup_nil
    · intro z
      rw [hm0]
      exact ⟨fun hz => absurd hz (List.not_mem_nil z), False.elim⟩
    · intro z
      rw [hm0]
      exact ⟨fun hz => absurd hz (List.not_mem_nil z), False.elim⟩

/-- One successful `connect` during edge recreation adds exactly the
requested edge and keeps everything else. -/
theorem edgeFoldInv_connect {g0 h : Graph} {S : Nat → Nat → Prop}
    (hinv : EdgeFoldInv g0 h S) {yf yt : Nat} {m0f m0t : PNode}
    (hf0 : g0.lookup yf = some m0f) (ht0 : g0.lookup yt = some m0t)
    (hnew : ¬ S yf yt) :
    EdgeFoldInv g0 (h.connect yf yt).2 (fun a b => S a b ∨ (a = yf ∧ b = yt)) := by
  obtain ⟨hnd, hpres, hcore⟩ := hinv
  obtain ⟨nf, hlf, hnamef, hparf, hdf, hcf, hndf, hinf, houtf⟩ := hcore yf m0f hf0
  obtain ⟨nt, hlt, hnamet, hpart, hdt, hct, hndt, hint, houtt⟩ := hcore yt m0t ht0
  have hguard : yt ∉ nf.outputs := fun hc => hnew ((houtf yt).mp hc)
  have hnoin : yf ∉ nt.inputs := fun hc => hnew ((hint yf).mp hc)
  rw [connect_success_eq hlf hlt hguard hnoin]
  have hchar := fun x => connectMid_lookup hlf hlt x
  have hkeysM : keysOf (connectMid h yf yt nt) = keysOf h := by
    unfold connectMid
    rcases hsc : (h.update yt { nt with inputs := nt.inputs ++ [yf] }).lookup yf with _ | on2
    · simp only [hsc]
      exact keysOf_update _ _ _
    · simp only [hsc]
      exact (keysOf_update _ _ _).trans (keysOf_update _ _ _)
  have hndM : NodupKeys (connectMid h yf yt nt) := by
    unfold NodupKeys
    show (keysOf (connectMid h yf yt nt)).Nodup
    rw [hkeysM]
    exact hnd
  have hmr := markRel_graph_set_dirty_true (connectMid h yf yt nt) yt hndM
  refine ⟨markRel_nodupKeys hmr hndM, ?_, ?_⟩
  · intro y
    have e1 := lookup_isSome_iff_mem_keys ((connectMid h yf yt nt).set_dirty yt true) y
    rw [markRel_keysOf hmr, hkeysM] at e1
    have e2 := lookup_isSome_iff_mem_keys h y
    rw [← hpres y, Bool.eq_iff_iff]
    exact e1.trans e2.symm
  · intro y m0 hl0
    by_cases hab : yf = yt
    · subst hab
      have hnfnt : nf = nt := Option.some.inj (hlf.symm.trans hlt)
      subst hnfnt
      by_cases hy : y = yf
      · subst hy
        have hm0 : m0 = m0f := Option.some.inj (hl0.symm.trans hf0)
        subst hm0
        have hmid : (connectMid h y y nf).lookup y =
            some { nf with inputs := nf.inputs ++ [y], outputs := nf.outputs ++ [y] } := by
          rw [hchar y, if_pos rfl, if_pos rfl]
        have hfin := markRel_fresh_node hmr hmid hdf hcf
        refine ⟨_, hfin, hnamef, hparf, hdf, hcf, ?_, ?_, ?_⟩
        · exact nodup_append_singleton hndf hnoin
        · intro z
          show z ∈ nf.inputs ++ [y] ↔ _
          rw [List.mem_append, List.mem_singleton, hinf z]
          constructor
          · rintro (hs | he)
            · exact Or.inl hs
            · exact Or.inr ⟨he, rfl⟩
          · rintro (hs | he)
            · exact Or.inl hs
            · exact Or.inr he.1
        · intro z
          show z ∈ nf.outputs ++ [y] ↔ _
          rw [List.mem_append, List.mem_singleton, houtf z]
          constructor
          · rintro (hs | he)
            · exact Or.inl hs
            · exact Or.inr ⟨rfl, he⟩
          · rintro (hs | he)
            · exact Or.inl hs
            · exact Or.inr he.2
      · obtain ⟨ny, hly, hna, hpa, hdy, hcy, hndy, hiny, houty⟩ := hcore y m0 hl0
        have hmid : (connectMid h yf yf nf).lookup y = some ny := by
          rw [hchar y, if_pos rfl, if_neg hy]
          exact hly
        have hfin := markRel_fresh_node hmr hmid hdy hcy
        refine ⟨ny, hfin, hna, hpa, hdy, hcy, hndy, ?_, ?_⟩
        · intro z
          rw [hiny z]
          constructor
          · exact fun hs => Or.inl hs
          · rintro (hs | he)
            · exact hs
            · exact absurd he.2 hy
        · intro z
          rw [houty z]
          constructor
          · exact fun hs => Or.inl hs
          · rintro (hs | he)
            · exact hs
            · exact absurd he.1 hy
    · by_cases hyf : y = yf
      · subst hyf
        have hm0 : m0 = m0f := Option.some.inj (hl0.symm.trans hf0)
        subst hm0
        have hmid : (connectMid h y yt nt).lookup y =
            some { nf with outputs := nf.outputs ++ [yt] } := by
          rw [hchar y, if_neg hab, if_pos rfl]
        have hfin := markRel_fresh_node hmr hmid hdf hcf
        refine ⟨_, hfin, hnamef, hparf, hdf, hcf, hndf, ?_, ?_⟩
        · intro z
          show z ∈ nf.inputs ↔ _
          rw [hinf z]
          constructor
          · exact fun hs => Or.inl hs
          · rintro (hs | he)
            · exact hs
            · exact absurd he.2 hab
        · intro z
          show z ∈ nf.outputs ++ [yt] ↔ _
          rw [List.mem_append, List.mem_singleton, houtf z]
          constructor
          · rintro (hs | he)
            · exact Or.inl hs
            · exact Or.inr ⟨rfl, he⟩
          · rintro (hs | he)
            · exact Or.inl hs
            · exact Or.inr he.2
      · by_cases hyt : y = yt
        · subst hyt
          have hm0 : m0 = m0t := Option.some.inj (hl0.symm.trans ht0)
          subst hm0
          have hmid : (connectMid h yf y nt).lookup y =
              some { nt with inputs := nt.inputs ++ [yf] } := by
            rw [hchar y, if_neg hab, if_neg hyf, if_pos rfl]
          have hfin := markRel_fresh_node hmr hmid hdt hct
          refine ⟨_, hfin, hnamet, hpart, hdt, hct, ?_, ?_, ?_⟩
          · exact nodup_append_singleton hndt hnoin
          · intro z
            show z ∈ nt.inputs ++ [yf] ↔ _
            rw [List.mem_append, List.mem_singleton, hint z]
            constructor
            · rintro (hs | he)
              · exact Or.inl hs
              · exact Or.inr ⟨he, rfl⟩
            · rintro (hs | he)
              · exact Or.inl hs
              · exact Or.inr he.1
          · intro z
            show z ∈ nt.outputs ↔ _
            rw [houtt z]
            constructor
            · exact fun hs => Or.inl hs
            · rintro (hs | he)
              · exact hs
              · exact absurd he.1 (fun hc => hab hc.symm)
        · obtain ⟨ny, hly, hna, hpa, hdy, hcy, hndy, hiny, houty⟩ := hcore y m0 hl0
          have hmid : (connectMid h yf yt nt).lookup y = some ny := by
            rw [hchar y, if_neg hab, if_neg hyf, if_neg hyt]
            exact hly
          have hfin := markRel_fresh_node hmr hmid hdy hcy
          refine ⟨ny, hfin, hna, hpa, hdy, hcy, hndy, ?_, ?_⟩
          · intro z
            rw [hiny z]
            constructor
            · exact fun hs => Or.inl hs
            · rintro (hs | he)
              · exact hs
              · exact absurd he.2 hyt
          · intro z
            rw [houty z]
            constructor
            · exact fun hs => Or.inl hs
            · rintro (hs | he)
              · exact hs
              · exact absurd he.1 hyf

theorem recreateEdges_cons (m : List (Nat × Nat)) (e : EdgeSnap) (rest : List EdgeSnap)
    (h : Graph) :
    recreateEdges m (e :: rest) h =
      match remapLookup m e.from_node, remapLookup m e.to_node with
      | some yf, some yt => recreateEdges m rest (h.connect yf yt).2
      | _, _ => recreateEdges m rest h := rfl

/-- An old-id edge that the remap translates to the fresh pair (a, b). -/
def MappedIn (m : List (Nat × Nat)) (es : List EdgeSnap) (a b : Nat) : Prop :=
  ∃ e ∈ es, remapLookup m e.from_node = some a ∧ remapLookup m e.to_node = some b

theorem remapLookup_char {m : List (Nat × Nat)} {x y : Nat}
    (h : remapLookup m x = some y) : m.find? (fun p => p.1 == x) = some (x, y) := by
  unfold remapLookup at h
  rcases hf : m.find? (fun p => p.1 == x) with _ | q
  · rw [hf] at h
    cases h
  · rw [hf] at h
    have h2 : q.2 = y := Option.some.inj h
    have h1 : q.1 = x := by
      have := List.find?_some hf
      simpa using this
    rw [hf, show (x, y) = q from by rw [← h1, ← h2]]

/-- The whole edge-recreation fold: processed edges accumulate one by one,
each `connect` succeeding, so the final adjacency is exactly the mapped edge
set. -/
theorem recreateEdges_inv (g0 : Graph) (m : List (Nat × Nat)) :
    ∀ (es : List EdgeSnap) (h : Graph) (S : Nat → Nat → Prop),
      EdgeFoldInv g0 h S →
      (∀ a b, MappedIn m es a b → ¬ S a b) →
      List.Pairwise (fun e1 e2 => ∀ a b a2 b2,
        remapLookup m e1.from_node = some a → remapLookup m e1.to_node = some b →
        remapLookup m e2.from_node = some a2 → remapLookup m e2.to_node = some b2 →
        ¬ (a = a2 ∧ b = b2)) es →
      (∀ e ∈ es, ∀ a b, remapLookup m e.from_node = some a →
        remapLookup m e.to_node = some b →
        (∃ q, g0.lookup a = some q) ∧ (∃ q, g0.lookup b = some q)) →
      EdgeFoldInv g0 (recreateEdges m es h) (fun a b => S a b ∨ MappedIn m es a b) := by
  intro es
  induction es with
  | nil =>
    intro h S hinv hdisj hpair hpres
    refine edgeFoldInv_equiv ?_ hinv
    intro a b
    constructor
    · exact fun hs => Or.inl hs
    · rintro (hs | ⟨e, he, _⟩)
      · exact hs
      · exact absurd he (List.not_mem_nil e)
  | cons e rest ih =>
    intro h S hinv hdisj hpair hpres
    rw [recreateEdges_cons]
    obtain ⟨hpairhead, hpairtail⟩ := List.pairwise_cons.mp hpair
    rcases hfrom : remapLookup m e.from_node with _ | yf
    · have hskip : ∀ a b, MappedIn m (e :: rest) a b ↔ MappedIn m rest a b := by
        intro a b
        constructor
        · rintro ⟨e2, he2, h1, h2⟩
          rcases List.mem_cons.mp he2 with he2 | he2
          · rw [he2] at h1
            rw [hfrom] at h1
            cases h1
          · exact ⟨e2, he2, h1, h2⟩
        · rintro ⟨e2, he2, h1, h2⟩
          exact ⟨e2, List.mem_cons.mpr (Or.inr he2), h1, h2⟩
      refine edgeFoldInv_equiv ?_ (ih h S hinv
        (fun a b hm => hdisj a b ((hskip a b).mpr hm)) hpairtail
        (fun e2 he2 => hpres e2 (List.mem_cons.mpr (Or.inr he2))))
      intro a b
      constructor
      · rintro (hs | hm)
        · exact Or.inl hs
        · exact Or.inr ((hskip a b).mpr hm)
      · rintro (hs | hm)
        · exact Or.inl hs
        · exact Or.inr ((hskip a b).mp hm)
    · rcases hto : remapLookup m e.to_node with _ | yt
      · have hskip : ∀ a b, MappedIn m (e :: rest) a b ↔ MappedIn m rest a b := by
          intro a b
          constructor
          · rintro ⟨e2, he2, h1, h2⟩
            rcases List.mem_cons.mp he2 with he2 | he2
            · rw [he2] at h2
              rw [hto] at h2
              cases h2
            · exact ⟨e2, he2, h1, h2⟩
          · rintro ⟨e2, he2, h1, h2⟩
            exact ⟨e2, List.mem_cons.mpr (Or.inr he2), h1, h2⟩
        refine edgeFoldInv_equiv ?_ (ih h S hinv
          (fun a b hm => hdisj a b ((hskip a b).mpr hm)) hpairtail
          (fun e2 he2 => hpres e2 (List.mem_cons.mpr (Or.inr he2))))
        intro a b
        constructor
        · rintro (hs | hm)
          · exact Or.inl hs
          · exact Or.inr ((hskip a b).mpr hm)
        · rintro (hs | hm)
          · exact Or.inl hs
          · exact Or.inr ((hskip a b).mp hm)
      · obtain ⟨⟨qf, hqf⟩, ⟨qt, hqt⟩⟩ := hpres e (List.mem_cons_self e rest)
          yf yt hfrom hto
        have hnew : ¬ S yf yt :=
          hdisj yf yt ⟨e, List.mem_cons_self e rest, hfrom, hto⟩
        have hstep := edgeFoldInv_connect ⟨hinv.1, hinv.2.1, hinv.2.2⟩ hqf hqt hnew
        have hdisj2 : ∀ a b, MappedIn m rest a b →
            ¬ (S a b ∨ (a = yf ∧ b = yt)) := by
          rintro a b hm (hs | ⟨ha, hb⟩)
          · exact hdisj a b ⟨hm.choose, List.mem_cons.mpr (Or.inr hm.choose_spec.1),
              hm.choose_spec.2.1, hm.choose_spec.2.2⟩ hs
          · obtain ⟨e2, he2, h1, h2⟩ := hm
            exact hpairhead e2 he2 yf yt a b hfrom hto h1 h2 ⟨ha.symm, hb.symm⟩
        have hres := ih (h.connect yf yt).2 (fun a b => S a b ∨ (a = yf ∧ b = yt))
          hstep hdisj2 hpairtail
          (fun e2 he2 => hpres e2 (List.mem_cons.mpr (Or.inr he2)))
        refine edgeFoldInv_equiv ?_ hres
        intro a b
        constructor
        · rintro ((hs | ⟨ha, hb⟩) | hm)
          · exact Or.inl hs
          · refine Or.inr ⟨e, List.mem_cons_self e rest, ?_, ?_⟩
            · rw [ha]
              exact hfrom
            · rw [hb]
              exact hto
          · obtain ⟨e2, he2, h1, h2⟩ := hm
            exact Or.inr ⟨e2, List.mem_cons.mpr (Or.inr he2), h1, h2⟩
        · rintro (hs | ⟨e2, he2, h1, h2⟩)
          · exact Or.inl (Or.inl hs)
          · rcases List.mem_cons.mp he2 with he2 | he2
            · subst he2
              rw [hfrom] at h1
              rw [hto] at h2
              exact Or.inl (Or.inr ⟨(Option.some.inj h1).symm, (Option.some.inj h2).symm⟩)
            · exact Or.inr ⟨e2, he2, h1, h2⟩

/-- C7: round-trip.  For every well-formed graph G and any registry that
resolves each stored node's type to a constructor with the same parameter
keys, `recreate_from_workflow(serialize(G))` yields a graph isomorphic to G
in node types, parameter values, and edge topology, with the returned
old-id→new-id remap witnessing the isomorphism: the remap is defined and
injective on G's ids and onto the new graph's ids, each image node carries
the original name and parameter values (freshly loaded: dirty with no
cache), and an edge exists between two old ids iff its image exists between
the remapped ids.  (`recreate_from_workflow` itself is modelled from the
spec, as it is absent from the sources; `serialize` is translated from
`save_workflow`.) -/
theorem recreate_roundtrip {G : Graph} (hwf : WF G) (registry : Registry)
    (hreg : ∀ x n, G.lookup x = some n → ∃ ds, registry n.name = some ds ∧
      ds.map (fun q => q.1) = n.parameters.map (fun q => q.1)) :
    (∀ x n, G.lookup x = some n → ∃ y mr,
      remapLookup (Graph.empty.recreate_from_workflow (serializeGraph G) registry).2 x = some y ∧
      (Graph.empty.recreate_from_workflow (serializeGraph G) registry).1.lookup y = some mr ∧
      mr.name = n.name ∧
      (∀ k, mr.get_parameter k = n.get_parameter k) ∧
      mr.is_dirty = true ∧ mr.cached_data = none) ∧
    (∀ x1 x2 y,
      remapLookup (Graph.empty.recreate_from_workflow (serializeGraph G) registry).2 x1 = some y →
      remapLookup (Graph.empty.recreate_from_workflow (serializeGraph G) registry).2 x2 = some y →
      x1 = x2) ∧
    (∀ y mr, (Graph.empty.recreate_from_workflow (serializeGraph G) registry).1.lookup y = some mr →
      ∃ x n, G.lookup x = some n ∧
        remapLookup (Graph.empty.recreate_from_workflow (serializeGraph G) registry).2 x = some y) ∧
    (∀ a b na nb ya yb, G.lookup a = some na → G.lookup b = some nb →
      remapLookup (Graph.empty.recreate_from_workflow (serializeGraph G) registry).2 a = some ya →
      remapLookup (Graph.empty.recreate_from_workflow (serializeGraph G) registry).2 b = some yb →
      ((a ∈ nb.inputs) ↔ ∃ mb,
        (Graph.empty.recreate_from_workflow (serializeGraph G) registry).1.lookup yb = some mb ∧
        ya ∈ mb.inputs) ∧
      ((b ∈ na.outputs) ↔ ∃ ma,
        (Graph.empty.recreate_from_workflow (serializeGraph G) registry).1.lookup ya = some ma ∧
        yb ∈ ma.outputs)) := by
  have hnds : NodupKeys G := hwf.nodup
  have hndsl : (G.nodes.map (fun p => p.1)).Nodup := hnds
  have hregS : ∀ p ∈ G.nodes, (registry p.2.name).isSome = true := by
    intro p hp
    obtain ⟨ds, hds, _⟩ := hreg p.1 p.2 (mem_lookup hnds hp)
    rw [hds]
    rfl
  have hshape := recreateNodes_shape registry G.nodes Graph.empty [] hregS
  have hr2 : (Graph.empty.recreate_from_workflow (serializeGraph G) registry).2 =
      newRemap G.nodes 0 := by
    show (recreateNodes registry (G.nodes.map snapOfNode) Graph.empty []).2 = _
    rw [hshape]
    rfl
  have hr1 : (Graph.empty.recreate_from_workflow (serializeGraph G) registry).1 =
      recreateEdges (newRemap G.nodes 0) (serializeGraph G).connections
        { nodes := newNodes registry G.nodes 0, nextId := 0 + G.nodes.length } := by
    show recreateEdges (recreateNodes registry (G.nodes.map snapOfNode) Graph.empty []).2
        (serializeGraph G).connections
        (recreateNodes registry (G.nodes.map snapOfNode) Graph.empty []).1 = _
    rw [hshape]
    rfl
  rw [hr1, hr2]
  set rm : List (Nat × Nat) := newRemap G.nodes 0 with hrm
  set Gr0 : Graph := { nodes := newNodes registry G.nodes 0, nextId := 0 + G.nodes.length }
    with hGr0def
  have hfwd : ∀ x n, G.lookup x = some n → ∃ y,
      remapLookup rm x = some y ∧
      Gr0.lookup y = some (mkNode n.name (restoreParams registry (snapOfNode (x, n)))) := by
    intro x n hl
    obtain ⟨y, hb1, hb2, hy3, hy4⟩ := newRemap_newNodes_find registry G.nodes 0 x n
      (lookup_find? hl)
    refine ⟨y, ?_, ?_⟩
    · show ((newRemap G.nodes 0).find? (fun p => p.1 == x)).map (fun p => p.2) = some y
      rw [hy3]
      rfl
    · show ((newNodes registry G.nodes 0).find? (fun p => p.1 == y)).map (fun p => p.2) = _
      rw [hy4]
      rfl
  have hinj : ∀ x1 x2 y, remapLookup rm x1 = some y → remapLookup rm x2 = some y →
      x1 = x2 := by
    intro x1 x2 y h1 h2
    exact newRemap_inj G.nodes 0 x1 x2 (x1, y) (x2, y)
      (remapLookup_char h1) (remapLookup_char h2) rfl
  have hbase := edgeFoldInv_base registry G.nodes (0 + G.nodes.length) hndsl
  have himp : ∀ e1 e2 : EdgeSnap, e1 ≠ e2 → ∀ a b a2 b2,
      remapLookup rm e1.from_node = some a → remapLookup rm e1.to_node = some b →
      remapLookup rm e2.from_node = some a2 → remapLookup rm e2.to_node = some b2 →
      ¬ (a = a2 ∧ b = b2) := by
    intro e1 e2 hne a b a2 b2 h1 h2 h3 h4 hcon
    apply hne
    obtain ⟨hae, hbe⟩ := hcon
    have hfe : e1.from_node = e2.from_node :=
      hinj _ _ _ h1 (show remapLookup rm e2.from_node = some a from by rw [hae]; exact h3)
    have hte : e1.to_node = e2.to_node :=
      hinj _ _ _ h2 (show remapLookup rm e2.to_node = some b from by rw [hbe]; exact h4)
    cases e1
    cases e2
    exact congrArg₂ EdgeSnap.mk hfe hte
  have hpairE : List.Pairwise (fun e1 e2 => ∀ a b a2 b2,
      remapLookup rm e1.from_node = some a → remapLookup rm e1.to_node = some b →
      remapLookup rm e2.from_node = some a2 → remapLookup rm e2.to_node = some b2 →
      ¬ (a = a2 ∧ b = b2)) (serializeGraph G).connections :=
    List.Pairwise.imp (fun hab => himp _ _ hab) (serialize_edges_nodup hwf)
  have hpresE : ∀ e ∈ (serializeGraph G).connections, ∀ a b,
      remapLookup rm e.from_node = some a → remapLookup rm e.to_node = some b →
      (∃ q, Gr0.lookup a = some q) ∧ (∃ q, Gr0.lookup b = some q) := by
    intro e heE a b hfm htm
    obtain ⟨ny, hlt, hfin⟩ := (mem_serialize_connections hnds e).mp heE
    have hfromPres := hwf.closedIn e.to_node ny hlt e.from_node hfin
    obtain ⟨nf, hnf⟩ := Option.isSome_iff_exists.mp hfromPres
    obtain ⟨ya, hya1, hya2⟩ := hfwd e.from_node nf hnf
    obtain ⟨yb, hyb1, hyb2⟩ := hfwd e.to_node ny hlt
    have h1 : ya = a := Option.some.inj (hya1.symm.trans hfm)
    subst h1
    have h2 : yb = b := Option.some.inj (hyb1.symm.trans htm)
    subst h2
    exact ⟨⟨_, hya2⟩, ⟨_, hyb2⟩⟩
  have hfold := recreateEdges_inv Gr0 rm (serializeGraph G).connections Gr0
    (fun _ _ => False) hbase (fun a b _ hF => hF) hpairE hpresE
  obtain ⟨hndF, hpresF, hcoreF⟩ := hfold
  have hmapped : ∀ a b ya yb na nb, G.lookup a = some na → G.lookup b = some nb →
      remapLookup rm a = some ya → remapLookup rm b = some yb →
      (MappedIn rm (serializeGraph G).connections ya yb ↔ a ∈ nb.inputs) := by
    intro a b ya yb na nb hla hlb hra hrb
    constructor
    · rintro ⟨e, heE, h1, h2⟩
      obtain ⟨ny, hlt, hfin⟩ := (mem_serialize_connections hnds e).mp heE
      have hea : e.from_node = a := hinj _ _ _ h1 hra
      have heb : e.to_node = b := hinj _ _ _ h2 hrb
      rw [hea] at hfin
      rw [heb] at hlt
      rw [hlb] at hlt
      cases Option.some.inj hlt
      exact hfin
    · intro hain
      refine ⟨EdgeSnap.mk a b, ?_, hra, hrb⟩
      exact (mem_serialize_connections hnds (EdgeSnap.mk a b)).mpr ⟨nb, hlb, hain⟩
  refine ⟨?_, hinj, ?_, ?_⟩
  · intro x n hl
    obtain ⟨y, hy1, hy2⟩ := hfwd x n hl
    obtain ⟨ds, hds, hkeys⟩ := hreg x n hl
    obtain ⟨mr, hmr, hname, hpar, hdirty, hcache, _, _, _⟩ :=
      hcoreF y (mkNode n.name (restoreParams registry (snapOfNode (x, n)))) hy2
    refine ⟨y, mr, hy1, hmr, ?_, ?_, hdirty, hcache⟩
    · rw [hname]
      rfl
    · intro k
      unfold PNode.get_parameter
      rw [hpar]
      show ((restoreParams registry (snapOfNode (x, n))).find?
        (fun p => p.1 == k)).map (fun p => p.2.value) = _
      rw [show restoreParams registry (snapOfNode (x, n)) =
          ds.map (fun q => match n.parameters.find? (fun p => p.1 == q.1) with
            | some p => (q.1, { q.2 with value := p.2.value })
            | none => q) from by
        unfold restoreParams
        rw [show registry (snapOfNode (x, n)).type = registry n.name from rfl, hds]
        rfl]
      exact restore_values n.parameters ds hkeys k
  · intro y mr hlY
    have hps : (Gr0.lookup y).isSome = true := by
      rw [← hpresF y, hlY]
      rfl
    obtain ⟨q0, hq0⟩ := Option.isSome_iff_exists.mp hps
    have hfq := lookup_find? hq0
    obtain ⟨x, n, hx1, hx2, _⟩ := newNodes_find_inv registry G.nodes 0 y (y, q0) hndsl hfq
    refine ⟨x, n, ?_, ?_⟩
    · show (G.nodes.find? (fun p => p.1 == x)).map (fun p => p.2) = some n
      rw [hx1]
      rfl
    · show ((newRemap G.nodes 0).find? (fun p => p.1 == x)).map (fun p => p.2) = some y
      rw [hx2]
      rfl
  · intro a b na nb ya yb hla hlb hra hrb
    obtain ⟨ya2, hya1, hya2g⟩ := hfwd a na hla
    obtain ⟨yb2, hyb1, hyb2g⟩ := hfwd b nb hlb
    have e1 : ya2 = ya := Option.some.inj (hya1.symm.trans hra)
    subst e1
    have e2 : yb2 = yb := Option.some.inj (hyb1.symm.trans hrb)
    subst e2
    obtain ⟨ma, hma, _, _, _, _, _, hinA, houtA⟩ := hcoreF ya2 _ hya2g
    obtain ⟨mb, hmb, _, _, _, _, _, hinB, houtB⟩ := hcoreF yb2 _ hyb2g
    have hbridge := hmapped a b ya2 yb2 na nb hla hlb hra hrb
    have hGmirror : b ∈ na.outputs ↔ a ∈ nb.inputs := by
      have hcnt := hwf.mirror a na b nb hla hlb
      constructor
      · intro h
        have hpos := List.count_pos_iff.mpr h
        rw [hcnt] at hpos
        exact List.count_pos_iff.mp hpos
      · intro h
        have hpos := List.count_pos_iff.mpr h
        rw [← hcnt] at hpos
        exact List.count_pos_iff.mp hpos
    constructor
    · constructor
      · intro hain
        refine ⟨mb, hmb, ?_⟩
        rw [hinB ya2]
        exact Or.inr (hbridge.mpr hain)
      · rintro ⟨mb', hmb', hyin⟩
        rw [hmb] at hmb'
        cases hmb'
        rcases (hinB ya2).mp hyin with hF | hm
        · exact hF.elim
        · exact hbridge.mp hm
    · constructor
      · intro hbout
        refine ⟨ma, hma, ?_⟩
        rw [houtA yb2]
        exact Or.inr (hbridge.mpr (hGmirror.mp hbout))
      · rintro ⟨ma', hma', hyout⟩
        rw [hma] at hma'
        cases hma'
        rcases (houtA yb2).mp hyout with hF | hm
        · exact hF.elim
        · exact hGmirror.mpr (hbridge.mp hm)

/-- Concrete registry for the round-trip witness: the two node classes used
by `gC4`, resolving to their default parameter dicts. -/
def registry7 : Registry := fun t =>
  if t = "Color Convert" then
    some [("mode", { ptype := "int", value := PValue.int 0, range := some (0, 3), step := some 1 })]
  else if t = "Input" then
    some [("filepath", { ptype := "filepath", value := PValue.str "", range := none, step := none })]
  else none

/-- Witness for `recreate_roundtrip` on the concrete two-node graph with the
edge 0→1: the Input node survives the round trip with its name and parameter
value, and the edge reappears between the remapped ids. -/
theorem recreate_roundtrip_witness :
    (∃ y mr,
      remapLookup (Graph.empty.recreate_from_workflow (serializeGraph gC4) registry7).2 1 = some y ∧
      (Graph.empty.recreate_from_workflow (serializeGraph gC4) registry7).1.lookup y = some mr ∧
      mr.name = "Input" ∧ mr.get_parameter "filepath" = some (PValue.str "") ∧
      mr.is_dirty = true ∧ mr.cached_data = none) ∧
    (∃ ya yb mb,
      remapLookup (Graph.empty.recreate_from_workflow (serializeGraph gC4) registry7).2 0 = some ya ∧
      remapLookup (Graph.empty.recreate_from_workflow (serializeGraph gC4) registry7).2 1 = some yb ∧
      (Graph.empty.recreate_from_workflow (serializeGraph gC4) registry7).1.lookup yb = some mb ∧
      ya ∈ mb.inputs) := by
  have hsr : StructReachable gC4 :=
    StructReachable.connect _ 0 1
      (StructReachable.add_node _ _ _ (StructReachable.add_node _ _ _ StructReachable.empty))
  have hwf := (structReachable_inv hsr).1
  have hreg : ∀ x n, gC4.lookup x = some n → ∃ ds, registry7 n.name = some ds ∧
      ds.map (fun q => q.1) = n.parameters.map (fun q => q.1) := by
    intro x n hl
    have hmem := lookup_mem hl
    have hnodes : gC4.nodes =
        [(0, { name := "Color Convert", inputs := [], outputs := [1],
               parameters := [("mode", { ptype := "int", value := PValue.int 0, range := some (0, 3), step := some 1 })],
               cached_data := none, is_dirty := true }),
         (1, { name := "Input", inputs := [0], outputs := [],
               parameters := [("filepath", { ptype := "filepath", value := PValue.str "", range := none, step := none })],
               cached_data := none, is_dirty := true })] := by decide
    rw [hnodes] at hmem
    rcases List.mem_cons.mp hmem with h | h
    · rw [Prod.mk.injEq] at h
      rw [h.2]
      exact ⟨[("mode", { ptype := "int", value := PValue.int 0, range := some (0, 3), step := some 1 })],
        by decide, by decide⟩
    · rcases List.mem_cons.mp h with h2 | h2
      · rw [Prod.mk.injEq] at h2
        rw [h2.2]
        exact ⟨[("filepath", { ptype := "filepath", value := PValue.str "", range := none, step := none })],
          by decide, by decide⟩
      · exact absurd h2 (List.not_mem_nil _)
  have H := recreate_roundtrip hwf registry7 hreg
  obtain ⟨ya, ma, hra, hla, _, _, _, _⟩ := H.1 0
    { name := "Color Convert", inputs := [], outputs := [1],
      parameters := [("mode", { ptype := "int", value := PValue.int 0, range := some (0, 3), step := some 1 })],
      cached_data := none, is_dirty := true } (by decide)
  obtain ⟨yb, mb0, hrb, hlb, hnb, hpb, hdb, hcb⟩ := H.1 1
    { name := "Input", inputs := [0], outputs := [],
      parameters := [("filepath", { ptype := "filepath", value := PValue.str "", range := none, step := none })],
      cached_data := none, is_dirty := true } (by decide)
  refine ⟨⟨yb, mb0, hrb, hlb, ?_, ?_, hdb, hcb⟩, ?_⟩
  · rw [hnb]
  · have h := hpb "filepath"
    rw [h]
    decide
  · have hedge := (H.2.2.2 0 1
      { name := "Color Convert", inputs := [], outputs := [1],
        parameters := [("mode", { ptype := "int", value := PValue.int 0, range := some (0, 3), step := some 1 })],
        cached_data := none, is_dirty := true }
      { name := "Input", inputs := [0], outputs := [],
        parameters := [("filepath", { ptype := "filepath", value := PValue.str "", range := none, step := none })],
        cached_data := none, is_dirty := true }
      ya yb (by decide) (by decide) hra hrb).1
    obtain ⟨mb, hmb, hyain⟩ := hedge.mp (by decide)
    exact ⟨ya, yb, mb, hra, hrb, hmb, hyain⟩
